import Mathlib

/-!
# LanVM: a shallow embedding of the execution engine

The definitions below follow `include/lanvm.h` and the files under `src/lanvm/`
(`memory.c`, `exception.c`, `ds.c`, `alu.c`, `lanvm.c`, `execute.c`).

Conventions of the embedding.

* `uint16_t` and `uint8_t` objects are natural numbers; every store into such an object
  reduces modulo `2^16` resp. `2^8`. Intermediate C `int` arithmetic is carried out in `Int`
  (the usual integer promotions), and the conversion back is `u16` / `u8`.
* A C function `T f(VM *vm, ...)` becomes `f ... : M T`, a state transformer over `VM` whose
  outcome is a normal return, process termination through `vm_exit`, or undefined behaviour
  (an access outside the `memory` buffer, a dereferenced null pointer).
* A `uint16_t *` that points at a register or into `memory` is a `Ref`; the null pointer is
  `none`. A two byte access through such a pointer into `memory` is little endian, as on the
  hosts the program is built for.
* The text printed by diagnostics is not modelled; `VM.diag` records which diagnostics were
  raised (code and severity), in order.
-/

namespace LanVM

/-! ## Constants of `include/lanvm.h` -/

abbrev DEFAULT_MEMORY_SIZE : Nat := 1024

abbrev EXC_SEVERE : Nat := 0
abbrev EXC_WARNING : Nat := 1

abbrev ERR_NO_ERROR : Int := 0
abbrev ERR_OOB_OFF : Int := -1
abbrev ERR_OOB_REG : Int := -2
abbrev ERR_STACK_OVERFLOW : Int := -3
abbrev ERR_STACK_UNDERFLOW : Int := -4
abbrev ERR_INVALID_OPCODE : Int := -5
abbrev ERR_PC_OOB : Int := -6
abbrev ERR_MALLOC : Int := -7
abbrev ERR_FREE : Int := -8
abbrev ERR_DBZ : Int := -9
abbrev ERR_NULL_PTR : Int := -10
abbrev ERR_INVALID_ALU : Int := -11

/-! The `ISA` enumeration. -/

abbrev NOP : Nat := 0x00
abbrev LD_dest_src : Nat := 0x01
abbrev LD_dest_imm16 : Nat := 0x02
abbrev PUSH_src : Nat := 0x03
abbrev PUSH_imm16 : Nat := 0x04
abbrev POP_dest : Nat := 0x05
abbrev ADD_dest_src : Nat := 0x06
abbrev ADD_dest_imm16 : Nat := 0x07
abbrev SUB_dest_src : Nat := 0x08
abbrev SUB_dest_imm16 : Nat := 0x09
abbrev AND_dest_src : Nat := 0x0a
abbrev AND_dest_imm16 : Nat := 0x0b
abbrev OR_dest_src : Nat := 0x0c
abbrev OR_dest_imm16 : Nat := 0x0d
abbrev XOR_dest_src : Nat := 0x0e
abbrev XOR_dest_imm16 : Nat := 0x0f
abbrev CMP_dest_src : Nat := 0x10
abbrev CMP_dest_imm16 : Nat := 0x11
abbrev MUL_dest_src : Nat := 0x12
abbrev MUL_dest_imm16 : Nat := 0x13
abbrev DIV_dest_src : Nat := 0x14
abbrev DIV_dest_imm16 : Nat := 0x15
abbrev NOT_dest : Nat := 0x16
abbrev INC_dest : Nat := 0x17
abbrev DEC_dest : Nat := 0x18
abbrev JMP_addr16 : Nat := 0x20
abbrev JZ_addr16 : Nat := 0x21
abbrev JNZ_addr16 : Nat := 0x22
abbrev JC_addr16 : Nat := 0x23
abbrev JNC_addr16 : Nat := 0x24
abbrev JLE_addr16 : Nat := 0x25
abbrev JGE_addr16 : Nat := 0x26
abbrev JL_addr16 : Nat := 0x27
abbrev JG_addr16 : Nat := 0x28
abbrev CALL_addr16 : Nat := 0x29
abbrev RET : Nat := 0x2a
abbrev RETI : Nat := 0x2b
abbrev INT : Nat := 0x2c
abbrev EI : Nat := 0x2d
abbrev DI : Nat := 0x2e
abbrev CHK_INT : Nat := 0x2f
abbrev PUSHF : Nat := 0x30
abbrev POPF : Nat := 0x31
abbrev SETZ_dest : Nat := 0x32
abbrev SETNZ_dest : Nat := 0x33
abbrev SETL_dest : Nat := 0x34
abbrev SETLE_dest : Nat := 0x35
abbrev SETG_dest : Nat := 0x36
abbrev SETGE_dest : Nat := 0x37
abbrev SETB_dest : Nat := 0x38
abbrev SETBE_dest : Nat := 0x39
abbrev SETA_dest : Nat := 0x3a
abbrev SETAE_dest : Nat := 0x3b
abbrev IN_dest : Nat := 0xf0
abbrev OUT_src : Nat := 0xf1
abbrev VMEXIT : Nat := 0xd0
abbrev VMRESTART : Nat := 0xd1
abbrev VMGETMEMSIZE : Nat := 0xd2
abbrev VMSTATE : Nat := 0xd3
abbrev VMMALLOC : Nat := 0xd5
abbrev VMFREE : Nat := 0xd6
abbrev LEA_dest_bpoff : Nat := 0xfb
abbrev LIV_addr16 : Nat := 0xfd
abbrev HALT : Nat := 0xfe

/-! The `ALU_OP` enumeration. -/

abbrev ALU_ADD : Nat := 6
abbrev ALU_SUB : Nat := 8
abbrev ALU_AND : Nat := 10
abbrev ALU_OR : Nat := 12
abbrev ALU_XOR : Nat := 14
abbrev ALU_CMP : Nat := 16
abbrev ALU_MUL : Nat := 18
abbrev ALU_DIV : Nat := 20
abbrev ALU_NOT : Nat := 21
abbrev ALU_INC : Nat := 22
abbrev ALU_DEC : Nat := 23

/-! ## Machine integers -/

/-- Conversion of a C `int` value to `uint16_t`. -/
def u16 (x : Int) : Nat := (x % 65536).toNat

/-- Conversion of a C `int` value to `uint8_t`. -/
def u8 (x : Int) : Nat := (x % 256).toNat

/-- Conversion of a C `int` value to `int16_t` (two's complement). -/
def i16 (x : Int) : Int := (x + 32768) % 65536 - 32768

/-- Conversion of a C `int` value to `int8_t` (two's complement). -/
def i8 (x : Int) : Int := (x + 128) % 256 - 128

/-- Conversion of a C integer to `bool`. -/
def toBool (x : Int) : Bool := decide (x ≠ 0)

/-- Value of a `bool` used as an integer. -/
def ofBool (b : Bool) : Nat := if b then 1 else 0

/-! ## Machine state -/

/-- The array `bool flags[8]`, one field per index: `CARRY_FLAG` 0, `ZERO_FLAG` 1,
`OVERFLOW_FLAG` 2, `SIGN_FLAG` 3, `HALT_FLAG` 4, `IE_FLAG` 5, `IA_FLAG` 6, and index 7. -/
structure Flags where
  carry : Bool
  zero : Bool
  overflow : Bool
  sign : Bool
  halt : Bool
  ie : Bool
  ia : Bool
  f7 : Bool
deriving DecidableEq, Repr

/-- The struct `VM`. `memory` is the buffer `vm->memory` (its length is the allocated size),
`r0 .. r4` are `vm->r[0] .. vm->r[4]`. Two fields belong to the host rather than to the struct:
`stdin`, the bytes `getchar` will deliver, and `diag`, the diagnostics raised so far as
(code, severity) pairs. -/
structure VM where
  memory : List Nat
  memSize : Nat
  progSize : Nat
  pc : Nat
  iv : Nat
  r0 : Nat
  r1 : Nat
  r2 : Nat
  r3 : Nat
  r4 : Nat
  flags : Flags
  sp : Nat
  bp : Nat
  stdin : List Nat
  diag : List (Int × Nat)
deriving DecidableEq, Repr

/-- The representation invariant of the C types: `memory` has `memSize` bytes, every byte is a
`uint8_t`, every 16-bit field is a `uint16_t`. -/
def VM.wf (s : VM) : Prop :=
  s.memory.length = s.memSize ∧ (∀ b ∈ s.memory, b < 256) ∧
  s.memSize < 65536 ∧ s.progSize < 65536 ∧ s.pc < 65536 ∧ s.iv < 65536 ∧
  s.r0 < 65536 ∧ s.r1 < 65536 ∧ s.r2 < 65536 ∧ s.r3 < 65536 ∧ s.r4 < 65536 ∧
  s.sp < 65536 ∧ s.bp < 65536

instance (s : VM) : Decidable s.wf :=
  inferInstanceAs (Decidable (_ ∧ _))

/-- Outcome of running a C function on a machine state. -/
inductive Res (α : Type) where
  /-- normal return with a value and the state left behind -/
  | ok (a : α) (vm : VM)
  /-- the process ended inside `vm_exit` with this exit code -/
  | exit (code : Int) (vm : VM)
  /-- the C program has undefined behaviour here -/
  | ub
deriving DecidableEq, Repr

/-- State transformers with the three outcomes of `Res`. -/
def M (α : Type) : Type := VM → Res α

def M.pure {α : Type} (a : α) : M α := fun s => Res.ok a s

def M.bind {α β : Type} (x : M α) (f : α → M β) : M β := fun s =>
  match x s with
  | Res.ok a s1 => f a s1
  | Res.exit c s1 => Res.exit c s1
  | Res.ub => Res.ub

instance : Monad M where
  pure := M.pure
  bind := M.bind

/-- Read the whole state. -/
def getVM : M VM := fun s => Res.ok s s

/-- Update the state. -/
def modifyVM (f : VM → VM) : M Unit := fun s => Res.ok () (f s)

/-- Undefined behaviour. -/
def undef {α : Type} : M α := fun _ => Res.ub

/-- Read of `vm->memory[a]`. -/
def rd (a : Nat) : M Nat := fun s =>
  match s.memory[a]? with
  | some b => Res.ok b s
  | none => Res.ub

/-- Store `vm->memory[a] = b`, with the conversion to `uint8_t`. -/
def wr (a : Nat) (b : Nat) : M Unit := fun s =>
  if a < s.memory.length then Res.ok () { s with memory := s.memory.set a (b % 256) }
  else Res.ub

/-! ## `exception.c` and `vm_exit` -/

/-- The function `vm_exit` of `lanvm.c`: releases the buffers and ends the process; the
parameter is an `int8_t`. -/
def vm_exit {α : Type} (code : Int) : M α := fun s => Res.exit (i8 code) s

/-- The function `vm_exception`: a no-op for `ERR_NO_ERROR`; otherwise the diagnostic is
reported, a SEVERE one ends the process, a WARNING one returns `code`. -/
def vm_exception (code : Int) (severity : Nat) : M Int := fun s =>
  if code = ERR_NO_ERROR then Res.ok 0 s
  else
    let s1 := { s with diag := s.diag ++ [(code, severity)] }
    if severity = EXC_SEVERE then vm_exit code s1
    else Res.ok code s1

/-! ## `memory.c` -/

def fByte : M Nat := do
  let s ← getVM
  modifyVM fun t => { t with pc := (s.pc + 1) % 65536 }
  rd s.pc

def fWord : M Nat := do
  let s ← getVM
  modifyVM fun t => { t with pc := (s.pc + 1) % 65536 }
  let lo ← rd s.pc
  let s1 ← getVM
  modifyVM fun t => { t with pc := (s1.pc + 1) % 65536 }
  let hi ← rd s1.pc
  pure ((lo ||| (hi <<< 8)) % 65536)

def push8 (value : Nat) : M Unit := do
  let s ← getVM
  if s.sp = 0 then do
    let _ ← vm_exception ERR_STACK_OVERFLOW EXC_SEVERE
    pure ()
  else do
    modifyVM fun t => { t with sp := u16 ((s.sp : Int) - 1) }
    let s1 ← getVM
    wr s1.sp value

def pop8 : M Nat := do
  let s ← getVM
  if s.sp > s.memSize then do
    let c ← vm_exception ERR_STACK_UNDERFLOW EXC_SEVERE
    pure (u8 c)
  else do
    modifyVM fun t => { t with sp := (s.sp + 1) % 65536 }
    rd s.sp

def push16 (value : Nat) : M Unit := do
  let s ← getVM
  if s.sp > s.memSize then do
    let _ ← vm_exception ERR_STACK_OVERFLOW EXC_SEVERE
    pure ()
  else do
    modifyVM fun t => { t with sp := u16 ((s.sp : Int) - 1) }
    let s1 ← getVM
    wr s1.sp (value &&& 0xff)
    modifyVM fun t => { t with sp := u16 ((s1.sp : Int) - 1) }
    let s2 ← getVM
    wr s2.sp (value >>> 8)

def pop16 : M Nat := do
  let s ← getVM
  if s.sp > s.memSize then do
    let c ← vm_exception ERR_STACK_UNDERFLOW EXC_SEVERE
    pure (u16 c)
  else do
    modifyVM fun t => { t with sp := (s.sp + 1) % 65536 }
    let hi ← rd s.sp
    let temp := (hi <<< 8) % 65536
    let s1 ← getVM
    modifyVM fun t => { t with sp := (s1.sp + 1) % 65536 }
    let lo ← rd s1.sp
    pure ((temp ||| lo) % 65536)

/-! ## `ds.c` -/

/-- What a non-null `uint16_t *` of the engine points at: one of the 16-bit fields of the
struct, or the byte `memory[a]`. -/
inductive Ref where
  | r0
  | r1
  | r2
  | r3
  | r4
  | bp
  | sp
  | mem (a : Nat)
deriving DecidableEq, Repr

/-- Read of the `uint16_t` a pointer refers to. Through a pointer into `memory` this reads the
two bytes `memory[a]`, `memory[a+1]`. -/
def load16 (p : Ref) : M Nat :=
  match p with
  | Ref.r0 => do let s ← getVM; pure s.r0
  | Ref.r1 => do let s ← getVM; pure s.r1
  | Ref.r2 => do let s ← getVM; pure s.r2
  | Ref.r3 => do let s ← getVM; pure s.r3
  | Ref.r4 => do let s ← getVM; pure s.r4
  | Ref.bp => do let s ← getVM; pure s.bp
  | Ref.sp => do let s ← getVM; pure s.sp
  | Ref.mem a => do
      let lo ← rd a
      let hi ← rd (a + 1)
      pure (lo + 256 * hi)

/-- Store of a `uint16_t` through a pointer, with the conversion to `uint16_t`. Through a
pointer into `memory` this writes the two bytes `memory[a]`, `memory[a+1]`. -/
def store16 (p : Ref) (v : Nat) : M Unit :=
  match p with
  | Ref.r0 => modifyVM fun t => { t with r0 := v % 65536 }
  | Ref.r1 => modifyVM fun t => { t with r1 := v % 65536 }
  | Ref.r2 => modifyVM fun t => { t with r2 := v % 65536 }
  | Ref.r3 => modifyVM fun t => { t with r3 := v % 65536 }
  | Ref.r4 => modifyVM fun t => { t with r4 := v % 65536 }
  | Ref.bp => modifyVM fun t => { t with bp := v % 65536 }
  | Ref.sp => modifyVM fun t => { t with sp := v % 65536 }
  | Ref.mem a => do
      wr a (v % 65536 % 256)
      wr (a + 1) (v % 65536 / 256)

/-- Read of the `uint8_t` a byte pointer refers to; the null pointer cannot be read. -/
def load8 (p : Option Ref) : M Nat :=
  match p with
  | some (Ref.mem a) => rd a
  | _ => undef

structure DSbyte where
  destReg : Nat
  srcReg : Nat
deriving DecidableEq, Repr

def decodeDS (DSb : Nat) : DSbyte :=
  { destReg := (DSb &&& 0xF0) >>> 4, srcReg := DSb &&& 0x0F }

/-- The function `RegOffset`; `offset` is an `int8_t`, `reg` selects `sp` over `bp`. -/
def RegOffset (reg : Bool) (offset : Int) : M (Option Ref) := do
  let s ← getVM
  if reg then
    if (s.sp : Int) + offset > (s.memSize : Int) ∨ (s.sp : Int) + offset < 0 then do
      let _ ← vm_exception ERR_OOB_OFF EXC_WARNING
      pure none
    else pure (some (Ref.mem ((s.sp : Int) + offset).toNat))
  else
    if (s.bp : Int) + offset > (s.memSize : Int) ∨ (s.bp : Int) + offset < 0 then do
      let _ ← vm_exception ERR_OOB_OFF EXC_WARNING
      pure none
    else pure (some (Ref.mem ((s.bp : Int) + offset).toNat))

/-- The pointer table of `GetDestination` and `GetSource`, for the indices below 7 that are
looked up in it. -/
def regTable (i : Nat) : Option Ref :=
  if i = 0 then some Ref.r0
  else if i = 1 then some Ref.r1
  else if i = 2 then some Ref.r2
  else if i = 3 then some Ref.r3
  else if i = 4 then some Ref.r4
  else if i = 5 then some Ref.bp
  else if i = 6 then some Ref.sp
  else none

def GetDestination (DSb : Nat) : M (Option Ref) := do
  let DS := decodeDS DSb
  if DS.destReg ≥ 7 then
    if DS.destReg = 7 then do
      let o ← fByte
      RegOffset false (i8 o)
    else if DS.destReg = 8 then do
      let o ← fByte
      RegOffset true (i8 o)
    else do
      let s ← getVM
      let addr := if DS.destReg = 9 then s.r3 else if DS.destReg = 10 then s.r4 else 0
      if (addr : Int) < 0 ∨ addr > s.memSize then do
        let _ ← vm_exception ERR_OOB_REG EXC_WARNING
        pure none
      else pure (some (Ref.mem addr))
  else pure (regTable DS.destReg)

def GetSource (DSb : Nat) : M Nat := do
  let DS := decodeDS DSb
  if DS.srcReg ≥ 7 then
    if DS.srcReg = 7 then do
      let o ← fByte
      let p ← RegOffset false (i8 o)
      load8 p
    else if DS.srcReg = 8 then do
      let o ← fByte
      let p ← RegOffset true (i8 o)
      load8 p
    else do
      let s ← getVM
      let addr := if DS.srcReg = 9 then s.r3 else if DS.srcReg = 10 then s.r4 else 0
      if (addr : Int) < 0 ∨ addr > s.memSize then do
        let _ ← vm_exception ERR_OOB_REG EXC_WARNING
        pure 0
      else rd addr
  else
    match regTable DS.srcReg with
    | some p => load16 p
    | none => undef

/-! ## `alu.c` -/

/-- The function `modifyFlags`; `result` is a `uint16_t`, promoted to `int` in each test. -/
def modifyFlags (result : Nat) : M Unit :=
  modifyVM fun t => { t with flags := { t.flags with
    zero := decide (result = 0),
    sign := decide (((result &&& 0x8000 : Nat) : Int) < 0),
    overflow := decide ((result : Int) < -32768 ∨ (result : Int) > 32767),
    carry := decide (result &&& 0x10000 ≠ 0) } }

/-- The function `alu`; `op` is the `ALU_OP` selector, `dest` a `uint16_t *`, `src` a
`uint16_t`. -/
def alu (op : Nat) (dest : Option Ref) (src : Nat) : M Unit :=
  match dest with
  | none => do
      let _ ← vm_exception ERR_NULL_PTR EXC_WARNING
      pure ()
  | some d =>
    if op = ALU_ADD then do
      let v ← load16 d
      store16 d (u16 ((v : Int) + (src : Int)))
      let v1 ← load16 d
      modifyFlags v1
    else if op = ALU_SUB then do
      let v ← load16 d
      store16 d (u16 ((v : Int) - (src : Int)))
      let v1 ← load16 d
      modifyFlags v1
    else if op = ALU_AND then do
      let v ← load16 d
      store16 d (v &&& src)
      let v1 ← load16 d
      modifyFlags v1
    else if op = ALU_OR then do
      let v ← load16 d
      store16 d (v ||| src)
      let v1 ← load16 d
      modifyFlags v1
    else if op = ALU_XOR then do
      let v ← load16 d
      store16 d (v ^^^ src)
      let v1 ← load16 d
      modifyFlags v1
    else if op = ALU_CMP then do
      let v ← load16 d
      modifyFlags (u16 (i16 ((v : Int) - (src : Int))))
    else if op = ALU_MUL then do
      let v ← load16 d
      store16 d (u16 ((v : Int) * (src : Int)))
      let v1 ← load16 d
      modifyFlags v1
    else if op = ALU_DIV then
      if src = 0 then do
        let _ ← vm_exception ERR_DBZ EXC_WARNING
        pure ()
      else do
        let v ← load16 d
        store16 d (v / src)
        let v1 ← load16 d
        modifyFlags v1
    else if op = ALU_NOT then do
      let v ← load16 d
      store16 d (u16 (-(v : Int) - 1))
      let v1 ← load16 d
      modifyFlags v1
    else if op = ALU_INC then do
      let v ← load16 d
      store16 d (u16 ((v : Int) + 1))
      let v1 ← load16 d
      modifyFlags v1
    else if op = ALU_DEC then do
      let v ← load16 d
      store16 d (u16 ((v : Int) - 1))
      let v1 ← load16 d
      modifyFlags v1
    else do
      let _ ← vm_exception ERR_INVALID_ALU EXC_WARNING
      pure ()

def handleSET (op : Nat) (DSb : Nat) : M Unit := do
  let dest ← GetDestination DSb
  match dest with
  | none => do
      let _ ← vm_exception ERR_NULL_PTR EXC_WARNING
      pure ()
  | some d => do
    let s ← getVM
    let f := s.flags
    if op = 0x32 then store16 d (ofBool f.zero)
    else if op = 0x33 then store16 d (ofBool (!f.zero))
    else if op = 0x34 then store16 d (ofBool (f.sign != f.overflow))
    else if op = 0x35 then store16 d (ofBool (f.zero || (f.sign != f.overflow)))
    else if op = 0x36 then store16 d (ofBool (f.zero && (f.sign == f.overflow)))
    else if op = 0x37 then store16 d (ofBool (f.sign == f.overflow))
    else if op = 0x38 then store16 d (ofBool f.carry)
    else if op = 0x39 then store16 d (ofBool (f.carry || f.zero))
    else if op = 0x3a then store16 d (ofBool (!f.carry && !f.zero))
    else if op = 0x3b then store16 d (ofBool (!f.carry))
    else do
      let _ ← vm_exception ERR_INVALID_ALU EXC_WARNING
      pure ()

/-! ## `lanvm.c` -/

/-- What the engine takes from its host and from declarations that `include/lanvm.h` does not
contain. -/
structure Host where
  /-- whether `calloc` / `realloc` fails for a request of this many bytes -/
  allocFails : Nat → Bool
  /-- the byte `realloc` leaves at this index of a grown buffer (not initialised by the C code) -/
  fresh : Nat → Nat
  /-- the case labels of `execute` whose constants the header does not declare (`GETS_r4`,
  `PRINTS_r3`, `GLINIT` .. `GLRECT`): for an opcode byte outside the `ISA` enumeration, the
  handler standing under a label of that value, if there is one -/
  ext : Nat → Option (M Unit)

/-- The buffer `realloc(vm->memory, n)` returns on success: the old bytes up to `n`, then
whatever the allocator left there. -/
def reallocBuf (h : Host) (old : List Nat) (n : Nat) : List Nat :=
  old.take n ++ (List.range (n - old.length)).map (fun i => h.fresh (old.length + i) % 256)

def vm_restart (h : Host) : M Int := do
  let noFlags : Flags :=
    { carry := false, zero := false, overflow := false, sign := false,
      halt := false, ie := false, ia := false, f7 := false }
  modifyVM fun t => { t with flags := noFlags }
  modifyVM fun t => { t with r0 := 0, r1 := 0, r2 := 0, r3 := 0, r4 := 0 }
  modifyVM fun t => { t with sp := DEFAULT_MEMORY_SIZE, bp := 0, pc := 0, iv := 0 }
  let s ← getVM
  if s.memSize ≠ DEFAULT_MEMORY_SIZE then do
    modifyVM fun t => { t with memSize := DEFAULT_MEMORY_SIZE }
    if h.allocFails DEFAULT_MEMORY_SIZE then vm_exit ERR_MALLOC
    else do
      modifyVM fun t => { t with memory := List.replicate DEFAULT_MEMORY_SIZE 0 }
      pure 0
  else pure 0

def vm_malloc (h : Host) (size : Nat) : M Int := do
  let s ← getVM
  if s.memSize + size > 0xFFFF then do
    let _ ← vm_exception ERR_MALLOC EXC_WARNING
    pure 1
  else do
    let new_mem_size := (s.memSize + size) % 65536
    if h.allocFails new_mem_size then do
      let _ ← vm_exception ERR_MALLOC EXC_SEVERE
      pure 1
    else do
      modifyVM fun t => { t with memory := reallocBuf h t.memory new_mem_size }
      modifyVM fun t => { t with memSize := new_mem_size }
      pure 0

def vm_free (h : Host) (size : Nat) : M Int := do
  let s ← getVM
  if size ≥ s.memSize then do
    let _ ← vm_exception ERR_FREE EXC_WARNING
    pure 1
  else do
    let new_mem_size := u16 ((s.memSize : Int) - (size : Int))
    if h.allocFails new_mem_size then do
      let _ ← vm_exception ERR_MALLOC EXC_SEVERE
      pure 1
    else do
      modifyVM fun t => { t with memory := reallocBuf h t.memory new_mem_size }
      modifyVM fun t => { t with memSize := new_mem_size }
      let s1 ← getVM
      if s1.sp > s1.memSize then do
        modifyVM fun t => { t with sp := s1.memSize }
        pure 0
      else pure 0

def hypervisorCall (h : Host) (operation : Nat) (operand : Nat) : M Int :=
  if operation = 0x00 then vm_exit (operand : Int)
  else if operation = 0x01 then do
    let _ ← vm_restart h
    pure 0
  else if operation = 0x02 then do
    modifyVM fun t => { t with r0 := t.memSize }
    pure 0
  else if operation = 0x05 then vm_malloc h operand
  else if operation = 0x06 then vm_free h operand
  else pure 0

/-- The library function `getchar`: the next byte of standard input, or `EOF`. -/
def getchar : M Int := fun s =>
  match s.stdin with
  | [] => Res.ok (-1) s
  | c :: rest => Res.ok ((c % 256 : Nat) : Int) { s with stdin := rest }

/-! ## `execute.c` -/

/-- The byte `PUSHF` builds from the flags. -/
def packFlags (f : Flags) : Nat :=
  let temp := 0
  let temp := temp ||| (ofBool f.zero <<< 1)
  let temp := temp ||| (ofBool f.carry <<< 0)
  let temp := temp ||| (ofBool f.overflow <<< 2)
  let temp := temp ||| (ofBool f.sign <<< 3)
  let temp := temp ||| (ofBool f.halt <<< 4)
  let temp := temp ||| (ofBool f.ia <<< 6)
  let temp := temp ||| (ofBool f.ie <<< 5)
  temp % 256

/-- The flags `POPF` derives from a byte. -/
def unpackFlags (temp : Nat) : Flags :=
  { zero := toBool (temp &&& (1 <<< 1) : Nat),
    carry := toBool (temp &&& (1 <<< 0) : Nat),
    overflow := toBool (temp &&& (1 <<< 2) : Nat),
    sign := toBool (temp &&& (1 <<< 3) : Nat),
    halt := toBool (temp &&& (1 <<< 4) : Nat),
    ia := toBool (temp &&& (1 <<< 6) : Nat),
    ie := toBool (temp &&& (1 <<< 5) : Nat),
    f7 := toBool (temp &&& (1 <<< 7) : Nat) }

/-- One call of `execute`. The value is what the call returns: `some (-1)` from the default
label, `none` where the function ends without a `return` statement. Bytes written to standard
output (`OUT`, `VMSTATE`) are not part of the state. -/
def execute (h : Host) : M (Option Int) := do
  let opcode ← fByte
  if opcode = LD_dest_src then do
    let DSb ← fByte
    let dest ← GetDestination DSb
    match dest with
    | none => do
        let _ ← vm_exception ERR_NULL_PTR EXC_WARNING
        pure none
    | some d => do
        let v ← GetSource DSb
        store16 d v
        pure none
  else if opcode = LD_dest_imm16 then do
    let DSb ← fByte
    let dest ← GetDestination DSb
    match dest with
    | none => do
        let _ ← vm_exception ERR_NULL_PTR EXC_WARNING
        pure none
    | some d => do
        let v ← fWord
        store16 d v
        pure none
  else if opcode = PUSH_src then do
    let DSb ← fByte
    let v ← GetSource DSb
    push16 v
    pure none
  else if opcode = PUSH_imm16 then do
    let v ← fWord
    push16 v
    pure none
  else if opcode = POP_dest then do
    let DSb ← fByte
    let dest ← GetDestination DSb
    match dest with
    | none => do
        let _ ← vm_exception ERR_NULL_PTR EXC_WARNING
        pure none
    | some d => do
        let v ← pop16
        store16 d v
        pure none
  else if opcode = ADD_dest_src ∨ opcode = ADD_dest_imm16 ∨ opcode = SUB_dest_src
      ∨ opcode = SUB_dest_imm16 ∨ opcode = AND_dest_src ∨ opcode = AND_dest_imm16
      ∨ opcode = OR_dest_src ∨ opcode = OR_dest_imm16 ∨ opcode = XOR_dest_src
      ∨ opcode = XOR_dest_imm16 ∨ opcode = CMP_dest_src ∨ opcode = CMP_dest_imm16
      ∨ opcode = MUL_dest_src ∨ opcode = MUL_dest_imm16 ∨ opcode = DIV_dest_src
      ∨ opcode = DIV_dest_imm16 then do
    let DSb ← fByte
    let dest ← GetDestination DSb
    if opcode % 2 = 0 then do
      let v ← GetSource DSb
      alu opcode dest v
      pure none
    else do
      let v ← fWord
      alu (opcode - 1) dest v
      pure none
  else if opcode = NOT_dest then do
    let DSb ← fByte
    let dest ← GetDestination DSb
    alu ALU_NOT dest 0
    pure none
  else if opcode = INC_dest then do
    let DSb ← fByte
    let dest ← GetDestination DSb
    alu ALU_INC dest 0
    pure none
  else if opcode = DEC_dest then do
    let DSb ← fByte
    let dest ← GetDestination DSb
    alu ALU_DEC dest 0
    pure none
  else if opcode = JMP_addr16 then do
    let a ← fWord
    modifyVM fun t => { t with pc := a }
    pure none
  else if opcode = JZ_addr16 then do
    let s ← getVM
    if s.flags.zero then do
      let a ← fWord
      modifyVM fun t => { t with pc := a }
      pure none
    else do
      modifyVM fun t => { t with pc := (t.pc + 2) % 65536 }
      pure none
  else if opcode = JNZ_addr16 then do
    let s ← getVM
    if !s.flags.zero then do
      let a ← fWord
      modifyVM fun t => { t with pc := a }
      pure none
    else do
      modifyVM fun t => { t with pc := (t.pc + 2) % 65536 }
      pure none
  else if opcode = JC_addr16 then do
    let s ← getVM
    if s.flags.carry then do
      let a ← fWord
      modifyVM fun t => { t with pc := a }
      pure none
    else do
      modifyVM fun t => { t with pc := (t.pc + 2) % 65536 }
      pure none
  else if opcode = JNC_addr16 then do
    let s ← getVM
    if !s.flags.carry then do
      let a ← fWord
      modifyVM fun t => { t with pc := a }
      pure none
    else do
      modifyVM fun t => { t with pc := (t.pc + 2) % 65536 }
      pure none
  else if opcode = JLE_addr16 then do
    let s ← getVM
    if s.flags.overflow || (s.flags.sign != s.flags.zero) then do
      let a ← fWord
      modifyVM fun t => { t with pc := a }
      pure none
    else do
      modifyVM fun t => { t with pc := (t.pc + 2) % 65536 }
      pure none
  else if opcode = JGE_addr16 then do
    let s ← getVM
    if s.flags.overflow == s.flags.overflow then do
      let a ← fWord
      modifyVM fun t => { t with pc := a }
      pure none
    else do
      modifyVM fun t => { t with pc := (t.pc + 2) % 65536 }
      pure none
  else if opcode = JL_addr16 then do
    let s ← getVM
    if s.flags.sign != s.flags.overflow then do
      let a ← fWord
      modifyVM fun t => { t with pc := a }
      pure none
    else do
      modifyVM fun t => { t with pc := (t.pc + 2) % 65536 }
      pure none
  else if opcode = JG_addr16 then do
    let s ← getVM
    if s.flags.zero && (s.flags.sign == s.flags.overflow) then do
      let a ← fWord
      modifyVM fun t => { t with pc := a }
      pure none
    else do
      modifyVM fun t => { t with pc := (t.pc + 2) % 65536 }
      pure none
  else if opcode = CALL_addr16 then do
    let s ← getVM
    push16 (u16 ((s.pc : Int) + 2))
    let a ← fWord
    modifyVM fun t => { t with pc := a }
    pure none
  else if opcode = RET then do
    let a ← pop16
    modifyVM fun t => { t with pc := a }
    pure none
  else if opcode = RETI then do
    let a ← pop16
    modifyVM fun t => { t with pc := a }
    modifyVM fun t => { t with flags := { t.flags with ia := false } }
    pure none
  else if opcode = INT then do
    let s ← getVM
    if s.flags.ie then do
      push16 s.pc
      modifyVM fun t => { t with pc := t.iv }
      modifyVM fun t => { t with flags := { t.flags with ia := true } }
      pure none
    else pure none
  else if opcode = EI then do
    modifyVM fun t => { t with flags := { t.flags with ie := true } }
    pure none
  else if opcode = DI then do
    modifyVM fun t => { t with flags := { t.flags with ie := false } }
    pure none
  else if opcode = CHK_INT then do
    modifyVM fun t => { t with flags := { t.flags with zero := toBool (if t.flags.ia then 0 else 1) } }
    pure none
  else if opcode = PUSHF then do
    let s ← getVM
    push8 (packFlags s.flags)
    pure none
  else if opcode = POPF then do
    let temp ← pop8
    modifyVM fun t => { t with flags := unpackFlags temp }
    pure none
  else if opcode = SETZ_dest ∨ opcode = SETNZ_dest ∨ opcode = SETL_dest ∨ opcode = SETLE_dest
      ∨ opcode = SETG_dest ∨ opcode = SETGE_dest ∨ opcode = SETB_dest ∨ opcode = SETBE_dest
      ∨ opcode = SETA_dest ∨ opcode = SETAE_dest then do
    handleSET opcode 0
    pure none
  else if opcode = IN_dest then do
    let DSb ← fByte
    let dest ← GetDestination DSb
    match dest with
    | none => do
        let _ ← vm_exception ERR_NULL_PTR EXC_WARNING
        pure none
    | some d => do
        let c ← getchar
        store16 d (u16 c)
        pure none
  else if opcode = OUT_src then do
    let DSb ← fByte
    let _ ← GetSource DSb
    pure none
  else if opcode = VMEXIT then do
    let b ← fByte
    let _ ← hypervisorCall h 0x00 b
    pure none
  else if opcode = VMRESTART then do
    let _ ← hypervisorCall h 0x01 0
    pure none
  else if opcode = VMGETMEMSIZE then do
    let _ ← hypervisorCall h 0x02 0
    pure none
  else if opcode = VMSTATE then pure none
  else if opcode = VMMALLOC then do
    let n ← fWord
    let c ← hypervisorCall h 0x05 n
    modifyVM fun t => { t with flags := { t.flags with zero := toBool c } }
    pure none
  else if opcode = VMFREE then do
    let n ← fWord
    let c ← hypervisorCall h 0x06 n
    modifyVM fun t => { t with flags := { t.flags with zero := toBool c } }
    pure none
  else if opcode = LEA_dest_bpoff then do
    let DSb ← fByte
    let dest ← GetDestination DSb
    match dest with
    | none => do
        let _ ← vm_exception ERR_NULL_PTR EXC_WARNING
        pure none
    | some d => do
        let s ← getVM
        let o ← fByte
        store16 d (s.bp + o)
        pure none
  else if opcode = LIV_addr16 then do
    let a ← fWord
    modifyVM fun t => { t with iv := a }
    pure none
  else if opcode = NOP then pure none
  else if opcode = HALT then do
    modifyVM fun t => { t with flags := { t.flags with halt := true } }
    pure none
  else
    match h.ext opcode with
    | some handler => do
        handler
        pure none
    | none => do
        let _ ← vm_exception ERR_INVALID_OPCODE EXC_WARNING
        pure (some (-1))

/-! ## `lasm.c` -/

/-- Outcome of running code of the assembler on its global state. -/
inductive Run (σ : Type) where
  /-- normal return with the state left behind -/
  | ok (s : σ)
  /-- the process ended in `exit` with this status -/
  | exit (code : Int)
  /-- the C program has undefined behaviour here -/
  | ub
deriving DecidableEq, Repr

structure Instruction where
  mnemonic : List Char
  opcode : Nat
  size : Nat
deriving DecidableEq, Repr

def instructions : List Instruction :=
  [⟨"NOP".toList, NOP, 1⟩, ⟨"LD".toList, LD_dest_src, 2⟩, ⟨"PUSH".toList, PUSH_src, 2⟩,
   ⟨"POP".toList, POP_dest, 2⟩,
   ⟨"ADD".toList, ADD_dest_src, 2⟩, ⟨"SUB".toList, SUB_dest_src, 2⟩,
   ⟨"AND".toList, AND_dest_src, 2⟩, ⟨"OR".toList, OR_dest_src, 2⟩,
   ⟨"XOR".toList, XOR_dest_src, 2⟩, ⟨"CMP".toList, CMP_dest_src, 2⟩,
   ⟨"MUL".toList, MUL_dest_src, 2⟩, ⟨"DIV".toList, DIV_dest_src, 2⟩,
   ⟨"NOT".toList, NOT_dest, 2⟩, ⟨"INC".toList, INC_dest, 2⟩, ⟨"DEC".toList, DEC_dest, 2⟩,
   ⟨"JMP".toList, JMP_addr16, 3⟩, ⟨"JZ".toList, JZ_addr16, 3⟩, ⟨"JNZ".toList, JNZ_addr16, 3⟩,
   ⟨"JC".toList, JC_addr16, 3⟩,
   ⟨"JNC".toList, JNC_addr16, 3⟩, ⟨"JLE".toList, JLE_addr16, 3⟩, ⟨"JGE".toList, JGE_addr16, 3⟩,
   ⟨"JL".toList, JL_addr16, 3⟩,
   ⟨"JG".toList, JG_addr16, 3⟩, ⟨"CALL".toList, CALL_addr16, 3⟩, ⟨"RET".toList, RET, 1⟩,
   ⟨"RETI".toList, RETI, 1⟩, ⟨"INT".toList, INT, 1⟩,
   ⟨"EI".toList, EI, 1⟩, ⟨"DI".toList, DI, 1⟩, ⟨"CHK".toList, CHK_INT, 1⟩,
   ⟨"HLT".toList, HALT, 1⟩, ⟨"PUSHF".toList, PUSHF, 1⟩, ⟨"POPF".toList, POPF, 1⟩,
   ⟨"IN".toList, IN_dest, 2⟩, ⟨"OUT".toList, OUT_src, 2⟩,
   ⟨"SETZ".toList, SETZ_dest, 2⟩, ⟨"SETNZ".toList, SETNZ_dest, 2⟩, ⟨"SETL".toList, SETL_dest, 2⟩,
   ⟨"SETLE".toList, SETLE_dest, 2⟩,
   ⟨"SETG".toList, SETG_dest, 2⟩, ⟨"SETGE".toList, SETGE_dest, 2⟩, ⟨"SETB".toList, SETB_dest, 2⟩,
   ⟨"SETBE".toList, SETBE_dest, 2⟩, ⟨"SETA".toList, SETA_dest, 2⟩,
   ⟨"SETAE".toList, SETAE_dest, 2⟩,
   ⟨"VMEXIT".toList, VMEXIT, 2⟩, ⟨"VMRESTART".toList, VMRESTART, 1⟩,
   ⟨"VMGETMEMSIZE".toList, VMGETMEMSIZE, 1⟩, ⟨"VMSTATE".toList, VMSTATE, 1⟩,
   ⟨"VMMALLOC".toList, VMMALLOC, 3⟩, ⟨"VMFREE".toList, VMFREE, 3⟩,
   ⟨"LIV".toList, LIV_addr16, 3⟩, ⟨"LEA".toList, LEA_dest_bpoff, 4⟩]

abbrev MAX_LABELS : Nat := 256

structure Label where
  name : List Char
  address : Nat
deriving DecidableEq, Repr

/-- The globals `labels` (its first `label_count` entries) and `current_address` of `lasm.c`,
and the characters written to the output file so far. -/
structure Asm where
  labels : List Label
  current_address : Nat
  output : List Char
deriving DecidableEq, Repr

/-- The library function `isspace` in the "C" locale. -/
def isspace (c : Char) : Bool :=
  c = ' ' || c = '\t' || c = '\n' || c = Char.ofNat 11 || c = Char.ofNat 12 || c = '\r'

/-- The library function `isdigit`. -/
def isdigit (c : Char) : Bool :=
  decide ('0' ≤ c) && decide (c ≤ '9')

/-- The value of the decimal digits a string starts with, continuing from `acc`. -/
def digitsValue (acc : Nat) : List Char → Nat
  | [] => acc
  | c :: cs => if isdigit c then digitsValue (acc * 10 + (c.toNat - 48)) cs else acc

/-- The library function `atoi`, for values that fit an `int`. -/
def atoi (s : List Char) : Int :=
  match s.dropWhile isspace with
  | [] => 0
  | c :: r =>
    if c = '-' then -((digitsValue 0 r : Nat) : Int)
    else if c = '+' then ((digitsValue 0 r : Nat) : Int)
    else ((digitsValue 0 (c :: r) : Nat) : Int)

def hexDigit (d : Nat) : Char :=
  if d < 10 then Char.ofNat (48 + d) else Char.ofNat (87 + d)

/-- The hexadecimal digits of `n`, most significant first, in front of `acc`. -/
def hexDigits : Nat → Nat → List Char → List Char
  | 0, _, acc => acc
  | fuel + 1, n, acc =>
    if n < 16 then hexDigit n :: acc else hexDigits fuel (n / 16) (hexDigit (n % 16) :: acc)

/-- The characters `fprintf(output, "%02x", v)` writes for an `int` argument `v`. -/
def fmt02x (v : Int) : List Char :=
  let n := (v % 4294967296).toNat
  if n < 16 then ['0', hexDigit n] else hexDigits 8 n []

/-- The function `removeNL`: the first newline becomes the terminator. -/
def removeNL (str : List Char) : List Char :=
  str.takeWhile (fun c => c ≠ '\n')

def remove_leading_tabs_and_spaces (str : List Char) : List Char :=
  str.dropWhile (fun c => c = '\t' || c = ' ')

/-- The function `LowerToCap`: every character outside `A..Z` has 0x20 subtracted; a character
that becomes the terminator ends the string. -/
def LowerToCap (str : List Char) : List Char :=
  (str.map fun c =>
    if decide ('A' ≤ c) && decide (c ≤ 'Z') then c
    else Char.ofNat ((c.toNat + 256 - 0x20) % 256)).takeWhile (fun c => c ≠ Char.ofNat 0)

/-- The function `store_label`; a name that does not fit `name[32]` or an entry past
`labels[MAX_LABELS - 1]` is written outside the array. -/
def store_label (name : List Char) (address : Nat) (a : Asm) : Run Asm :=
  if name.length ≥ 32 ∨ a.labels.length ≥ MAX_LABELS then Run.ub
  else Run.ok { a with labels := a.labels ++ [{ name := name, address := address % 65536 }] }

/-- The function `resolve_label`: the address of the first entry of that name; the process
exits with status 1 if there is none. -/
def resolve_label (operand : List Char) (a : Asm) : Option Nat :=
  (a.labels.find? (fun l => l.name = operand)).map (fun l => l.address)

def get_opcode (mnemonic : List Char) : Nat :=
  match instructions.find? (fun i => i.mnemonic = mnemonic) with
  | some i => i.opcode
  | none => 0xFF

def get_opcode_size (mnemonic : List Char) : Nat :=
  match instructions.find? (fun i => i.mnemonic = mnemonic) with
  | some i => i.size
  | none => 0x0

/-- The conversion `%d` of `sscanf`: white space is skipped, then an optional sign and at least
one digit are read. -/
def scanInt (inp : List Char) : Option Int :=
  match inp.dropWhile isspace with
  | [] => none
  | c :: r =>
    if c = '-' then
      if (r.head?.map isdigit) = some true then some (-((digitsValue 0 r : Nat) : Int)) else none
    else if c = '+' then
      if (r.head?.map isdigit) = some true then some ((digitsValue 0 r : Nat) : Int) else none
    else if isdigit c then some ((digitsValue 0 (c :: r) : Nat) : Int)
    else none

/-- What `sscanf(operand, "[%3[a-z]+%d]", base, &off)` (with `sign = '+'`) and
`sscanf(operand, "[%3[a-z]-%d]", base, &off)` (with `sign = '-'`) return and assign. -/
def sscanfBaseOff (sign : Char) (operand : List Char) : Nat × List Char × Int :=
  match operand with
  | [] => (0, [], 0)
  | c :: r =>
    if c ≠ '[' then (0, [], 0)
    else
      let base := (r.takeWhile (fun x => decide ('a' ≤ x) && decide (x ≤ 'z'))).take 3
      if base = [] then (0, [], 0)
      else
        match r.drop base.length with
        | [] => (1, base, 0)
        | d :: r2 =>
          if d ≠ sign then (1, base, 0)
          else
            match scanInt r2 with
            | none => (1, base, 0)
            | some v => (2, base, v)

/-- The function `encode_operand`: the operand code, and the value of `*offset` afterwards.
`none` stands for the null pointer as `operand`; the result `none` for a write past
`base[4]`. -/
def encode_operand (operand : Option (List Char)) (offset : Int) : Option (Nat × Int) :=
  match operand with
  | none => some (0, offset)
  | some op =>
    if op = "r0".toList then some (0x00, offset)
    else if op = "r1".toList then some (0x01, offset)
    else if op = "r2".toList then some (0x02, offset)
    else if op = "r3".toList then some (0x03, offset)
    else if op = "r4".toList then some (0x04, offset)
    else if op = "bp".toList then some (0x05, offset)
    else if op = "sp".toList then some (0x06, offset)
    else if op.head? = some '[' then
      let p := sscanfBaseOff '+' op
      let q := if p.1 = 2 then p else sscanfBaseOff '-' op
      if q.1 = 2 then
        let base := q.2.1
        let off := q.2.2
        let offset1 := i8 (if op.get? (base.length + 1) = some '-' then -off else off)
        if base = "bp".toList then some (0x07, offset1)
        else if base = "sp".toList then some (0x08, offset1)
        else some (0, offset1)
      else
        let base := (op.drop 1).takeWhile (fun x => x ≠ ']')
        if base = [] then some (0, offset)
        else if base.length ≥ 4 then none
        else if base = "r3".toList then some (0x09, offset)
        else if base = "r4".toList then some (0x0A, offset)
        else some (0, offset)
    else some (0, offset)

/-- Characters appended to the output file by `fprintf(output, ...)`. -/
def emit (a : Asm) (cs : List Char) : Asm :=
  { a with output := a.output ++ cs }

/-- The function `genInsOffs`; `pass` is 1 or 2, the two calls of `encode_operand` are taken
in the order written. -/
def genInsOffs (opcode : Nat) (operand1 operand2 : Option (List Char)) (pass : Nat)
    (a : Asm) : Run Asm :=
  match encode_operand operand1 0 with
  | none => Run.ub
  | some (c1, off1) =>
    match encode_operand operand2 off1 with
    | none => Run.ub
    | some (c2, offset) =>
      let ds_byte := ((c1 <<< 4) ||| c2) % 256
      let a1 :=
        if pass = 2 then
          emit a (fmt02x ((opcode % 256 : Nat) : Int) ++ fmt02x (ds_byte : Int))
        else a
      let a2 :=
        if offset ≠ 0 ∧ pass = 2 then emit a1 (fmt02x (offset % 256))
        else a1
      if offset ≠ 0 then Run.ok { a2 with current_address := (a2.current_address + 1) % 65536 }
      else Run.ok a2

/-- The conversion `%s` of `sscanf`: white space is skipped, then the characters up to the
next white space are taken, with the rest of the input; `none` if the input ends first. -/
def scanWord (inp : List Char) : Option (List Char × List Char) :=
  match inp.dropWhile isspace with
  | [] => none
  | c :: r =>
    some ((c :: r).takeWhile (fun x => !isspace x), (c :: r).dropWhile (fun x => !isspace x))

/-- What `sscanf(line, "%s %[^,], %s", mnemonic, operand1, operand2)` returns and assigns. An
array it did not assign is `none` for `mnemonic` and `operand1`, which are not initialised,
and empty for `operand2`, which is. -/
structure Scanned where
  count : Int
  mnemonic : Option (List Char)
  operand1 : Option (List Char)
  operand2 : List Char
deriving DecidableEq, Repr

/-- The call `sscanf(line, "%s %[^,], %s", mnemonic, operand1, operand2)`; the result `none`
stands for a write past one of the three 16-byte arrays. -/
def sscanfLine (line : List Char) : Option Scanned :=
  match scanWord line with
  | none => some { count := -1, mnemonic := none, operand1 := none, operand2 := [] }
  | some (m, r1) =>
    if m.length ≥ 16 then none
    else
      let r2 := r1.dropWhile isspace
      let o1 := r2.takeWhile (fun x => x ≠ ',')
      if o1 = [] then some { count := 1, mnemonic := some m, operand1 := none, operand2 := [] }
      else if o1.length ≥ 16 then none
      else
        match r2.dropWhile (fun x => x ≠ ',') with
        | [] => some { count := 2, mnemonic := some m, operand1 := some o1, operand2 := [] }
        | _ :: r3 =>
          match scanWord r3 with
          | none => some { count := 2, mnemonic := some m, operand1 := some o1, operand2 := [] }
          | some (o2, _) =>
            if o2.length ≥ 16 then none
            else some { count := 3, mnemonic := some m, operand1 := some o1, operand2 := o2 }

/-- The characters `fprintf(output, "%02x%02x%02x", opcode, v & 0xFF,
(v >> 8) & 0xFF)` writes. -/
def emitWord (opcode : Nat) (v : Int) (a : Asm) : Asm :=
  emit a (fmt02x (opcode : Int) ++ fmt02x (v % 256) ++ fmt02x (v / 256 % 256))

/-- The body of `assemble_line` between the look-up of the opcode and the final update of
`current_address`. -/
def assembleBody (opcode : Nat) (sc : Scanned) (operand1 : Option (List Char))
    (operand2 : List Char) (pass : Nat) (a : Asm) : Run Asm :=
  if sc.count ≥ 3 then
    if opcode = LD_dest_src ∨ opcode = LD_dest_imm16 then
      if (operand2.head?.map isdigit) = some true then
        match genInsOffs LD_dest_imm16 operand1 none pass
            { a with current_address := (a.current_address + 2) % 65536 } with
        | Run.ok a1 =>
          if pass = 2 then
            Run.ok (emit a1 (fmt02x (atoi operand2 % 256) ++ fmt02x (atoi operand2 / 256 % 256)))
          else Run.ok a1
        | e => e
      else genInsOffs opcode operand1 (some operand2) pass a
    else if opcode ≥ ADD_dest_src ∧ opcode ≤ DIV_dest_imm16 then
      if (operand2.head?.map isdigit) = some true then
        match genInsOffs (opcode + 1) operand1 none pass
            { a with current_address := (a.current_address + 2) % 65536 } with
        | Run.ok a1 =>
          if pass = 2 then
            Run.ok (emit a1 (fmt02x (atoi operand2 % 256) ++ fmt02x (atoi operand2 / 256 % 256)))
          else Run.ok a1
        | e => e
      else genInsOffs opcode operand1 (some operand2) pass a
    else if opcode = LEA_dest_bpoff then genInsOffs opcode operand1 (some operand2) pass a
    else Run.ok a
  else if sc.count = 2 then
    match operand1 with
    | none => Run.ub
    | some o1 =>
      if opcode ≥ JMP_addr16 ∧ opcode ≤ CALL_addr16 then
        if pass = 2 then
          match resolve_label o1 a with
          | none => Run.exit 1
          | some addr => Run.ok (emitWord opcode (addr : Int) a)
        else Run.ok a
      else if opcode = PUSH_imm16 ∨ opcode = PUSH_src then
        if (o1.head?.map isdigit) = some true then
          let a1 := { a with current_address := (a.current_address + 1) % 65536 }
          if pass = 2 then Run.ok (emitWord PUSH_imm16 (atoi o1) a1) else Run.ok a1
        else genInsOffs opcode (some o1) none pass a
      else if opcode = POP_dest ∨ (opcode ≥ NOT_dest ∧ opcode ≤ DEC_dest) ∨ opcode = IN_dest then
        genInsOffs opcode (some o1) none pass a
      else if opcode = OUT_src then genInsOffs opcode none (some o1) pass a
      else if opcode = VMEXIT ∨ (opcode ≥ VMMALLOC ∧ opcode ≤ VMFREE) then
        if opcode = VMEXIT then
          if pass = 2 then
            Run.ok (emit a (fmt02x (opcode : Int) ++ fmt02x (atoi o1)))
          else Run.ok a
        else
          if pass = 2 then Run.ok (emitWord opcode (atoi o1) a) else Run.ok a
      else if opcode = LIV_addr16 then
        if pass = 2 then
          match resolve_label o1 a with
          | none => Run.exit 1
          | some addr => Run.ok (emitWord opcode (addr : Int) a)
        else Run.ok a
      else if opcode ≥ SETZ_dest ∧ opcode ≤ SETA_dest then
        genInsOffs opcode (some o1) none pass a
      else Run.ok a
  else if sc.count = 1 then
    if (opcode ≥ RET ∧ opcode ≤ POPF) ∨ (opcode ≥ VMRESTART ∧ opcode ≤ VMSTATE) then
      if pass = 2 then Run.ok (emit a (fmt02x (opcode : Int)))
      else Run.ok a
    else Run.ok a
  else Run.ok a

/-- The function `assemble_line` on one line as `fgets` delivers it (at most 63 characters, the
newline included); `pass` is 1 or 2. What is printed to the terminal is not part of the state.
A line shorter than two characters makes `line[strlen(line) - 2]` a read outside the array, and
a line without a word leaves `mnemonic` without a value. The reads `removeNL` and `printf` make
of an `operand1` that `sscanf` did not assign are not represented; no branch taken for that
count uses it. -/
def assemble_line (line : List Char) (pass : Nat) (a : Asm) : Run Asm :=
  if line.length < 2 then Run.ub
  else if line.get? (line.length - 2) = some ':' then
    if pass = 1 then store_label (line.take (line.length - 2)) a.current_address a
    else Run.ok a
  else if line.head? = some '\n' then Run.ok a
  else
    match sscanfLine (remove_leading_tabs_and_spaces line) with
    | none => Run.ub
    | some sc =>
      match sc.mnemonic with
      | none => Run.ub
      | some m =>
        let mnemonic := LowerToCap (removeNL m)
        let operand1 := sc.operand1.map removeNL
        let operand2 := removeNL sc.operand2
        let opcode := get_opcode mnemonic
        if opcode = 0xFF then Run.ok a
        else
          match assembleBody opcode sc operand1 operand2 pass a with
          | Run.ok a1 =>
            Run.ok { a1 with
              current_address := (a1.current_address + get_opcode_size mnemonic) % 65536 }
          | e => e

/-- One `while (fgets(...)) assemble_line(line, ..., pass)` loop of `main` over the lines of the
input file. -/
def runPass (pass : Nat) : List (List Char) → Asm → Run Asm
  | [], a => Run.ok a
  | l :: ls, a =>
    match assemble_line l pass a with
    | Run.ok a1 => runPass pass ls a1
    | e => e

/-- The two passes of `main` of `lasm.c` over the lines of the input file: the state after
pass 2, whose `output` field is the text of the output file. -/
def lasm_main (lines : List (List Char)) : Run Asm :=
  match runPass 1 lines { labels := [], current_address := 0, output := [] } with
  | Run.ok a1 => runPass 2 lines { a1 with current_address := 0 }
  | e => e

/-- The text of the output file after a normal run. -/
def outputOf (r : Run Asm) : Option String :=
  match r with
  | Run.ok a => some (String.mk a.output)
  | _ => none

/-- The label table after a normal run. -/
def labelsOf (r : Run Asm) : Option (List (String × Nat)) :=
  match r with
  | Run.ok a => some (a.labels.map fun l => (String.mk l.name, l.address))
  | _ => none

/-! ## Observations and sample states used in the statements below -/

/-- The shape shared by the mutating branches of `alu`: `*dest = f(*dest)` followed by
`modifyFlags(vm, *dest)`. -/
def rmw (p : Ref) (f : Nat → Nat) : M Unit :=
  load16 p >>= fun v => store16 p (f v) >>= fun _ => load16 p >>= fun v1 => modifyFlags v1

/-- The flags with zero, sign, overflow and carry replaced by what the body of `modifyFlags`
evaluates to on a value below `2^16`. -/
def flagsFor (v : Nat) (f : Flags) : Flags :=
  { f with zero := decide (v = 0), sign := false, overflow := decide (32767 < v), carry := false }

/-- The 16-bit value behind `p` after `alu op p src` has returned normally from `s`. -/
def aluDest (op : Nat) (p : Ref) (src : Nat) (s : VM) : Option Int :=
  match alu op (some p) src s with
  | Res.ok _ s1 =>
    match load16 p s1 with
    | Res.ok v _ => some (v : Int)
    | _ => none
  | _ => none

/-- The flags after `alu op p src` has returned normally from `s`. -/
def aluFlags (op : Nat) (p : Ref) (src : Nat) (s : VM) : Option Flags :=
  match alu op (some p) src s with
  | Res.ok _ s1 => some s1.flags
  | _ => none

/-- One flag after `alu op p src` has returned normally from `s`. -/
def aluFlag (sel : Flags → Bool) (op : Nat) (p : Ref) (src : Nat) (s : VM) : Option Bool :=
  (aluFlags op p src s).map sel

/-- A host whose allocator never fails and hands out zeroed bytes, with no handler beyond the
`ISA` enumeration. -/
def plainHost : Host :=
  { allocFails := fun _ => false, fresh := fun _ => 0, ext := fun _ => none }

/-- A host with one handler outside the enumeration: under the byte `0xF2` it raises the
null-pointer warning and returns, as the `GETS_r4` and `PRINTS_r3` cases do when `GetDestination`
gives them no pointer. -/
def warnHost : Host :=
  { allocFails := fun _ => false, fresh := fun _ => 0,
    ext := fun op =>
      if op = 0xF2 then some (vm_exception ERR_NULL_PTR EXC_WARNING >>= fun _ => pure ())
      else none }

def clearFlags : Flags :=
  { carry := false, zero := false, overflow := false, sign := false,
    halt := false, ie := false, ia := false, f7 := false }

/-- The state `vm_init` followed by `loadProgram` leaves for a program image of at most
`DEFAULT_MEMORY_SIZE` bytes: zeroed registers and flags, `sp` at the top of a zeroed memory
that starts with the image. -/
def boot (image : List Nat) : VM :=
  { memory := image.take DEFAULT_MEMORY_SIZE
      ++ List.replicate (DEFAULT_MEMORY_SIZE - image.length) 0,
    memSize := DEFAULT_MEMORY_SIZE, progSize := image.length, pc := 0, iv := 0,
    r0 := 0, r1 := 0, r2 := 0, r3 := 0, r4 := 0, flags := clearFlags,
    sp := DEFAULT_MEMORY_SIZE, bp := 0, stdin := [], diag := [] }

/-- The program counter after a normal return. -/
def pcAfter {α : Type} (r : Res α) : Option Nat :=
  match r with
  | Res.ok _ s1 => some s1.pc
  | _ => none

/-- The state left by a normal return. -/
def stateAfter {α : Type} (r : Res α) : Option VM :=
  match r with
  | Res.ok _ s1 => some s1
  | _ => none

/-- A number of calls of `execute` in a row, as the loop of `main` issues them; the run ends
early at a call that does not return. -/
def steps (h : Host) : Nat → VM → Res (Option Int)
  | 0, s => Res.ok none s
  | n + 1, s =>
    match execute h s with
    | Res.ok _ s1 => steps h n s1
    | Res.exit c s1 => Res.exit c s1
    | Res.ub => Res.ub

/-- The values of the `ISA` enumeration. -/
def isaOpcodes : List Nat :=
  [NOP, LD_dest_src, LD_dest_imm16, PUSH_src, PUSH_imm16, POP_dest,
   ADD_dest_src, ADD_dest_imm16, SUB_dest_src, SUB_dest_imm16, AND_dest_src, AND_dest_imm16,
   OR_dest_src, OR_dest_imm16, XOR_dest_src, XOR_dest_imm16, CMP_dest_src, CMP_dest_imm16,
   MUL_dest_src, MUL_dest_imm16, DIV_dest_src, DIV_dest_imm16, NOT_dest, INC_dest, DEC_dest,
   JMP_addr16, JZ_addr16, JNZ_addr16, JC_addr16, JNC_addr16, JLE_addr16, JGE_addr16, JL_addr16,
   JG_addr16, CALL_addr16, RET, RETI, INT, EI, DI, CHK_INT, PUSHF, POPF,
   SETZ_dest, SETNZ_dest, SETL_dest, SETLE_dest, SETG_dest, SETGE_dest, SETB_dest, SETBE_dest,
   SETA_dest, SETAE_dest, IN_dest, OUT_src, VMEXIT, VMRESTART, VMGETMEMSIZE, VMSTATE,
   VMMALLOC, VMFREE, LEA_dest_bpoff, LIV_addr16, HALT]

/-- The image `LD r0, a` / `LD r1, b` / `ADD r0, r1` / `HLT` for 16-bit `a`, `b`, immediates low
byte first. -/
def sumProgram (a b : Nat) : List Nat :=
  [LD_dest_imm16, 0x00, a % 256, a / 256 % 256, LD_dest_imm16, 0x10, b % 256, b / 256 % 256,
   ADD_dest_src, 0x01, HALT]

/-- The register names `encode_operand` compares its operand with, in the order of their
codes 0..6. -/
def regNames : List (List Char) :=
  ["r0".toList, "r1".toList, "r2".toList, "r3".toList, "r4".toList, "bp".toList, "sp".toList]

/-- The field of the machine that a register name of the assembly language stands for. -/
def regNamed (name : List Char) : Option Ref :=
  if name = "r0".toList then some Ref.r0
  else if name = "r1".toList then some Ref.r1
  else if name = "r2".toList then some Ref.r2
  else if name = "r3".toList then some Ref.r3
  else if name = "r4".toList then some Ref.r4
  else if name = "bp".toList then some Ref.bp
  else if name = "sp".toList then some Ref.sp
  else none

/-- The current value of a register. -/
def regVal (p : Ref) (s : VM) : Nat :=
  match p with
  | Ref.r0 => s.r0
  | Ref.r1 => s.r1
  | Ref.r2 => s.r2
  | Ref.r3 => s.r3
  | Ref.r4 => s.r4
  | Ref.bp => s.bp
  | Ref.sp => s.sp
  | Ref.mem _ => 0

/-- The mnemonics of the assembler's table that have an immediate form one opcode above their
register form: LD and the two-operand ALU mnemonics. -/
def immMnemonics : List (List Char) :=
  ["LD".toList, "ADD".toList, "SUB".toList, "AND".toList, "OR".toList, "XOR".toList,
   "CMP".toList, "MUL".toList, "DIV".toList]

/-- The bounds on `memSize` and `sp` that the memory-management calls are to maintain. -/
def sizeOk (s : VM) : Prop :=
  1 ≤ s.memSize ∧ s.memSize ≤ 0xFFFF ∧ s.sp ≤ s.memSize

instance (s : VM) : Decidable (sizeOk s) :=
  inferInstanceAs (Decidable (_ ∧ _))

/-! ## Predicates for the pointer bounds -/

/-- Opcodes whose handler in `execute` resolves a destination pointer from the descriptor byte
that follows the opcode. -/
def hasDest (op : Nat) : Prop :=
  op = LD_dest_src ∨ op = LD_dest_imm16 ∨ op = POP_dest ∨ (ADD_dest_src ≤ op ∧ op ≤ DEC_dest)
    ∨ op = IN_dest ∨ op = LEA_dest_bpoff

instance (op : Nat) : Decidable (hasDest op) :=
  inferInstanceAs (Decidable (_ ∨ _))

/-- Opcodes whose handler in `execute` stores through the destination pointer it resolves from
the descriptor byte: those of `hasDest` other than the two compares, which only set flags. -/
def writesDest (op : Nat) : Prop :=
  hasDest op ∧ op ≠ CMP_dest_src ∧ op ≠ CMP_dest_imm16

instance (op : Nat) : Decidable (writesDest op) :=
  inferInstanceAs (Decidable (_ ∧ _))

/-- A command that, whenever it returns, has left `sp`, `bp`, `memSize` and the length of
`memory` as it found them. -/
def Frame {α : Type} (x : M α) : Prop :=
  ∀ s a s1, x s = Res.ok a s1 →
    s1.sp = s.sp ∧ s1.bp = s.bp ∧ s1.memSize = s.memSize ∧ s1.memory.length = s.memory.length

/-- One of the two pointer registers: `sp` for `true`, `bp` for `false`. -/
def ptr (sel : Bool) (s : VM) : Nat :=
  if sel then s.sp else s.bp

/-- The pointer `&vm->sp` or `&vm->bp` of the operand table. -/
def ptrRef (sel : Bool) : Ref :=
  if sel then Ref.sp else Ref.bp

/-- The destination field of a descriptor byte that names the register: 6 for `sp`, 5 for `bp`. -/
def ptrField (sel : Bool) : Nat :=
  if sel then 6 else 5

/-- The sizes and the bound of one pointer register. -/
def InvP (sel : Bool) (s : VM) : Prop :=
  s.memory.length = s.memSize ∧ s.memSize < 65536 ∧ ptr sel s ≤ s.memSize

/-- A command that, whenever it returns, has maintained `InvP sel`. -/
def KeepsP (sel : Bool) {α : Type} (x : M α) : Prop :=
  ∀ s a s1, InvP sel s → x s = Res.ok a s1 → InvP sel s1

/-- Room on the stack for what the instruction `op` pops or pushes in state `s`, so that the
access of `pop16`, `pop8`, `push16` or `push8` lies inside `memory`: two bytes at `sp` for `RET`,
`RETI` and a `POP` into a register, one byte for `POPF`, two bytes below `sp` for `PUSH`, `CALL`
and an `INT` with interrupts enabled, one byte for `PUSHF`. -/
def stackRoom (op : Nat) (s : VM) : Prop :=
  ((op = RET ∨ op = RETI) → s.sp + 2 ≤ s.memSize) ∧
  (op = POP_dest → ∀ d, s.memory[s.pc + 1]? = some d → (decodeDS d).destReg < 7 →
    s.sp + 2 ≤ s.memSize) ∧
  (op = POPF → s.sp + 1 ≤ s.memSize) ∧
  ((op = PUSH_src ∨ op = PUSH_imm16 ∨ op = CALL_addr16 ∨ (op = INT ∧ s.flags.ie = true)) →
    2 ≤ s.sp ∧ s.sp ≤ s.memSize) ∧
  (op = PUSHF → 1 ≤ s.sp ∧ s.sp ≤ s.memSize)

/-! ## Running the monad -/

theorem bind_run {α β : Type} (x : M α) (f : α → M β) (s : VM) :
    (x >>= f) s = match x s with
      | Res.ok a s1 => f a s1
      | Res.exit c s1 => Res.exit c s1
      | Res.ub => Res.ub := rfl

theorem pure_run {α : Type} (a : α) (s : VM) : (pure a : M α) s = Res.ok a s := rfl

theorem ite_run {α : Type} (c : Prop) [Decidable c] (x y : M α) (s : VM) :
    (if c then x else y) s = if c then x s else y s := by
  split <;> rfl

/-! ## Arithmetic facts -/

theorem lt_length_of_getElem_some {l : List Nat} {a b : Nat} (h : l[a]? = some b) :
    a < l.length := by
  rcases Nat.lt_or_ge a l.length with h1 | h1
  · exact h1
  · rw [List.getElem?_eq_none h1] at h; cases h

theorem and_65536 {v : Nat} (h : v < 65536) : v &&& 0x10000 = 0 := by
  have e : (0x10000 : Nat) = 2 ^ 16 := by norm_num
  rw [e, Nat.and_two_pow, Nat.testBit_lt_two_pow (by omega)]
  simp

theorem word_le {lo hi : Nat} (hlo : lo < 256) (hhi : hi < 256) :
    (lo ||| hi <<< 8) % 65536 = lo + 256 * hi := by
  have e : hi <<< 8 = 2 ^ 8 * hi := by rw [Nat.shiftLeft_eq, Nat.mul_comm]
  have hlo8 : lo < 2 ^ 8 := by omega
  rw [Nat.or_comm, e, ← Nat.mul_add_lt_is_or hlo8]
  omega

theorem word_be {lo hi : Nat} (hlo : lo < 256) (hhi : hi < 256) :
    ((hi <<< 8) % 65536 ||| lo) % 65536 = lo + 256 * hi := by
  have e : hi <<< 8 = 2 ^ 8 * hi := by rw [Nat.shiftLeft_eq, Nat.mul_comm]
  have hlo8 : lo < 2 ^ 8 := by omega
  have e2 : (hi <<< 8) % 65536 = 2 ^ 8 * hi := by rw [e]; omega
  rw [e2, ← Nat.mul_add_lt_is_or hlo8]
  omega

theorem and_255 (v : Nat) : v &&& 0xff = v % 256 :=
  Nat.and_pow_two_sub_one_eq_mod v 8

theorem shr_8 (v : Nat) : v >>> 8 = v / 256 :=
  Nat.shiftRight_eq_div_pow v 8

theorem byte_lt {s : VM} (hwf : s.wf) {a b : Nat} (h : s.memory[a]? = some b) : b < 256 :=
  hwf.2.1 b (List.getElem?_mem h)

/-! ## Loads, stores and flags -/

theorem rd_ok {s : VM} {a b : Nat} (h : s.memory[a]? = some b) : rd a s = Res.ok b s := by
  simp [rd, h]

theorem load16_mem_inv {s s1 : VM} {a d : Nat} (h : load16 (Ref.mem a) s = Res.ok d s1) :
    ∃ lo hi, s.memory[a]? = some lo ∧ s.memory[a + 1]? = some hi ∧ d = lo + 256 * hi := by
  simp only [load16, bind_run, rd, pure_run] at h
  cases h1 : s.memory[a]? with
  | none => simp [h1] at h
  | some lo =>
    cases h2 : s.memory[a + 1]? with
    | none => simp [h1, h2] at h
    | some hi =>
      simp [h1, h2] at h
      exact ⟨lo, hi, rfl, rfl, h.1.symm⟩

theorem load16_flags (p : Ref) (s : VM) (d : Nat) (fl : Flags)
    (hd : load16 p s = Res.ok d s) :
    load16 p { s with flags := fl } = Res.ok d { s with flags := fl } := by
  cases p with
  | mem a =>
    obtain ⟨lo, hi, h1, h2, rfl⟩ := load16_mem_inv hd
    simp [bind_run, load16, rd, pure_run, h1, h2]
  | _ => simpa [bind_run, load16, pure_run, getVM] using hd

theorem modifyFlags_run (v : Nat) (hv : v < 65536) (s : VM) :
    modifyFlags v s = Res.ok () { s with flags := flagsFor v s.flags } := by
  have h1 : ¬ ((v : Int) < -32768) := by omega
  have h2 : ((v : Int) > 32767) ↔ 32767 < v := by omega
  simp [modifyFlags, modifyVM, flagsFor, and_65536 hv, h1, h2]

theorem store16_load16 (p : Ref) (s : VM) (d v : Nat) (hd : load16 p s = Res.ok d s) :
    ∃ s1, store16 p v s = Res.ok () s1 ∧ s1.flags = s.flags ∧ s1.diag = s.diag
      ∧ ∀ fl, load16 p { s1 with flags := fl } = Res.ok (v % 65536) { s1 with flags := fl } := by
  cases p with
  | mem a =>
    obtain ⟨lo, hi, h1, h2, rfl⟩ := load16_mem_inv hd
    have l1 := lt_length_of_getElem_some h1
    have l2 := lt_length_of_getElem_some h2
    simp [bind_run, load16, store16, rd, wr, pure_run, l1, l2, List.getElem?_set]
    omega
  | _ => simp [bind_run, load16, store16, modifyVM, pure_run, getVM]

theorem rmw_run (p : Ref) (s : VM) (d : Nat) (f : Nat → Nat) (hd : load16 p s = Res.ok d s) :
    ∃ s1, rmw p f s = Res.ok () s1
      ∧ load16 p s1 = Res.ok (f d % 65536) s1
      ∧ s1.flags = flagsFor (f d % 65536) s.flags
      ∧ s1.diag = s.diag := by
  have hlt : f d % 65536 < 65536 := Nat.mod_lt _ (by norm_num)
  obtain ⟨s1, h1, h2, h3, h4⟩ := store16_load16 p s d (f d) hd
  have h5 := h4 s1.flags
  refine ⟨{ s1 with flags := flagsFor (f d % 65536) s1.flags }, ?_, h4 _, ?_, h3⟩
  · simp only [rmw, bind_run, hd, h1, h5, modifyFlags_run _ hlt]
  · simp [h2]

theorem obs_rmw (op : Nat) (p : Ref) (src : Nat) (f : Nat → Nat) (s : VM) (d : Nat)
    (he : alu op (some p) src = rmw p f) (hd : load16 p s = Res.ok d s) :
    aluDest op p src s = some ((f d % 65536 : Nat) : Int) ∧
    aluFlags op p src s = some (flagsFor (f d % 65536) s.flags) := by
  obtain ⟨s1, h1, h2, h3, _⟩ := rmw_run p s d f hd
  simp [aluDest, aluFlags, he, h1, h2, h3]

theorem obs_cmp (p : Ref) (src : Nat) (s : VM) (d : Nat) (hd : load16 p s = Res.ok d s) :
    aluDest ALU_CMP p src s = some (d : Int) ∧
    aluFlags ALU_CMP p src s
      = some (flagsFor (u16 (i16 ((d : Int) - (src : Int)))) s.flags) := by
  have hlt : u16 (i16 ((d : Int) - (src : Int))) < 65536 := by unfold u16; omega
  have e : alu ALU_CMP (some p) src s
      = Res.ok () { s with flags := flagsFor (u16 (i16 ((d : Int) - (src : Int)))) s.flags } := by
    simp [alu, bind_run, hd, modifyFlags_run _ hlt]
  simp [aluDest, aluFlags, e, load16_flags p s d _ hd]

theorem alu_add_eq (p : Ref) (src : Nat) :
    alu ALU_ADD (some p) src = rmw p (fun v => u16 ((v : Int) + (src : Int))) := rfl

theorem alu_sub_eq (p : Ref) (src : Nat) :
    alu ALU_SUB (some p) src = rmw p (fun v => u16 ((v : Int) - (src : Int))) := rfl

theorem alu_and_eq (p : Ref) (src : Nat) :
    alu ALU_AND (some p) src = rmw p (fun v => v &&& src) := rfl

theorem alu_or_eq (p : Ref) (src : Nat) :
    alu ALU_OR (some p) src = rmw p (fun v => v ||| src) := rfl

theorem alu_xor_eq (p : Ref) (src : Nat) :
    alu ALU_XOR (some p) src = rmw p (fun v => v ^^^ src) := rfl

theorem alu_mul_eq (p : Ref) (src : Nat) :
    alu ALU_MUL (some p) src = rmw p (fun v => u16 ((v : Int) * (src : Int))) := rfl

theorem alu_div_eq (p : Ref) (src : Nat) (h : src ≠ 0) :
    alu ALU_DIV (some p) src = rmw p (fun v => v / src) := by
  simp [alu, h, rmw]

theorem alu_not_eq (p : Ref) (src : Nat) :
    alu ALU_NOT (some p) src = rmw p (fun v => u16 (-(v : Int) - 1)) := rfl

theorem alu_inc_eq (p : Ref) (src : Nat) :
    alu ALU_INC (some p) src = rmw p (fun v => u16 ((v : Int) + 1)) := rfl

theorem alu_dec_eq (p : Ref) (src : Nat) :
    alu ALU_DEC (some p) src = rmw p (fun v => u16 ((v : Int) - 1)) := rfl

theorem aluFlag_of {op : Nat} {p : Ref} {src : Nat} {s : VM} {fl : Flags}
    (h : aluFlags op p src s = some fl) (sel : Flags → Bool) :
    aluFlag sel op p src s = some (sel fl) := by
  simp [aluFlag, h]

theorem zero_rmw (op : Nat) (p : Ref) (src : Nat) (f : Nat → Nat) (s : VM) (d : Nat) (q : Prop)
    [Decidable q] (he : alu op (some p) src = rmw p f) (hd : load16 p s = Res.ok d s)
    (hq : f d % 65536 = 0 ↔ q) :
    aluFlag Flags.zero op p src s = some (decide q) := by
  rw [aluFlag_of (obs_rmw op p src f s d he hd).2]
  simp [flagsFor, hq]

/-! ## Stack and operand resolver facts -/

theorem push16_run (s : VM) (v : Nat) (hlen : s.memory.length = s.memSize)
    (hms : s.memSize < 65536) (hsp : 2 ≤ s.sp) (hsp2 : s.sp ≤ s.memSize) :
    push16 v s = Res.ok () { s with
      sp := s.sp - 2,
      memory := (s.memory.set (s.sp - 1) (v % 256)).set (s.sp - 2) (v / 256 % 256) } := by
  have a1 : u16 ((s.sp : Int) - 1) = s.sp - 1 := by unfold u16; omega
  have a2 : u16 (((s.sp - 1 : Nat) : Int) - 1) = s.sp - 2 := by unfold u16; omega
  have l1 : s.sp - 1 < s.memory.length := by omega
  have l2 : s.sp - 2 < s.memory.length := by omega
  have hnle : ¬ (s.memSize < s.sp) := by omega
  simp [push16, bind_run, pure_run, ite_run, getVM, modifyVM, wr, a1, a2, l1, l2, hnle,
    and_255, shr_8]

theorem pop16_run (s : VM) (hi lo : Nat) (h1 : s.memory[s.sp]? = some hi)
    (h2 : s.memory[s.sp + 1]? = some lo) (hhi : hi < 256) (hlo : lo < 256)
    (hsp : s.sp ≤ s.memSize) (hms : s.sp + 2 < 65536) :
    pop16 s = Res.ok (lo + 256 * hi) { s with sp := s.sp + 2 } := by
  have b1 : (s.sp + 1) % 65536 = s.sp + 1 := by omega
  have b2 : (s.sp + 1 + 1) % 65536 = s.sp + 2 := by omega
  have hnle : ¬ (s.memSize < s.sp) := by omega
  have hw := word_be hlo hhi
  simp [pop16, bind_run, pure_run, ite_run, getVM, modifyVM, rd, h1, h2, b1, b2, hnle, hw]

theorem GetDestination_reg (DSb : Nat) (s : VM) (hk : (decodeDS DSb).destReg < 7) :
    GetDestination DSb s = Res.ok (regTable (decodeDS DSb).destReg) s := by
  have hn : ¬ (7 ≤ (decodeDS DSb).destReg) := by omega
  simp [GetDestination, hn, pure_run]

theorem decodeDS_0x20 : decodeDS 0x20 = { destReg := 2, srcReg := 0 } := by decide

theorem boot_wf (image : List Nat) (hb : ∀ b ∈ image, b < 256)
    (hl : image.length ≤ DEFAULT_MEMORY_SIZE) : (boot image).wf := by
  have hl1 : image.length ≤ 1024 := hl
  refine ⟨?_, ?_, ?_⟩
  · simp [boot, DEFAULT_MEMORY_SIZE]; omega
  · intro b hbm
    simp only [boot, List.mem_append] at hbm
    rcases hbm with hbm | hbm
    · exact hb b (List.mem_of_mem_take hbm)
    · rw [(List.mem_replicate.mp hbm).2]; norm_num
  · simp [boot, DEFAULT_MEMORY_SIZE]; omega

theorem boot_mem (image : List Nat) (i b : Nat) (hl : image.length ≤ DEFAULT_MEMORY_SIZE)
    (h : image[i]? = some b) : (boot image).memory[i]? = some b := by
  have hi := lt_length_of_getElem_some h
  have hl1 : image.length ≤ 1024 := hl
  simp only [boot]
  rw [List.take_of_length_le hl, List.getElem?_append_left hi]
  exact h

/-! ## Byte stack and flag byte -/

theorem push8_run (s : VM) (v : Nat) (hlen : s.memory.length = s.memSize)
    (hms : s.memSize < 65536) (hsp : 1 ≤ s.sp) (hsp2 : s.sp ≤ s.memSize) :
    push8 v s = Res.ok () { s with
      sp := s.sp - 1, memory := s.memory.set (s.sp - 1) (v % 256) } := by
  have a1 : u16 ((s.sp : Int) - 1) = s.sp - 1 := by unfold u16; omega
  have l1 : s.sp - 1 < s.memory.length := by omega
  have hne : s.sp ≠ 0 := by omega
  simp [push8, bind_run, pure_run, ite_run, getVM, modifyVM, wr, a1, l1, hne]

theorem pop8_run (s : VM) (b : Nat) (h1 : s.memory[s.sp]? = some b)
    (hsp : s.sp ≤ s.memSize) (hms : s.sp + 1 < 65536) :
    pop8 s = Res.ok b { s with sp := s.sp + 1 } := by
  have b1 : (s.sp + 1) % 65536 = s.sp + 1 := by omega
  have hnle : ¬ (s.memSize < s.sp) := by omega
  simp [pop8, bind_run, pure_run, ite_run, getVM, modifyVM, rd, h1, b1, hnle]

theorem packFlags_eq (f : Flags) :
    packFlags f = ofBool f.carry + 2 * ofBool f.zero + 4 * ofBool f.overflow
      + 8 * ofBool f.sign + 16 * ofBool f.halt + 32 * ofBool f.ie + 64 * ofBool f.ia := by
  rcases f with ⟨a, b, c, d, e, g, i, j⟩
  cases a <;> cases b <;> cases c <;> cases d <;> cases e <;> cases g <;> cases i <;>
    cases j <;> decide

theorem unpack_pack (f : Flags) : unpackFlags (packFlags f) = { f with f7 := false } := by
  rcases f with ⟨a, b, c, d, e, g, i, j⟩
  cases a <;> cases b <;> cases c <;> cases d <;> cases e <;> cases g <;> cases i <;>
    cases j <;> decide

theorem packFlags_lt (f : Flags) : packFlags f < 256 := by
  unfold packFlags
  exact Nat.mod_lt _ (by norm_num)

/-! ## Register operands -/

theorem regTable_lt {k : Nat} {p : Ref} (h : regTable k = some p) : k < 7 := by
  unfold regTable at h
  split_ifs at h <;> omega

theorem regTable_cases {k : Nat} {p : Ref} (h : regTable k = some p) :
    p = Ref.r0 ∨ p = Ref.r1 ∨ p = Ref.r2 ∨ p = Ref.r3 ∨ p = Ref.r4 ∨ p = Ref.bp ∨ p = Ref.sp := by
  unfold regTable at h
  split_ifs at h <;> simp_all

theorem GetSource_reg (DSb : Nat) (q : Ref) (t : VM)
    (hq : regTable (decodeDS DSb).srcReg = some q) : GetSource DSb t = load16 q t := by
  have hk := regTable_lt hq
  have hn : ¬ (7 ≤ (decodeDS DSb).srcReg) := by omega
  simp [GetSource, hn, hq]

theorem load16_reg_reloc {k : Nat} {q : Ref} (hq : regTable k = some q) (t : VM) (v a : Nat)
    (m : List Nat) (hv : load16 q t = Res.ok v t) :
    load16 q { t with pc := a, memory := m } = Res.ok v { t with pc := a, memory := m } := by
  rcases regTable_cases hq with rfl | rfl | rfl | rfl | rfl | rfl | rfl <;>
    simpa [load16, bind_run, pure_run, getVM] using hv

theorem rmw_reg_reloc (k : Nat) (p : Ref) (f : Nat → Nat) (hp : regTable k = some p) (t : VM) :
    ∃ t1, rmw p f t = Res.ok () t1 ∧ t1.pc = t.pc ∧
      ∀ a m, rmw p f { t with pc := a, memory := m }
        = Res.ok () { t1 with pc := a, memory := m } := by
  rcases regTable_cases hp with rfl | rfl | rfl | rfl | rfl | rfl | rfl <;>
    simp [rmw, bind_run, pure_run, load16, store16, modifyFlags, modifyVM, getVM]

theorem cmp_reg_reloc (k v : Nat) (p : Ref) (hp : regTable k = some p) (t : VM) :
    ∃ t1, alu ALU_CMP (some p) v t = Res.ok () t1 ∧ t1.pc = t.pc ∧
      ∀ a m, alu ALU_CMP (some p) v { t with pc := a, memory := m }
        = Res.ok () { t1 with pc := a, memory := m } := by
  rcases regTable_cases hp with rfl | rfl | rfl | rfl | rfl | rfl | rfl <;>
    simp [alu, bind_run, pure_run, load16, modifyFlags, modifyVM, getVM]

theorem alu_reg_reloc (op k v : Nat) (p : Ref) (hp : regTable k = some p) (t : VM) :
    ∃ t1, alu op (some p) v t = Res.ok () t1 ∧ t1.pc = t.pc ∧
      ∀ a m, alu op (some p) v { t with pc := a, memory := m }
        = Res.ok () { t1 with pc := a, memory := m } := by
  have hop : op = 6 ∨ op = 8 ∨ op = 10 ∨ op = 12 ∨ op = 14 ∨ op = 16 ∨ op = 18 ∨ op = 20 ∨
      op = 21 ∨ op = 22 ∨ op = 23 ∨
      (op ≠ 6 ∧ op ≠ 8 ∧ op ≠ 10 ∧ op ≠ 12 ∧ op ≠ 14 ∧ op ≠ 16 ∧ op ≠ 18 ∧ op ≠ 20 ∧
        op ≠ 21 ∧ op ≠ 22 ∧ op ≠ 23) := by omega
  rcases hop with rfl | rfl | rfl | rfl | rfl | rfl | rfl | rfl | rfl | rfl | rfl |
      ⟨h1, h2, h3, h4, h5, h6, h7, h8, h9, h10, h11⟩
  · exact alu_add_eq p v ▸ rmw_reg_reloc k p _ hp t
  · exact alu_sub_eq p v ▸ rmw_reg_reloc k p _ hp t
  · exact alu_and_eq p v ▸ rmw_reg_reloc k p _ hp t
  · exact alu_or_eq p v ▸ rmw_reg_reloc k p _ hp t
  · exact alu_xor_eq p v ▸ rmw_reg_reloc k p _ hp t
  · exact cmp_reg_reloc k v p hp t
  · exact alu_mul_eq p v ▸ rmw_reg_reloc k p _ hp t
  · by_cases hv : v = 0
    · simp [alu, bind_run, pure_run, vm_exception, hv]
    · exact alu_div_eq p v hv ▸ rmw_reg_reloc k p _ hp t
  · exact alu_not_eq p v ▸ rmw_reg_reloc k p _ hp t
  · exact alu_inc_eq p v ▸ rmw_reg_reloc k p _ hp t
  · exact alu_dec_eq p v ▸ rmw_reg_reloc k p _ hp t
  · simp [alu, bind_run, pure_run, vm_exception, h1, h2, h3, h4, h5, h6, h7, h8, h9, h10, h11]

/-! ## Pointer bounds through one step -/

theorem bind_inv {α β : Type} {x : M α} {f : α → M β} {s s2 : VM} {b : β}
    (h : (x >>= f) s = Res.ok b s2) : ∃ a s1, x s = Res.ok a s1 ∧ f a s1 = Res.ok b s2 := by
  rw [bind_run] at h
  cases hx : x s with
  | ok a s1 => rw [hx] at h; exact ⟨a, s1, rfl, h⟩
  | exit c s1 => rw [hx] at h; cases h
  | ub => rw [hx] at h; cases h

theorem Frame_pure {α : Type} (a : α) : Frame (pure a : M α) := by
  intro s b s1 hr
  rw [pure_run] at hr
  cases hr
  exact ⟨rfl, rfl, rfl, rfl⟩

theorem Frame_bind {α β : Type} {x : M α} {f : α → M β} (hx : Frame x)
    (hf : ∀ a, Frame (f a)) : Frame (x >>= f) := by
  intro s b s2 hr
  obtain ⟨a, s1, h1, h2⟩ := bind_inv hr
  obtain ⟨a1, a2, a3, a4⟩ := hx s a s1 h1
  obtain ⟨b1, b2, b3, b4⟩ := hf a s1 b s2 h2
  exact ⟨by omega, by omega, by omega, by omega⟩

theorem Frame_bind_post {α β : Type} {x : M α} {f : α → M β} (P : α → Prop)
    (hp : ∀ s a s1, x s = Res.ok a s1 → P a) (hx : Frame x)
    (hf : ∀ a, P a → Frame (f a)) : Frame (x >>= f) := by
  intro s b s2 hr
  obtain ⟨a, s1, h1, h2⟩ := bind_inv hr
  obtain ⟨a1, a2, a3, a4⟩ := hx s a s1 h1
  obtain ⟨b1, b2, b3, b4⟩ := hf a (hp s a s1 h1) s1 b s2 h2
  exact ⟨by omega, by omega, by omega, by omega⟩

theorem Frame_ite {α : Type} {c : Prop} [Decidable c] {x y : M α} (hx : Frame x)
    (hy : Frame y) : Frame (if c then x else y) := by
  split
  · exact hx
  · exact hy

theorem Frame_getVM : Frame getVM := by
  intro s a s1 hr
  cases hr
  exact ⟨rfl, rfl, rfl, rfl⟩

theorem Frame_modifyVM (f : VM → VM)
    (hf : ∀ t, (f t).sp = t.sp ∧ (f t).bp = t.bp ∧ (f t).memSize = t.memSize
      ∧ (f t).memory.length = t.memory.length) : Frame (modifyVM f) := by
  intro s a s1 hr
  cases hr
  exact hf s

theorem Frame_undef {α : Type} : Frame (undef : M α) := by
  intro s a s1 hr
  cases hr

theorem Frame_rd (a : Nat) : Frame (rd a) := by
  intro s b s1 hr
  unfold rd at hr
  split at hr
  · cases hr; exact ⟨rfl, rfl, rfl, rfl⟩
  · cases hr

theorem Frame_wr (a b : Nat) : Frame (wr a b) := by
  intro s u s1 hr
  unfold wr at hr
  split at hr
  · cases hr; exact ⟨rfl, rfl, rfl, by simp⟩
  · cases hr

theorem Frame_vm_exception (code : Int) (sev : Nat) : Frame (vm_exception code sev) := by
  intro s a s1 hr
  unfold vm_exception at hr
  split at hr
  · cases hr; exact ⟨rfl, rfl, rfl, rfl⟩
  · simp only [] at hr
    split at hr
    · cases hr
    · cases hr; exact ⟨rfl, rfl, rfl, rfl⟩

theorem Frame_getchar : Frame getchar := by
  intro s a s1 hr
  unfold getchar at hr
  split at hr <;> (cases hr; exact ⟨rfl, rfl, rfl, rfl⟩)

theorem Frame_fByte : Frame fByte := by
  unfold fByte
  refine Frame_bind Frame_getVM (fun _ => Frame_bind
    (Frame_modifyVM _ (fun _ => ⟨rfl, rfl, rfl, rfl⟩)) (fun _ => Frame_rd _))

theorem Frame_fWord : Frame fWord := by
  unfold fWord
  refine Frame_bind Frame_getVM (fun _ => Frame_bind
    (Frame_modifyVM _ (fun _ => ⟨rfl, rfl, rfl, rfl⟩)) (fun _ => Frame_bind (Frame_rd _)
    (fun _ => Frame_bind Frame_getVM (fun _ => Frame_bind
    (Frame_modifyVM _ (fun _ => ⟨rfl, rfl, rfl, rfl⟩)) (fun _ => Frame_bind (Frame_rd _)
    (fun _ => Frame_pure _))))))

theorem Frame_load16 (p : Ref) : Frame (load16 p) := by
  cases p <;> unfold load16 <;>
    first
    | with_reducible exact Frame_bind Frame_getVM (fun _ => Frame_pure _)
    | with_reducible exact Frame_bind (Frame_rd _) (fun _ => Frame_bind (Frame_rd _) (fun _ => Frame_pure _))

theorem Frame_load8 (p : Option Ref) : Frame (load8 p) := by
  unfold load8
  split
  · exact Frame_rd _
  · exact Frame_undef

theorem Frame_store16 (d : Ref) (v : Nat) (h1 : some d ≠ some Ref.sp)
    (h2 : some d ≠ some Ref.bp) : Frame (store16 d v) := by
  cases d <;> unfold store16 <;>
    first
    | with_reducible exact Frame_modifyVM _ (fun _ => ⟨rfl, rfl, rfl, rfl⟩)
    | with_reducible exact Frame_bind (Frame_wr _ _) (fun _ => Frame_wr _ _)
    | with_reducible exact absurd rfl h1
    | with_reducible exact absurd rfl h2

theorem Frame_modifyFlags (v : Nat) : Frame (modifyFlags v) :=
  Frame_modifyVM _ (fun _ => ⟨rfl, rfl, rfl, rfl⟩)

theorem Frame_RegOffset (reg : Bool) (o : Int) : Frame (RegOffset reg o) := by
  unfold RegOffset
  refine Frame_bind Frame_getVM (fun _ => ?_)
  repeat' first
    | with_reducible exact Frame_pure _
    | with_reducible exact Frame_vm_exception _ _
    | with_reducible refine Frame_bind ?_ (fun _ => ?_)
    | with_reducible refine Frame_ite ?_ ?_

theorem Frame_GetDestination (DSb : Nat) : Frame (GetDestination DSb) := by
  unfold GetDestination
  repeat' first
    | with_reducible exact Frame_pure _
    | with_reducible exact Frame_getVM
    | with_reducible exact Frame_fByte
    | with_reducible exact Frame_RegOffset _ _
    | with_reducible exact Frame_vm_exception _ _
    | with_reducible refine Frame_bind ?_ (fun _ => ?_)
    | with_reducible refine Frame_ite ?_ ?_

theorem Frame_GetSource (DSb : Nat) : Frame (GetSource DSb) := by
  unfold GetSource
  repeat' first
    | with_reducible exact Frame_pure _
    | with_reducible exact Frame_getVM
    | with_reducible exact Frame_fByte
    | with_reducible exact Frame_RegOffset _ _
    | with_reducible exact Frame_vm_exception _ _
    | with_reducible exact Frame_load8 _
    | with_reducible exact Frame_load16 _
    | with_reducible exact Frame_rd _
    | with_reducible exact Frame_undef
    | with_reducible refine Frame_bind ?_ (fun _ => ?_)
    | with_reducible refine Frame_ite ?_ ?_
    | split

theorem Frame_alu (op : Nat) (dest : Option Ref) (v : Nat) (h1 : dest ≠ some Ref.sp)
    (h2 : dest ≠ some Ref.bp) : Frame (alu op dest v) := by
  cases dest with
  | none =>
    unfold alu
    exact Frame_bind (Frame_vm_exception _ _) (fun _ => Frame_pure _)
  | some d =>
    unfold alu
    simp only []
    repeat' first
      | with_reducible exact Frame_pure _
      | with_reducible exact Frame_vm_exception _ _
      | with_reducible exact Frame_load16 _
      | with_reducible exact Frame_store16 _ _ h1 h2
      | with_reducible exact Frame_modifyFlags _
      | with_reducible refine Frame_bind ?_ (fun _ => ?_)
      | with_reducible refine Frame_ite ?_ ?_

theorem length_reallocBuf (h : Host) (old : List Nat) (n : Nat) :
    (reallocBuf h old n).length = n := by
  simp [reallocBuf]
  omega

theorem RegOffset_post (c : Bool) (o : Int) (t : VM) (p : Option Ref) (t1 : VM)
    (ht : RegOffset c o t = Res.ok p t1) : p ≠ some Ref.sp ∧ p ≠ some Ref.bp := by
  unfold RegOffset at ht
  simp only [bind_run, getVM, ite_run, pure_run, vm_exception] at ht
  split_ifs at ht
  all_goals
    first
    | contradiction
    | (simp at ht
       obtain ⟨rfl, -⟩ := ht
       simp)

theorem GetDestination_post (DSb : Nat) (h5 : (decodeDS DSb).destReg ≠ 5)
    (h6 : (decodeDS DSb).destReg ≠ 6) (s : VM) (dest : Option Ref) (s1 : VM)
    (hr : GetDestination DSb s = Res.ok dest s1) :
    dest ≠ some Ref.sp ∧ dest ≠ some Ref.bp := by
  by_cases h7 : 7 ≤ (decodeDS DSb).destReg
  · unfold GetDestination at hr
    simp only [ge_iff_le, h7, if_true] at hr
    split_ifs at hr
    · obtain ⟨o, t, -, h2⟩ := bind_inv hr
      exact RegOffset_post _ _ _ _ _ h2
    · obtain ⟨o, t, -, h2⟩ := bind_inv hr
      exact RegOffset_post _ _ _ _ _ h2
    all_goals
      simp only [bind_run, getVM, ite_run, pure_run, vm_exception] at hr
      split_ifs at hr
      all_goals
        first
        | contradiction
        | (simp at hr
           obtain ⟨rfl, -⟩ := hr
           simp)
  · rw [GetDestination_reg DSb s (by omega)] at hr
    cases hr
    unfold regTable
    split_ifs <;> simp_all

theorem fByte_inv {s t : VM} {b : Nat} (h : fByte s = Res.ok b t) :
    s.memory[s.pc]? = some b ∧ t = { s with pc := (s.pc + 1) % 65536 } := by
  simp only [fByte, bind_run, getVM, modifyVM, rd] at h
  cases hm : s.memory[s.pc]? with
  | none => simp [hm] at h
  | some c =>
    simp [hm] at h
    exact ⟨by rw [h.1], h.2.symm⟩

theorem Frame_handleSET_r0 (op : Nat) : Frame (handleSET op 0) := by
  unfold handleSET
  refine Frame_bind_post (fun dest => dest ≠ some Ref.sp ∧ dest ≠ some Ref.bp)
    (fun s a s1 hr => GetDestination_post 0 (by decide) (by decide) s a s1 hr)
    (Frame_GetDestination 0) (fun dest hd => ?_)
  obtain ⟨h1, h2⟩ := hd
  cases dest with
  | none => exact Frame_bind (Frame_vm_exception _ _) (fun _ => Frame_pure _)
  | some d =>
    simp only []
    repeat' first
      | with_reducible exact Frame_pure _
      | with_reducible exact Frame_getVM
      | with_reducible exact Frame_vm_exception _ _
      | with_reducible exact Frame_store16 _ _ h1 h2
      | with_reducible refine Frame_bind ?_ (fun _ => ?_)
      | with_reducible refine Frame_ite ?_ ?_

theorem ite_elim {α : Type} {c : Prop} [Decidable c] {x y : M α} {t s1 : VM} {r : α} {P : Prop}
    (hx : c → x t = Res.ok r s1 → P) (hy : ¬ c → y t = Res.ok r s1 → P) :
    (if c then x else y) t = Res.ok r s1 → P := by
  split
  · exact hx ‹_›
  · exact hy ‹_›

/-! ## Fetches, allocation calls and the sum program -/

theorem fByte_run (s : VM) (b : Nat) (hlen : s.memory.length = s.memSize)
    (hms : s.memSize < 65536) (h0 : s.memory[s.pc]? = some b) :
    fByte s = Res.ok b { s with pc := s.pc + 1 } := by
  have l0 := lt_length_of_getElem_some h0
  have e1 : (s.pc + 1) % 65536 = s.pc + 1 := by omega
  simp [fByte, bind_run, getVM, modifyVM, rd, h0, e1]

theorem fWord_run (s : VM) (lo hi : Nat) (hlen : s.memory.length = s.memSize)
    (hms : s.memSize < 65536) (hlo : lo < 256) (hhi : hi < 256)
    (h0 : s.memory[s.pc]? = some lo) (h1 : s.memory[s.pc + 1]? = some hi) :
    fWord s = Res.ok (lo + 256 * hi) { s with pc := s.pc + 2 } := by
  have l1 := lt_length_of_getElem_some h1
  have e1 : (s.pc + 1) % 65536 = s.pc + 1 := by omega
  have e2 : (s.pc + 1 + 1) % 65536 = s.pc + 2 := by omega
  simp [fWord, bind_run, pure_run, getVM, modifyVM, rd, h0, h1, e1, e2, word_le hlo hhi]

theorem vm_malloc_reject (h : Host) (s : VM) (n : Nat) (hbig : s.memSize + n > 0xFFFF) :
    vm_malloc h n s = Res.ok 1 { s with diag := s.diag ++ [(ERR_MALLOC, EXC_WARNING)] } := by
  simp [vm_malloc, bind_run, pure_run, ite_run, getVM, hbig, vm_exception]

theorem vm_malloc_grant (h : Host) (s : VM) (n : Nat) (hfit : s.memSize + n ≤ 0xFFFF)
    (hal : h.allocFails (s.memSize + n) = false) :
    vm_malloc h n s = Res.ok 0 { s with
      memory := reallocBuf h s.memory (s.memSize + n), memSize := s.memSize + n } := by
  have hbig : ¬ (65535 < s.memSize + n) := by omega
  have e : (s.memSize + n) % 65536 = s.memSize + n := by omega
  simp [vm_malloc, bind_run, pure_run, ite_run, getVM, modifyVM, hbig, e, hal]

theorem vm_free_reject (h : Host) (s : VM) (n : Nat) (hbig : n ≥ s.memSize) :
    vm_free h n s = Res.ok 1 { s with diag := s.diag ++ [(ERR_FREE, EXC_WARNING)] } := by
  simp [vm_free, bind_run, pure_run, ite_run, getVM, hbig, vm_exception]

theorem vm_free_grant (h : Host) (s : VM) (n : Nat) (hms : s.memSize < 65536)
    (hlt : n < s.memSize) (hal : h.allocFails (s.memSize - n) = false) :
    vm_free h n s = Res.ok 0 { s with
      memory := reallocBuf h s.memory (s.memSize - n), memSize := s.memSize - n,
      sp := min s.sp (s.memSize - n) } := by
  have hbig : ¬ (n ≥ s.memSize) := by omega
  have e : u16 ((s.memSize : Int) - (n : Int)) = s.memSize - n := by unfold u16; omega
  by_cases hsp : s.sp > s.memSize - n
  · have hm : min s.sp (s.memSize - n) = s.memSize - n := by omega
    simp [vm_free, bind_run, pure_run, ite_run, getVM, modifyVM, hbig, e, hal, hsp, hm]
  · have hm : min s.sp (s.memSize - n) = s.sp := by omega
    simp [vm_free, bind_run, pure_run, ite_run, getVM, modifyVM, hbig, e, hal, hsp, hm]

theorem reallocBuf_get (h : Host) (old : List Nat) (n i : Nat) (hi : i < n)
    (hl : i < old.length) : (reallocBuf h old n)[i]? = old[i]? := by
  unfold reallocBuf
  rw [List.getElem?_append_left (by simp; omega)]
  simp [List.getElem?_take, hi]

theorem decodeDS_0x00 : decodeDS 0x00 = { destReg := 0, srcReg := 0 } := by decide
theorem decodeDS_0x10 : decodeDS 0x10 = { destReg := 1, srcReg := 0 } := by decide
theorem decodeDS_0x01 : decodeDS 0x01 = { destReg := 0, srcReg := 1 } := by decide

set_option maxHeartbeats 1000000 in
theorem sum_run (h : Host) (s : VM) (a b : Nat) (ha : a < 65536) (hb : b < 65536)
    (hwf : s.wf) (hpc : s.pc = 0)
    (hm : ∀ i x : Nat, (sumProgram a b)[i]? = some x → s.memory[i]? = some x) :
    steps h 4 s = Res.ok none { s with
      r0 := (a + b) % 65536, r1 := b, pc := 11,
      flags := { flagsFor ((a + b) % 65536) s.flags with halt := true } } := by
  have m0 : s.memory[0]? = some LD_dest_imm16 := hm 0 _ rfl
  have m1 : s.memory[1]? = some 0x00 := hm 1 _ rfl
  have m2 : s.memory[2]? = some (a % 256) := hm 2 _ rfl
  have m3 : s.memory[3]? = some (a / 256 % 256) := hm 3 _ rfl
  have m4 : s.memory[4]? = some LD_dest_imm16 := hm 4 _ rfl
  have m5 : s.memory[5]? = some 0x10 := hm 5 _ rfl
  have m6 : s.memory[6]? = some (b % 256) := hm 6 _ rfl
  have m7 : s.memory[7]? = some (b / 256 % 256) := hm 7 _ rfl
  have m8 : s.memory[8]? = some ADD_dest_src := hm 8 _ rfl
  have m9 : s.memory[9]? = some 0x01 := hm 9 _ rfl
  have m10 : s.memory[10]? = some HALT := hm 10 _ rfl
  have wa : (a % 256 ||| (a / 256 % 256) <<< 8) % 65536 = a := by
    rw [word_le (Nat.mod_lt _ (by norm_num)) (Nat.mod_lt _ (by norm_num))]; omega
  have wb : (b % 256 ||| (b / 256 % 256) <<< 8) % 65536 = b := by
    rw [word_le (Nat.mod_lt _ (by norm_num)) (Nat.mod_lt _ (by norm_num))]; omega
  have ea : a % 65536 = a := by omega
  have eb : b % 65536 = b := by omega
  have e1 : execute h s = Res.ok none { s with r0 := a, pc := 4 } := by
    simp [execute, bind_run, pure_run, fByte, fWord, getVM, modifyVM, rd, hpc, m0, m1, m2, m3,
      GetDestination, decodeDS_0x00, regTable, store16, wa, ea]
  have e2 : execute h { s with r0 := a, pc := 4 }
      = Res.ok none { s with r0 := a, r1 := b, pc := 8 } := by
    simp [execute, bind_run, pure_run, fByte, fWord, getVM, modifyVM, rd, m4, m5, m6, m7,
      GetDestination, decodeDS_0x10, regTable, store16, wb, eb]
  have hsum : u16 ((a : Int) + (b : Int)) = (a + b) % 65536 := by unfold u16; omega
  have hlt : (a + b) % 65536 < 65536 := Nat.mod_lt _ (by norm_num)
  have e3 : execute h { s with r0 := a, r1 := b, pc := 8 }
      = Res.ok none { s with
          r0 := (a + b) % 65536, r1 := b, pc := 10,
          flags := flagsFor ((a + b) % 65536) s.flags } := by
    have hf1 := fByte_run { s with r0 := a, r1 := b, pc := 8 } ADD_dest_src hwf.1 hwf.2.2.1 m8
    have hf2 := fByte_run { s with r0 := a, r1 := b, pc := 9 } 0x01 hwf.1 hwf.2.2.1 m9
    have hg := GetDestination_reg 0x01 { s with r0 := a, r1 := b, pc := 10 }
      (by rw [decodeDS_0x01]; decide)
    have hs := GetSource_reg 0x01 Ref.r1 { s with r0 := a, r1 := b, pc := 10 }
      (by rw [decodeDS_0x01]; rfl)
    have hmf := modifyFlags_run ((a + b) % 65536) hlt
      { s with r0 := (a + b) % 65536, r1 := b, pc := 10 }
    have halu : alu 6 (some Ref.r0) b { s with r0 := a, r1 := b, pc := 10 }
        = Res.ok () { s with
            r0 := (a + b) % 65536, r1 := b, pc := 10,
            flags := flagsFor ((a + b) % 65536) s.flags } := by
      simp at hmf
      change alu ALU_ADD _ _ _ = _
      rw [alu_add_eq]
      simp [rmw, bind_run, pure_run, load16, store16, getVM, modifyVM, hsum, hmf]
    rw [decodeDS_0x01] at hg
    simp only [] at hf1 hf2 hg hs
    unfold execute
    rw [bind_run, hf1]
    simp [bind_run, pure_run, hf2, hg, hs, regTable, load16, getVM, halu, ADD_dest_src]
  have e4 : execute h { s with
          r0 := (a + b) % 65536, r1 := b, pc := 10,
          flags := flagsFor ((a + b) % 65536) s.flags }
      = Res.ok none { s with
          r0 := (a + b) % 65536, r1 := b, pc := 11,
          flags := { flagsFor ((a + b) % 65536) s.flags with halt := true } } := by
    simp [execute, bind_run, pure_run, fByte, getVM, modifyVM, rd, m10]
  simp [steps, e1, e2, e3, e4]

/-! ## Register names, scanning of a line and the emission address -/

theorem GetSource_regVal (DSb : Nat) (q : Ref) (s : VM)
    (hq : regTable (decodeDS DSb).srcReg = some q) :
    GetSource DSb s = Res.ok (regVal q s) s := by
  rw [GetSource_reg DSb q s hq]
  rcases regTable_cases hq with rfl | rfl | rfl | rfl | rfl | rfl | rfl <;> rfl

theorem scanWord_word (w rest : List Char) (c : Char) (hw : w ≠ [])
    (hns : ∀ x ∈ w, isspace x = false) (hc : isspace c = true) :
    scanWord (w ++ c :: rest) = some (w, c :: rest) := by
  obtain ⟨x, w1, rfl⟩ := List.exists_cons_of_ne_nil hw
  have hx : isspace x = false := hns x (List.mem_cons_self _ _)
  have hp : ∀ a ∈ x :: w1, (fun y => !isspace y) a = true := by
    intro a ha
    simp [hns a ha]
  have hd : List.dropWhile isspace (x :: w1 ++ c :: rest) = x :: w1 ++ c :: rest := by
    rw [List.cons_append, List.dropWhile_cons_of_neg (by simp [hx])]
  unfold scanWord
  rw [hd]
  simp only [List.cons_append]
  rw [← List.cons_append, List.takeWhile_append_of_pos hp, List.dropWhile_append_of_pos hp,
    List.takeWhile_cons_of_neg (by simp [hc]), List.dropWhile_cons_of_neg (by simp [hc])]
  simp

theorem scanWord_space_word (w rest : List Char) (c : Char) (hw : w ≠ [])
    (hns : ∀ x ∈ w, isspace x = false) (hc : isspace c = true) :
    scanWord (' ' :: (w ++ c :: rest)) = some (w, c :: rest) := by
  have h := scanWord_word w rest c hw hns hc
  unfold scanWord at h ⊢
  rw [List.dropWhile_cons_of_pos (by decide)]
  exact h

theorem sscanfLine_three (m o1 o2 : List Char) (hm : m ≠ [])
    (hms : ∀ x ∈ m, isspace x = false) (hml : m.length < 16)
    (ho1 : o1 ≠ []) (ho1s : ∀ x ∈ o1, isspace x = false ∧ x ≠ ',') (ho1l : o1.length < 16)
    (ho2 : o2 ≠ []) (ho2s : ∀ x ∈ o2, isspace x = false) (ho2l : o2.length < 16) :
    sscanfLine (m ++ ' ' :: (o1 ++ ',' :: ' ' :: (o2 ++ ['\n'])))
      = some { count := 3, mnemonic := some m, operand1 := some o1, operand2 := o2 } := by
  obtain ⟨x, o1t, rfl⟩ := List.exists_cons_of_ne_nil ho1
  have hx := (ho1s x (List.mem_cons_self _ _)).1
  have hp : ∀ a ∈ x :: o1t, (fun y => decide (y ≠ ',')) a = true := by
    intro a ha
    simp [(ho1s a ha).2]
  have h1 := scanWord_word m (x :: o1t ++ ',' :: ' ' :: (o2 ++ ['\n'])) ' ' hm hms (by decide)
  have h2 := scanWord_space_word o2 [] '\n' ho2 ho2s (by decide)
  unfold sscanfLine
  rw [h1]
  simp only []
  rw [List.dropWhile_cons_of_pos (by decide), List.cons_append,
    List.dropWhile_cons_of_neg (by simp [hx]), ← List.cons_append,
    List.takeWhile_append_of_pos hp, List.dropWhile_append_of_pos hp,
    List.takeWhile_cons_of_neg (by simp), List.dropWhile_cons_of_neg (by simp)]
  simp only [List.append_nil, h2]
  have a1 : ¬ (m.length ≥ 16) := by omega
  have a2 : ¬ ((x :: o1t).length ≥ 16) := by omega
  have a3 : ¬ (o2.length ≥ 16) := by omega
  simp [a1, a2, a3]
  simp at ho1l
  omega

theorem isdigit_facts {c : Char} (h : isdigit c = true) :
    isspace c = false ∧ c ≠ ':' ∧ c ≠ '-' ∧ c ≠ '+' ∧ c ≠ '\n' ∧ c ≠ ',' := by
  have key : ∀ k : Char, isdigit k = false → c ≠ k := by
    intro k hk e
    rw [e, hk] at h
    cases h
  refine ⟨?_, key _ (by decide), key _ (by decide), key _ (by decide), key _ (by decide),
    key _ (by decide)⟩
  have h1 := key ' ' (by decide)
  have h2 := key '\t' (by decide)
  have h3 := key '\n' (by decide)
  have h4 := key (Char.ofNat 11) (by decide)
  have h5 := key (Char.ofNat 12) (by decide)
  have h6 := key '\r' (by decide)
  simp [isspace, h1, h2, h3, h4, h5, h6]

theorem atoi_digits (lit : List Char) (h0 : lit ≠ []) (hd : ∀ c ∈ lit, isdigit c = true) :
    atoi lit = ((digitsValue 0 lit : Nat) : Int) := by
  obtain ⟨c, r, rfl⟩ := List.exists_cons_of_ne_nil h0
  obtain ⟨f1, -, f3, f4, -⟩ := isdigit_facts (hd c (List.mem_cons_self _ _))
  unfold atoi
  rw [List.dropWhile_cons_of_neg (by simp [f1])]
  simp [f3, f4]

theorem removeNL_of_no_newline (l : List Char) (h : ∀ c ∈ l, c ≠ '\n') : removeNL l = l := by
  unfold removeNL
  rw [List.takeWhile_eq_self_iff]
  intro x hx
  simp [h x hx]

theorem last_but_one (pre lit : List Char) (h0 : lit ≠ []) :
    (pre ++ (lit ++ ['\n'])).get? ((pre ++ (lit ++ ['\n'])).length - 2)
      = some (lit.getLast h0) := by
  have e : lit = lit.dropLast ++ [lit.getLast h0] := (List.dropLast_append_getLast h0).symm
  generalize lit.getLast h0 = z at e
  generalize lit.dropLast = ini at e
  subst e
  have e2 : pre ++ (ini ++ [z] ++ ['\n']) = (pre ++ ini) ++ [z, '\n'] := by simp
  rw [e2]
  generalize pre ++ ini = X
  have hl : (X ++ [z, '\n']).length - 2 = X.length := by simp
  rw [hl, List.get?_eq_getElem?, List.getElem?_append_right (Nat.le_refl _)]
  simp

theorem assemble_line_imm (M d lit : List Char) (opc i : Nat) (a : Asm)
    (hM0 : M ≠ []) (hMs : ∀ x ∈ M, isspace x = false) (hMl : M.length < 16)
    (hMcap : LowerToCap M = M)
    (hop : get_opcode M = opc) (hsz : get_opcode_size M = 2)
    (hkind : opc = LD_dest_src ∨ (ADD_dest_src ≤ opc ∧ opc ≤ DIV_dest_src))
    (hd0 : d ≠ []) (hds : ∀ x ∈ d, isspace x = false ∧ x ≠ ',') (hdl : d.length < 16)
    (henc : encode_operand (some d) 0 = some (i, 0)) (hi : i < 16)
    (hl0 : lit ≠ []) (hld : ∀ c ∈ lit, isdigit c = true) (hll : lit.length < 16) :
    assemble_line (M ++ ' ' :: (d ++ ',' :: ' ' :: (lit ++ ['\n']))) 2 a
      = Run.ok {
          labels := a.labels,
          current_address := (a.current_address + 4) % 65536,
          output := a.output ++ (fmt02x ((opc + 1 : Nat) : Int) ++ fmt02x ((16 * i : Nat) : Int))
            ++ (fmt02x ((digitsValue 0 lit % 256 : Nat) : Int)
              ++ fmt02x ((digitsValue 0 lit / 256 % 256 : Nat) : Int)) } := by
  obtain ⟨m0, mt, rfl⟩ := List.exists_cons_of_ne_nil hM0
  have hm0 : isspace m0 = false := hMs m0 (List.mem_cons_self _ _)
  have hlits : ∀ x ∈ lit, isspace x = false := fun x hx => (isdigit_facts (hld x hx)).1
  have hscan := sscanfLine_three (m0 :: mt) d lit hM0 hMs hMl hd0 hds hdl hl0 hlits hll
  -- the three tests in front of the scan
  have t1 : ¬ ((m0 :: mt ++ ' ' :: (d ++ ',' :: ' ' :: (lit ++ ['\n']))).length < 2) := by
    simp; omega
  have t2 : ¬ ((m0 :: mt ++ ' ' :: (d ++ ',' :: ' ' :: (lit ++ ['\n']))).get?
      ((m0 :: mt ++ ' ' :: (d ++ ',' :: ' ' :: (lit ++ ['\n']))).length - 2) = some ':') := by
    have e : m0 :: mt ++ ' ' :: (d ++ ',' :: ' ' :: (lit ++ ['\n']))
        = (m0 :: mt ++ ' ' :: (d ++ [',', ' '])) ++ (lit ++ ['\n']) := by simp
    rw [e, last_but_one _ lit hl0]
    intro hc
    exact (isdigit_facts (hld _ (List.getLast_mem hl0))).2.1 (Option.some.inj hc)
  have t3 : ¬ ((m0 :: mt ++ ' ' :: (d ++ ',' :: ' ' :: (lit ++ ['\n']))).head? = some '\n') := by
    intro hc
    have : m0 = '\n' := by simpa using hc
    rw [this] at hm0
    exact absurd hm0 (by decide)
  have t4 : remove_leading_tabs_and_spaces
      (m0 :: mt ++ ' ' :: (d ++ ',' :: ' ' :: (lit ++ ['\n'])))
      = m0 :: mt ++ ' ' :: (d ++ ',' :: ' ' :: (lit ++ ['\n'])) := by
    have n1 : m0 ≠ '\t' := by
      intro e; rw [e] at hm0; exact absurd hm0 (by decide)
    have n2 : m0 ≠ ' ' := by
      intro e; rw [e] at hm0; exact absurd hm0 (by decide)
    unfold remove_leading_tabs_and_spaces
    rw [List.cons_append, List.dropWhile_cons_of_neg (by simp [n1, n2])]
  have r1 : removeNL (m0 :: mt) = m0 :: mt :=
    removeNL_of_no_newline _ (fun c hc e => by
      have := hMs c hc; rw [e] at this; exact absurd this (by decide))
  have r2 : removeNL d = d :=
    removeNL_of_no_newline _ (fun c hc e => by
      have := (hds c hc).1; rw [e] at this; exact absurd this (by decide))
  have r3 : removeNL lit = lit :=
    removeNL_of_no_newline _ (fun c hc => (isdigit_facts (hld c hc)).2.2.2.2.1)
  have hat := atoi_digits lit hl0 hld
  obtain ⟨l0, lt, rfl⟩ := List.exists_cons_of_ne_nil hl0
  have hl0d : isdigit l0 = true := hld l0 (List.mem_cons_self _ _)
  have henc0 : encode_operand none 0 = some (0, 0) := rfl
  have hds16 : ((i <<< 4) ||| 0) % 256 = 16 * i := by
    rw [Nat.shiftLeft_eq]; simp; omega
  have hne : opc ≠ 0xFF := by
    rcases hkind with h | h
    · rw [h]; decide
    · have := h.2; simp only [DIV_dest_src] at this; omega
  unfold assemble_line
  rw [if_neg t1, if_neg t2, if_neg t3, t4, hscan]
  simp only [r1, r2, r3, hMcap, hop, hsz, Option.map_some', if_neg hne]
  have hds16i : ((i <<< 4 : Nat) : Int) % 256 = 16 * (i : Int) := by
    rw [Nat.shiftLeft_eq]; push_cast; omega
  rcases hkind with h | h
  · subst h
    simp [assembleBody, genInsOffs, henc, henc0, hl0d, hat, emit, LD_dest_src,
      LD_dest_imm16, hds16i]
  · have c1 : ¬ (opc = LD_dest_src ∨ opc = LD_dest_imm16) := by
      simp only [LD_dest_src, LD_dest_imm16, ADD_dest_src] at h ⊢; omega
    have c2 : opc ≥ ADD_dest_src ∧ opc ≤ DIV_dest_imm16 := by
      simp only [DIV_dest_src, DIV_dest_imm16, ADD_dest_src] at h ⊢; omega
    have c3 : (opc + 1) % 256 = opc + 1 := by
      simp only [DIV_dest_src] at h; omega
    simp [assembleBody, genInsOffs, henc, henc0, hl0d, hat, emit, c1, c2, c3, hds16i]

theorem immMnemonic_props {M : List Char} (hM : M ∈ immMnemonics) :
    M ≠ [] ∧ (∀ x ∈ M, isspace x = false) ∧ M.length < 16 ∧ LowerToCap M = M ∧
      get_opcode_size M = 2 ∧
      (get_opcode M = LD_dest_src ∨ (ADD_dest_src ≤ get_opcode M ∧ get_opcode M ≤ DIV_dest_src)) := by
  simp only [immMnemonics, List.mem_cons, List.mem_singleton, List.not_mem_nil, or_false] at hM
  rcases hM with rfl | rfl | rfl | rfl | rfl | rfl | rfl | rfl | rfl <;>
    (refine ⟨?_, ?_, ?_, ?_, ?_, ?_⟩ <;> decide)

theorem regName_props {d : List Char} (hd : d ∈ regNames) :
    ∃ i, i < 7 ∧ regNames[i]? = some d ∧ d ≠ [] ∧ (∀ x ∈ d, isspace x = false ∧ x ≠ ',') ∧
      d.length < 16 ∧ ∀ off, encode_operand (some d) off = some (i, off) := by
  simp only [regNames, List.mem_cons, List.mem_singleton, List.not_mem_nil, or_false] at hd
  rcases hd with rfl | rfl | rfl | rfl | rfl | rfl | rfl
  · exact ⟨0, by decide, by decide, by decide, by decide, by decide, fun _ => rfl⟩
  · exact ⟨1, by decide, by decide, by decide, by decide, by decide, fun _ => rfl⟩
  · exact ⟨2, by decide, by decide, by decide, by decide, by decide, fun _ => rfl⟩
  · exact ⟨3, by decide, by decide, by decide, by decide, by decide, fun _ => rfl⟩
  · exact ⟨4, by decide, by decide, by decide, by decide, by decide, fun _ => rfl⟩
  · exact ⟨5, by decide, by decide, by decide, by decide, by decide, fun _ => rfl⟩
  · exact ⟨6, by decide, by decide, by decide, by decide, by decide, fun _ => rfl⟩

theorem genInsOffs_addr (opcode : Nat) (o1 o2 : Option (List Char)) (a1 a2 b2 : Asm)
    (h : a1.current_address = a2.current_address)
    (h2 : genInsOffs opcode o1 o2 2 a2 = Run.ok b2) :
    ∃ b1, genInsOffs opcode o1 o2 1 a1 = Run.ok b1 ∧
      b1.current_address = b2.current_address := by
  unfold genInsOffs at h2 ⊢
  cases e1 : encode_operand o1 0 with
  | none => rw [e1] at h2; cases h2
  | some p =>
    obtain ⟨c1, off1⟩ := p
    rw [e1] at h2
    simp only [] at h2 ⊢
    cases e2 : encode_operand o2 off1 with
    | none => rw [e2] at h2; cases h2
    | some q =>
      obtain ⟨c2, off⟩ := q
      rw [e2] at h2
      simp only [] at h2 ⊢
      by_cases ho : off = 0
      · simp [ho, emit] at h2 ⊢
        rw [← h2]
        exact h
      · simp [ho, emit] at h2 ⊢
        rw [← h2]
        simp [h]

theorem genInsOffs_imm_addr (opcode : Nat) (o1 : Option (List Char)) (cs : List Char)
    (a1 a2 b2 : Asm) (h : a1.current_address = a2.current_address)
    (h2 : (match genInsOffs opcode o1 none 2
            { a2 with current_address := (a2.current_address + 2) % 65536 } with
          | Run.ok x => Run.ok (emit x cs)
          | e => e) = Run.ok b2) :
    ∃ b1, (match genInsOffs opcode o1 none 1
            { a1 with current_address := (a1.current_address + 2) % 65536 } with
          | Run.ok x => Run.ok x
          | e => e) = Run.ok b1 ∧ b1.current_address = b2.current_address := by
  cases hg : genInsOffs opcode o1 none 2
      { a2 with current_address := (a2.current_address + 2) % 65536 } with
  | ok x =>
    rw [hg] at h2
    obtain ⟨b1, hb1, hb2⟩ := genInsOffs_addr opcode o1 none
      { a1 with current_address := (a1.current_address + 2) % 65536 }
      { a2 with current_address := (a2.current_address + 2) % 65536 } x
      (by simp only [h]) hg
    rw [hb1]
    simp only [Run.ok.injEq] at h2
    exact ⟨b1, rfl, by rw [hb2, ← h2]; rfl⟩
  | exit c => rw [hg] at h2; cases h2
  | ub => rw [hg] at h2; cases h2

set_option maxHeartbeats 2000000 in
theorem assembleBody_addr (opcode : Nat) (sc : Scanned) (o1 : Option (List Char))
    (o2 : List Char) (a1 a2 b2 : Asm) (h : a1.current_address = a2.current_address)
    (h2 : assembleBody opcode sc o1 o2 2 a2 = Run.ok b2) :
    ∃ b1, assembleBody opcode sc o1 o2 1 a1 = Run.ok b1 ∧
      b1.current_address = b2.current_address := by
  have p1 : ¬ ((1 : Nat) = 2) := by decide
  unfold assembleBody at h2 ⊢
  simp only [if_neg p1, if_true] at h2 ⊢
  cases o1 with
  | none =>
    simp only [] at h2 ⊢
    split_ifs at h2 ⊢
    all_goals
      first
      | exact genInsOffs_imm_addr _ _ _ _ _ _ h h2
      | exact genInsOffs_addr _ _ _ _ _ _ h h2
      | (cases h2; exact ⟨_, rfl, h⟩)
      | (cases h2; exact ⟨_, rfl, by simp [emitWord, emit, h]⟩)
  | some o =>
    simp only [] at h2 ⊢
    split_ifs at h2 ⊢
    all_goals
      first
      | exact genInsOffs_imm_addr _ _ _ _ _ _ h h2
      | exact genInsOffs_addr _ _ _ _ _ _ h h2
      | (cases h2; exact ⟨_, rfl, h⟩)
      | (cases h2; exact ⟨_, rfl, by simp [emitWord, emit, h]⟩)
      | (split at h2 <;>
          first
          | (cases h2; exact ⟨_, rfl, by simp [emitWord, emit, h]⟩)
          | cases h2)

theorem assemble_line_addr (line : List Char) (a1 a2 b2 : Asm)
    (haddr : a1.current_address = a2.current_address)
    (hroom : line.get? (line.length - 2) = some ':' →
      line.length - 2 < 32 ∧ a1.labels.length < MAX_LABELS)
    (h2 : assemble_line line 2 a2 = Run.ok b2) :
    ∃ b1, assemble_line line 1 a1 = Run.ok b1 ∧
      b1.current_address = b2.current_address := by
  unfold assemble_line at h2 ⊢
  by_cases c1 : line.length < 2
  · rw [if_pos c1] at h2; cases h2
  rw [if_neg c1] at h2 ⊢
  by_cases c2 : line.get? (line.length - 2) = some ':'
  · rw [if_pos c2] at h2 ⊢
    obtain ⟨r1, r2⟩ := hroom c2
    have hl : (List.take (line.length - 2) line).length = line.length - 2 := by
      simp
    have hn : ¬ ((List.take (line.length - 2) line).length ≥ 32 ∨ a1.labels.length ≥ MAX_LABELS) := by
      rw [hl]; omega
    simp only [if_true, store_label, if_neg hn]
    simp at h2
    exact ⟨_, rfl, by rw [← h2]; exact haddr⟩
  rw [if_neg c2] at h2 ⊢
  by_cases c3 : line.head? = some '\n'
  · rw [if_pos c3] at h2 ⊢
    cases h2
    exact ⟨_, rfl, haddr⟩
  rw [if_neg c3] at h2 ⊢
  cases hs : sscanfLine (remove_leading_tabs_and_spaces line) with
  | none => rw [hs] at h2; cases h2
  | some sc =>
    rw [hs] at h2
    simp only [] at h2 ⊢
    cases hm : sc.mnemonic with
    | none => rw [hm] at h2; cases h2
    | some m =>
      rw [hm] at h2
      simp only [] at h2 ⊢
      by_cases c4 : get_opcode (LowerToCap (removeNL m)) = 0xFF
      · rw [if_pos c4] at h2 ⊢
        cases h2
        exact ⟨_, rfl, haddr⟩
      rw [if_neg c4] at h2 ⊢
      cases hb : assembleBody (get_opcode (LowerToCap (removeNL m))) sc
          (Option.map removeNL sc.operand1) (removeNL sc.operand2) 2 a2 with
      | ok x =>
        rw [hb] at h2
        obtain ⟨y, hy1, hy2⟩ := assembleBody_addr _ _ _ _ a1 a2 x haddr hb
        rw [hy1]
        simp only [Run.ok.injEq] at h2
        exact ⟨_, rfl, by rw [← h2]; simp only [hy2]⟩
      | exit c => rw [hb] at h2; cases h2
      | ub => rw [hb] at h2; cases h2

theorem assemble_line_room (line : List Char) (a1 b1 : Asm)
    (h1 : assemble_line line 1 a1 = Run.ok b1)
    (hc : line.get? (line.length - 2) = some ':') :
    line.length - 2 < 32 ∧ a1.labels.length < MAX_LABELS := by
  unfold assemble_line at h1
  by_cases c1 : line.length < 2
  · rw [if_pos c1] at h1; cases h1
  rw [if_neg c1, if_pos hc] at h1
  simp only [if_true, store_label] at h1
  have hl : (List.take (line.length - 2) line).length = line.length - 2 := by simp
  rw [hl] at h1
  by_cases c : line.length - 2 ≥ 32 ∨ a1.labels.length ≥ MAX_LABELS
  · rw [if_pos c] at h1; cases h1
  · omega

theorem runPass_addr (lines : List (List Char)) :
    ∀ a1 a2 b1 b2 : Asm, a1.current_address = a2.current_address →
      runPass 1 lines a1 = Run.ok b1 → runPass 2 lines a2 = Run.ok b2 →
      b1.current_address = b2.current_address := by
  induction lines with
  | nil =>
    intro a1 a2 b1 b2 h h1 h2
    simp only [runPass, Run.ok.injEq] at h1 h2
    rw [← h1, ← h2]
    exact h
  | cons l ls ih =>
    intro a1 a2 b1 b2 h h1 h2
    simp only [runPass] at h1 h2
    cases e1 : assemble_line l 1 a1 with
    | ok c1 =>
      cases e2 : assemble_line l 2 a2 with
      | ok c2 =>
        rw [e1] at h1
        rw [e2] at h2
        obtain ⟨c, hc1, hc2⟩ := assemble_line_addr l a1 a2 c2 h
          (assemble_line_room l a1 c1 e1) e2
        rw [e1] at hc1
        cases hc1
        exact ih c1 c2 b1 b2 hc2 h1 h2
      | exit c => rw [e2] at h2; cases h2
      | ub => rw [e2] at h2; cases h2
    | exit c => rw [e1] at h1; cases h1
    | ub => rw [e1] at h1; cases h1

/-! ## Each pointer bound through one step -/

theorem Frame.keepsP {α : Type} {x : M α} {sel : Bool} (h : Frame x) : KeepsP sel x := by
  intro s a s1 hi hr
  obtain ⟨h1, h2, h3, h4⟩ := h s a s1 hr
  obtain ⟨i1, i2, i3⟩ := hi
  refine ⟨by omega, by omega, ?_⟩
  cases sel
  · simp only [ptr] at i3 ⊢
    simp at i3 ⊢
    omega
  · simp only [ptr] at i3 ⊢
    simp at i3 ⊢
    omega

theorem KeepsP_elim {α : Type} {sel : Bool} {x : M α} {s s1 : VM} {a : α} (h : KeepsP sel x)
    (hi : InvP sel s) (hr : x s = Res.ok a s1) : InvP sel s1 := h s a s1 hi hr

theorem KeepsP_bind {α β : Type} {sel : Bool} {x : M α} {f : α → M β} (hx : KeepsP sel x)
    (hf : ∀ a, KeepsP sel (f a)) : KeepsP sel (x >>= f) := by
  intro s b s2 hi hr
  obtain ⟨a, s1, h1, h2⟩ := bind_inv hr
  exact hf a s1 b s2 (hx s a s1 hi h1) h2

theorem KeepsP_ite {α : Type} {sel : Bool} {c : Prop} [Decidable c] {x y : M α}
    (hx : KeepsP sel x) (hy : KeepsP sel y) : KeepsP sel (if c then x else y) := by
  split
  · exact hx
  · exact hy

theorem KeepsP_modifyVM {sel : Bool} (f : VM → VM)
    (hf : ∀ t, (f t).sp = t.sp ∧ (f t).bp = t.bp ∧ (f t).memSize = t.memSize
      ∧ (f t).memory.length = t.memory.length) : KeepsP sel (modifyVM f) :=
  (Frame_modifyVM f hf).keepsP

theorem KeepsBp_modifyVM (f : VM → VM)
    (hf : ∀ t, (f t).bp = t.bp ∧ (f t).memSize = t.memSize
      ∧ (f t).memory.length = t.memory.length) : KeepsP false (modifyVM f) := by
  intro s a s1 hi hr
  cases hr
  obtain ⟨h1, h2, h3⟩ := hf s
  obtain ⟨i1, i2, i3⟩ := hi
  have i4 : s.bp ≤ s.memSize := i3
  exact ⟨by omega, by omega, show (f s).bp ≤ (f s).memSize by omega⟩

theorem KeepsSp_modifyVM (f : VM → VM)
    (hf : ∀ t, (f t).sp = t.sp ∧ (f t).memSize = t.memSize
      ∧ (f t).memory.length = t.memory.length) : KeepsP true (modifyVM f) := by
  intro s a s1 hi hr
  cases hr
  obtain ⟨h1, h2, h3⟩ := hf s
  obtain ⟨i1, i2, i3⟩ := hi
  have i4 : s.sp ≤ s.memSize := i3
  exact ⟨by omega, by omega, show (f s).sp ≤ (f s).memSize by omega⟩

theorem KeepsP_store16 (sel : Bool) (d : Ref) (v : Nat) (h : some d ≠ some (ptrRef sel)) :
    KeepsP sel (store16 d v) := by
  cases sel <;> cases d <;> unfold store16 <;>
    first
    | with_reducible exact KeepsP_modifyVM _ (fun _ => ⟨rfl, rfl, rfl, rfl⟩)
    | with_reducible exact KeepsBp_modifyVM _ (fun _ => ⟨rfl, rfl, rfl⟩)
    | with_reducible exact KeepsSp_modifyVM _ (fun _ => ⟨rfl, rfl, rfl⟩)
    | with_reducible exact KeepsP_bind (Frame_wr _ _).keepsP (fun _ => (Frame_wr _ _).keepsP)
    | exact absurd rfl h

theorem KeepsP_alu (sel : Bool) (op : Nat) (dest : Option Ref) (v : Nat)
    (h : op = ALU_CMP ∨ dest ≠ some (ptrRef sel)) : KeepsP sel (alu op dest v) := by
  cases dest with
  | none =>
    unfold alu
    exact (Frame_bind (Frame_vm_exception _ _) (fun _ => Frame_pure _)).keepsP
  | some d =>
    rcases h with h | h
    · subst h
      have e : alu ALU_CMP (some d) v
          = (load16 d >>= fun w => modifyFlags (u16 (i16 ((w : Int) - (v : Int))))) := rfl
      rw [e]
      exact (Frame_bind (Frame_load16 _) (fun _ => Frame_modifyFlags _)).keepsP
    · unfold alu
      simp only []
      repeat' first
        | with_reducible exact (Frame_pure _).keepsP
        | with_reducible exact (Frame_vm_exception _ _).keepsP
        | with_reducible exact (Frame_load16 _).keepsP
        | with_reducible exact KeepsP_store16 _ _ _ h
        | with_reducible exact (Frame_modifyFlags _).keepsP
        | with_reducible refine KeepsP_bind ?_ (fun _ => ?_)
        | with_reducible refine KeepsP_ite ?_ ?_

theorem KeepsBp_push16 (v : Nat) : KeepsP false (push16 v) := by
  unfold push16
  repeat' first
    | with_reducible exact (Frame_pure _).keepsP
    | with_reducible exact Frame_getVM.keepsP
    | with_reducible exact (Frame_vm_exception _ _).keepsP
    | with_reducible exact (Frame_wr _ _).keepsP
    | with_reducible exact KeepsBp_modifyVM _ (fun _ => ⟨rfl, rfl, rfl⟩)
    | with_reducible refine KeepsP_bind ?_ (fun _ => ?_)
    | with_reducible refine KeepsP_ite ?_ ?_

theorem KeepsBp_push8 (v : Nat) : KeepsP false (push8 v) := by
  unfold push8
  repeat' first
    | with_reducible exact (Frame_pure _).keepsP
    | with_reducible exact Frame_getVM.keepsP
    | with_reducible exact (Frame_vm_exception _ _).keepsP
    | with_reducible exact (Frame_wr _ _).keepsP
    | with_reducible exact KeepsBp_modifyVM _ (fun _ => ⟨rfl, rfl, rfl⟩)
    | with_reducible refine KeepsP_bind ?_ (fun _ => ?_)
    | with_reducible refine KeepsP_ite ?_ ?_

theorem KeepsBp_pop8 : KeepsP false pop8 := by
  unfold pop8
  repeat' first
    | with_reducible exact (Frame_pure _).keepsP
    | with_reducible exact Frame_getVM.keepsP
    | with_reducible exact (Frame_vm_exception _ _).keepsP
    | with_reducible exact (Frame_rd _).keepsP
    | with_reducible exact KeepsBp_modifyVM _ (fun _ => ⟨rfl, rfl, rfl⟩)
    | with_reducible refine KeepsP_bind ?_ (fun _ => ?_)
    | with_reducible refine KeepsP_ite ?_ ?_

theorem KeepsBp_pop16 : KeepsP false pop16 := by
  unfold pop16
  repeat' first
    | with_reducible exact (Frame_pure _).keepsP
    | with_reducible exact Frame_getVM.keepsP
    | with_reducible exact (Frame_vm_exception _ _).keepsP
    | with_reducible exact (Frame_rd _).keepsP
    | with_reducible exact KeepsBp_modifyVM _ (fun _ => ⟨rfl, rfl, rfl⟩)
    | with_reducible refine KeepsP_bind ?_ (fun _ => ?_)
    | with_reducible refine KeepsP_ite ?_ ?_

theorem KeepsSp_push16 (v : Nat) : KeepsP true (push16 v) := by
  intro s a s1 hi hr
  obtain ⟨i1, i2, i3⟩ := hi
  have i3 : s.sp ≤ s.memSize := i3
  by_cases h2 : 2 ≤ s.sp
  · rw [push16_run s v i1 i2 h2 i3] at hr
    cases hr
    exact ⟨by simp [i1], i2, show s.sp - 2 ≤ s.memSize by omega⟩
  · exfalso
    have hnle : ¬ (s.memSize < s.sp) := by omega
    have hsp : s.sp = 0 ∨ s.sp = 1 := by omega
    have hbig : ¬ (65535 < s.memory.length) := by omega
    have a0 : u16 (-1) = 65535 := by unfold u16; omega
    have b0 : u16 0 = 0 := by unfold u16; omega
    rcases hsp with h0 | h1
    · have c0 : u16 (((0 : Nat) : Int) - 1) = 65535 := by unfold u16; omega
      have hg : ¬ (0 > s.memSize) := by omega
      simp only [push16, bind_run, getVM, modifyVM, ite_run, wr, h0, c0, hg, if_false,
        hbig] at hr
      cases hr
    · have hl : 0 < s.memory.length := by omega
      have hms0 : ¬ (s.memSize < 1) := by omega
      simp [push16, bind_run, pure_run, ite_run, getVM, modifyVM, wr, h1, a0, b0, hl,
        hms0] at hr
      rw [if_neg hbig] at hr
      cases hr

theorem KeepsSp_push8 (v : Nat) : KeepsP true (push8 v) := by
  intro s a s1 hi hr
  obtain ⟨i1, i2, i3⟩ := hi
  have i3 : s.sp ≤ s.memSize := i3
  by_cases h1 : 1 ≤ s.sp
  · rw [push8_run s v i1 i2 h1 i3] at hr
    cases hr
    exact ⟨by simp [i1], i2, show s.sp - 1 ≤ s.memSize by omega⟩
  · exfalso
    have h0 : s.sp = 0 := by omega
    simp [push8, bind_run, pure_run, ite_run, getVM, h0, vm_exception, vm_exit] at hr

theorem KeepsSp_pop8 : KeepsP true pop8 := by
  intro s a s1 hi hr
  obtain ⟨i1, i2, i3⟩ := hi
  have i3 : s.sp ≤ s.memSize := i3
  cases hm : s.memory[s.sp]? with
  | none =>
    exfalso
    have hnle : ¬ (s.memSize < s.sp) := by omega
    simp [pop8, bind_run, pure_run, ite_run, getVM, modifyVM, rd, hnle, hm] at hr
  | some b =>
    have hl := lt_length_of_getElem_some hm
    rw [pop8_run s b hm i3 (by omega)] at hr
    cases hr
    exact ⟨i1, i2, show s.sp + 1 ≤ s.memSize by omega⟩

theorem KeepsSp_pop16 : KeepsP true pop16 := by
  intro s a s1 hi hr
  obtain ⟨i1, i2, i3⟩ := hi
  have i3 : s.sp ≤ s.memSize := i3
  have hnle : ¬ (s.memSize < s.sp) := by omega
  cases hm : s.memory[s.sp]? with
  | none =>
    exfalso
    simp [pop16, bind_run, pure_run, ite_run, getVM, modifyVM, rd, hnle, hm] at hr
  | some b =>
    have hl := lt_length_of_getElem_some hm
    have e1 : (s.sp + 1) % 65536 = s.sp + 1 := by omega
    cases hm2 : s.memory[s.sp + 1]? with
    | none =>
      exfalso
      simp [pop16, bind_run, pure_run, ite_run, getVM, modifyVM, rd, hnle, hm, e1, hm2] at hr
    | some c =>
      have hl2 := lt_length_of_getElem_some hm2
      have e2 : (s.sp + 1 + 1) % 65536 = s.sp + 2 := by omega
      simp [pop16, bind_run, pure_run, ite_run, getVM, modifyVM, rd, hnle, hm, e1, hm2, e2] at hr
      obtain ⟨-, rfl⟩ := hr
      exact ⟨i1, i2, show s.sp + 2 ≤ s.memSize by omega⟩

theorem KeepsP_push16 (sel : Bool) (v : Nat) : KeepsP sel (push16 v) := by
  cases sel
  · exact KeepsBp_push16 v
  · exact KeepsSp_push16 v

theorem KeepsP_push8 (sel : Bool) (v : Nat) : KeepsP sel (push8 v) := by
  cases sel
  · exact KeepsBp_push8 v
  · exact KeepsSp_push8 v

theorem KeepsP_pop8 (sel : Bool) : KeepsP sel pop8 := by
  cases sel
  · exact KeepsBp_pop8
  · exact KeepsSp_pop8

theorem KeepsP_pop16 (sel : Bool) : KeepsP sel pop16 := by
  cases sel
  · exact KeepsBp_pop16
  · exact KeepsSp_pop16

theorem KeepsP_vm_restart (sel : Bool) (h : Host) : KeepsP sel (vm_restart h) := by
  intro s a s1 hi hr
  obtain ⟨i1, i2, i3⟩ := hi
  by_cases hm : s.memSize = DEFAULT_MEMORY_SIZE
  · simp [vm_restart, bind_run, pure_run, ite_run, getVM, modifyVM, hm] at hr
    obtain ⟨-, rfl⟩ := hr
    exact ⟨by simpa [hm] using i1, by simp [DEFAULT_MEMORY_SIZE], by cases sel <;> simp [ptr, hm]⟩
  · by_cases hf : h.allocFails DEFAULT_MEMORY_SIZE = true
    · simp [vm_restart, bind_run, pure_run, ite_run, getVM, modifyVM, hm, hf, vm_exit] at hr
    · simp [vm_restart, bind_run, pure_run, ite_run, getVM, modifyVM, hm, hf] at hr
      obtain ⟨-, rfl⟩ := hr
      exact ⟨by simp, by simp [DEFAULT_MEMORY_SIZE], by cases sel <;> simp [ptr]⟩

theorem KeepsP_vm_malloc (sel : Bool) (h : Host) (n : Nat) : KeepsP sel (vm_malloc h n) := by
  intro s a s1 hi hr
  obtain ⟨i1, i2, i3⟩ := hi
  by_cases hbig : 65535 < s.memSize + n
  · simp [vm_malloc, bind_run, pure_run, ite_run, getVM, modifyVM, hbig, vm_exception] at hr
    obtain ⟨-, rfl⟩ := hr
    exact ⟨i1, i2, i3⟩
  · have e : (s.memSize + n) % 65536 = s.memSize + n := by omega
    by_cases hf : h.allocFails (s.memSize + n) = true
    · simp [vm_malloc, bind_run, pure_run, ite_run, getVM, modifyVM, hbig, e, hf, vm_exception,
        vm_exit] at hr
    · simp [vm_malloc, bind_run, pure_run, ite_run, getVM, modifyVM, hbig, e, hf] at hr
      obtain ⟨-, rfl⟩ := hr
      refine ⟨by simp [length_reallocBuf], by simp; omega, ?_⟩
      cases sel
      · simp only [ptr] at i3 ⊢
        simp at i3 ⊢
        omega
      · simp only [ptr] at i3 ⊢
        simp at i3 ⊢
        omega

theorem KeepsSp_vm_free (h : Host) (n : Nat) : KeepsP true (vm_free h n) := by
  intro s a s1 hi hr
  obtain ⟨i1, i2, i3⟩ := hi
  by_cases hbig : n ≥ s.memSize
  · rw [vm_free_reject h s n hbig] at hr
    cases hr
    exact ⟨i1, i2, i3⟩
  · have e : u16 ((s.memSize : Int) - (n : Int)) = s.memSize - n := by unfold u16; omega
    cases hf : h.allocFails (s.memSize - n) with
    | true =>
      exfalso
      simp [vm_free, bind_run, pure_run, ite_run, getVM, modifyVM, hbig, e, hf, vm_exception,
        vm_exit] at hr
    | false =>
      rw [vm_free_grant h s n i2 (by omega) hf] at hr
      cases hr
      exact ⟨by simp [length_reallocBuf], show s.memSize - n < 65536 by omega,
        show min s.sp (s.memSize - n) ≤ s.memSize - n by omega⟩

theorem KeepsP_hypervisorCall (sel : Bool) (h : Host) (operation operand : Nat)
    (hne : sel = false → operation ≠ 0x06) :
    KeepsP sel (hypervisorCall h operation operand) := by
  unfold hypervisorCall
  split_ifs with h0 h1 h2 h5 h6
  · intro s a s1 _ hr
    cases hr
  · exact KeepsP_bind (KeepsP_vm_restart sel h) (fun _ => (Frame_pure _).keepsP)
  · refine KeepsP_bind (KeepsP_modifyVM _ ?_) (fun _ => (Frame_pure _).keepsP)
    exact fun _ => ⟨rfl, rfl, rfl, rfl⟩
  · exact KeepsP_vm_malloc sel h operand
  · cases sel
    · exact absurd h6 (hne rfl)
    · exact KeepsSp_vm_free h operand
  · exact (Frame_pure _).keepsP

theorem GetDestination_postP (sel : Bool) (DSb : Nat)
    (hf : (decodeDS DSb).destReg ≠ ptrField sel) (s : VM) (dest : Option Ref) (s1 : VM)
    (hr : GetDestination DSb s = Res.ok dest s1) : dest ≠ some (ptrRef sel) := by
  by_cases h7 : 7 ≤ (decodeDS DSb).destReg
  · have h5 : (decodeDS DSb).destReg ≠ 5 := by omega
    have h6 : (decodeDS DSb).destReg ≠ 6 := by omega
    have hb := GetDestination_post DSb h5 h6 s dest s1 hr
    cases sel
    · exact hb.2
    · exact hb.1
  · rw [GetDestination_reg DSb s (by omega)] at hr
    cases hr
    cases sel
    · have h5 : (decodeDS DSb).destReg ≠ 5 := hf
      unfold regTable
      split_ifs <;> simp_all [ptrRef]
    · have h6 : (decodeDS DSb).destReg ≠ 6 := hf
      unfold regTable
      split_ifs <;> simp_all [ptrRef]

theorem dest_branchP {α : Type} (sel : Bool) (c : Prop) (K : Nat → Option Ref → M α)
    (hK : ∀ DSb dest, (c → dest ≠ some (ptrRef sel)) → KeepsP sel (K DSb dest))
    (t : VM)
    (hd : c → ∀ d, t.memory[t.pc]? = some d → (decodeDS d).destReg ≠ ptrField sel)
    (hi : InvP sel t) (r : α) (s1 : VM)
    (hr : (fByte >>= fun DSb => GetDestination DSb >>= fun dest => K DSb dest) t = Res.ok r s1) :
    InvP sel s1 := by
  obtain ⟨DSb, t1, h1, h2⟩ := bind_inv hr
  obtain ⟨dest, t2, h3, h4⟩ := bind_inv h2
  obtain ⟨e1, -⟩ := fByte_inv h1
  have p : c → dest ≠ some (ptrRef sel) :=
    fun hc => GetDestination_postP sel DSb (hd hc DSb e1) t1 dest t2 h3
  have i1 := Frame_fByte.keepsP t DSb t1 hi h1
  have i2 := (Frame_GetDestination DSb).keepsP t1 dest t2 i1 h3
  exact hK DSb dest p t2 r s1 i2 h4

theorem KeepsP_aluGroup (sel : Bool) (op DSb : Nat) (dest : Option Ref)
    (hgrp : op = ADD_dest_src ∨ op = ADD_dest_imm16 ∨ op = SUB_dest_src
      ∨ op = SUB_dest_imm16 ∨ op = AND_dest_src ∨ op = AND_dest_imm16
      ∨ op = OR_dest_src ∨ op = OR_dest_imm16 ∨ op = XOR_dest_src
      ∨ op = XOR_dest_imm16 ∨ op = CMP_dest_src ∨ op = CMP_dest_imm16
      ∨ op = MUL_dest_src ∨ op = MUL_dest_imm16 ∨ op = DIV_dest_src
      ∨ op = DIV_dest_imm16)
    (hp : writesDest op → dest ≠ some (ptrRef sel)) :
    KeepsP sel (if op % 2 = 0 then
        (GetSource DSb >>= fun v => alu op dest v >>= fun _ => pure (none : Option Int))
      else (fWord >>= fun v => alu (op - 1) dest v >>= fun _ => pure (none : Option Int))) := by
  have key : (op % 2 = 0 → op = ALU_CMP ∨ dest ≠ some (ptrRef sel)) ∧
      (¬ op % 2 = 0 → op - 1 = ALU_CMP ∨ dest ≠ some (ptrRef sel)) := by
    by_cases hcmp : op = CMP_dest_src ∨ op = CMP_dest_imm16
    · simp only [CMP_dest_src, CMP_dest_imm16, ALU_CMP] at hcmp ⊢
      exact ⟨fun hm => Or.inl (by omega), fun hm => Or.inl (by omega)⟩
    · have hw : writesDest op := by
        simp only [writesDest, hasDest, LD_dest_src, LD_dest_imm16, POP_dest, ADD_dest_src,
          ADD_dest_imm16, SUB_dest_src, SUB_dest_imm16, AND_dest_src, AND_dest_imm16,
          OR_dest_src, OR_dest_imm16, XOR_dest_src, XOR_dest_imm16, CMP_dest_src,
          CMP_dest_imm16, MUL_dest_src, MUL_dest_imm16, DIV_dest_src, DIV_dest_imm16, NOT_dest,
          INC_dest, DEC_dest, IN_dest, LEA_dest_bpoff] at hgrp hcmp ⊢
        omega
      exact ⟨fun _ => Or.inr (hp hw), fun _ => Or.inr (hp hw)⟩
  split
  · next hm =>
    exact KeepsP_bind (Frame_GetSource _).keepsP (fun v =>
      KeepsP_bind (KeepsP_alu sel op dest v (key.1 hm)) (fun _ => (Frame_pure _).keepsP))
  · next hm =>
    exact KeepsP_bind Frame_fWord.keepsP (fun v =>
      KeepsP_bind (KeepsP_alu sel (op - 1) dest v (key.2 hm)) (fun _ => (Frame_pure _).keepsP))

set_option maxHeartbeats 1600000 in
theorem step_boundsP (sel : Bool) (h : Host) (s s1 : VM) (op : Nat) (r : Option Int)
    (hi : InvP sel s) (hop : s.memory[s.pc]? = some op)
    (hfree : sel = false → op ≠ VMFREE)
    (hdst : writesDest op → ∀ d, s.memory[s.pc + 1]? = some d →
      (decodeDS d).destReg ≠ ptrField sel)
    (hext : ∀ f, h.ext op = some f → KeepsP sel f)
    (hr : execute h s = Res.ok r s1) : InvP sel s1 := by
  unfold execute at hr
  obtain ⟨op1, t, h1, h2⟩ := bind_inv hr
  obtain ⟨e1, et⟩ := fByte_inv h1
  rw [hop] at e1
  cases e1
  have hpc : s.pc < s.memory.length := lt_length_of_getElem_some hop
  have hit : InvP sel t := Frame_fByte.keepsP s op t hi h1
  have hd : writesDest op → ∀ d, t.memory[t.pc]? = some d →
      (decodeDS d).destReg ≠ ptrField sel := by
    intro hh d hm
    obtain ⟨i1, i2, -⟩ := hi
    have e : (s.pc + 1) % 65536 = s.pc + 1 := by omega
    have em : t.memory = s.memory := by rw [et]
    have ep : t.pc = s.pc + 1 := by rw [et]; exact e
    rw [em, ep] at hm
    exact hdst hh d hm
  clear hr h1 hdst hop et hpc hi
  revert h2
  repeat' with_reducible refine ite_elim (fun hc h2 => ?_) (fun hc => ?_)
  all_goals
    first
    | (refine KeepsP_elim ?_ hit h2
       repeat' first
         | with_reducible exact (Frame_pure _).keepsP
         | with_reducible exact Frame_getVM.keepsP
         | with_reducible exact Frame_fByte.keepsP
         | with_reducible exact Frame_fWord.keepsP
         | with_reducible exact (Frame_GetSource _).keepsP
         | with_reducible exact (Frame_handleSET_r0 _).keepsP
         | with_reducible exact KeepsP_push16 _ _
         | with_reducible exact KeepsP_pop16 _
         | with_reducible exact KeepsP_push8 _ _
         | with_reducible exact KeepsP_pop8 _
         | with_reducible exact KeepsP_hypervisorCall _ h _ _ (fun _ => by decide)
         | with_reducible exact KeepsP_hypervisorCall _ h _ _ (fun hs => absurd hc (hfree hs))
         | with_reducible exact KeepsP_modifyVM _ (fun _ => ⟨rfl, rfl, rfl, rfl⟩)
         | with_reducible refine KeepsP_bind ?_ (fun _ => ?_)
         | with_reducible refine KeepsP_ite ?_ ?_
       done)
    | exact dest_branchP sel (writesDest op) _
        (fun DSb dest hp => KeepsP_aluGroup sel op DSb dest hc hp) t hd hit r s1 h2
    | (refine dest_branchP sel True _ ?_ t (fun _ => hd ?_) hit r s1 h2
       · intro DSb dest p0
         have p := p0 trivial
         cases dest <;>
         repeat' first
           | with_reducible exact (Frame_pure _).keepsP
           | with_reducible exact Frame_getVM.keepsP
           | with_reducible exact Frame_fByte.keepsP
           | with_reducible exact Frame_fWord.keepsP
           | with_reducible exact Frame_getchar.keepsP
           | with_reducible exact (Frame_GetSource _).keepsP
           | with_reducible exact (Frame_vm_exception _ _).keepsP
           | with_reducible exact KeepsP_store16 _ _ _ p
           | with_reducible exact KeepsP_alu _ _ _ _ (Or.inr p)
           | with_reducible exact KeepsP_pop16 _
           | with_reducible refine KeepsP_bind ?_ (fun _ => ?_)
       · simp only [writesDest, hasDest, LD_dest_src, LD_dest_imm16, POP_dest, ADD_dest_src,
           ADD_dest_imm16, SUB_dest_src, SUB_dest_imm16, AND_dest_src, AND_dest_imm16,
           OR_dest_src, OR_dest_imm16, XOR_dest_src, XOR_dest_imm16, CMP_dest_src,
           CMP_dest_imm16, MUL_dest_src, MUL_dest_imm16, DIV_dest_src, DIV_dest_imm16, NOT_dest,
           INC_dest, DEC_dest, IN_dest, LEA_dest_bpoff] at hc ⊢
         omega)
    | skip
  intro h2
  cases he : h.ext op with
  | none =>
    rw [he] at h2
    exact KeepsP_elim (KeepsP_bind (Frame_vm_exception _ _).keepsP
      (fun _ => (Frame_pure _).keepsP)) hit h2
  | some f =>
    rw [he] at h2
    exact KeepsP_elim (KeepsP_bind (hext f he) (fun _ => (Frame_pure _).keepsP)) hit h2

/-! ## Stack room of a returning step -/

theorem regTable_lt7 (k : Nat) (h : k < 7) : ∃ p, regTable k = some p := by
  unfold regTable
  split_ifs
  all_goals first | exact ⟨_, rfl⟩ | (exfalso; omega)

theorem pop16_room (s : VM) (a : Nat) (s1 : VM) (hlen : s.memory.length = s.memSize)
    (hms : s.memSize < 65536) (hr : pop16 s = Res.ok a s1) : s.sp + 2 ≤ s.memSize := by
  by_cases hg : s.memSize < s.sp
  · exfalso
    simp [pop16, bind_run, pure_run, ite_run, getVM, hg, vm_exception, vm_exit] at hr
  · cases hm : s.memory[s.sp]? with
    | none =>
      exfalso
      simp [pop16, bind_run, pure_run, ite_run, getVM, modifyVM, rd, hg, hm] at hr
    | some b =>
      have hl := lt_length_of_getElem_some hm
      have e1 : (s.sp + 1) % 65536 = s.sp + 1 := by omega
      cases hm2 : s.memory[s.sp + 1]? with
      | none =>
        exfalso
        simp [pop16, bind_run, pure_run, ite_run, getVM, modifyVM, rd, hg, hm, e1, hm2] at hr
      | some c =>
        have hl2 := lt_length_of_getElem_some hm2
        omega

theorem pop8_room (s : VM) (a : Nat) (s1 : VM) (hlen : s.memory.length = s.memSize)
    (hr : pop8 s = Res.ok a s1) : s.sp + 1 ≤ s.memSize := by
  by_cases hg : s.memSize < s.sp
  · exfalso
    simp [pop8, bind_run, pure_run, ite_run, getVM, hg, vm_exception, vm_exit] at hr
  · cases hm : s.memory[s.sp]? with
    | none =>
      exfalso
      simp [pop8, bind_run, pure_run, ite_run, getVM, modifyVM, rd, hg, hm] at hr
    | some b =>
      have hl := lt_length_of_getElem_some hm
      omega

theorem push16_room (s : VM) (v : Nat) (a : Unit) (s1 : VM)
    (hlen : s.memory.length = s.memSize) (hms : s.memSize < 65536)
    (hr : push16 v s = Res.ok a s1) : 2 ≤ s.sp ∧ s.sp ≤ s.memSize := by
  by_cases hg : s.memSize < s.sp
  · exfalso
    simp [push16, bind_run, pure_run, ite_run, getVM, hg, vm_exception, vm_exit] at hr
  · refine ⟨?_, by omega⟩
    by_contra h2
    have hsp : s.sp = 0 ∨ s.sp = 1 := by omega
    have hbig : ¬ (65535 < s.memory.length) := by omega
    have a0 : u16 (-1) = 65535 := by unfold u16; omega
    have b0 : u16 0 = 0 := by unfold u16; omega
    rcases hsp with h0 | h1
    · have c0 : u16 (((0 : Nat) : Int) - 1) = 65535 := by unfold u16; omega
      have hg0 : ¬ (0 > s.memSize) := by omega
      simp only [push16, bind_run, getVM, modifyVM, ite_run, wr, h0, c0, hg0, if_false,
        hbig] at hr
      cases hr
    · have hl : 0 < s.memory.length := by omega
      have hms0 : ¬ (s.memSize < 1) := by omega
      simp [push16, bind_run, pure_run, ite_run, getVM, modifyVM, wr, h1, a0, b0, hl,
        hms0] at hr
      rw [if_neg hbig] at hr
      cases hr

theorem push8_room (s : VM) (v : Nat) (a : Unit) (s1 : VM)
    (hlen : s.memory.length = s.memSize) (hsp : s.sp < 65536)
    (hr : push8 v s = Res.ok a s1) : 1 ≤ s.sp ∧ s.sp ≤ s.memSize := by
  by_cases h0 : s.sp = 0
  · exfalso
    simp [push8, bind_run, pure_run, ite_run, getVM, h0, vm_exception, vm_exit] at hr
  · refine ⟨by omega, ?_⟩
    by_contra hg
    have a1 : u16 ((s.sp : Int) - 1) = s.sp - 1 := by unfold u16; omega
    have l1 : ¬ (s.sp - 1 < s.memory.length) := by omega
    simp [push8, bind_run, pure_run, ite_run, getVM, modifyVM, wr, a1, l1, h0] at hr


set_option maxHeartbeats 1600000 in
theorem step_stackRoom (h : Host) (s s1 : VM) (op : Nat) (r : Option Int)
    (hwf : s.wf) (hop : s.memory[s.pc]? = some op)
    (hr : execute h s = Res.ok r s1) : stackRoom op s := by
  unfold execute at hr
  obtain ⟨op1, t, h1, h2⟩ := bind_inv hr
  obtain ⟨e1, et⟩ := fByte_inv h1
  rw [hop] at e1
  cases e1
  have hlen : s.memory.length = s.memSize := hwf.1
  have hms : s.memSize < 65536 := hwf.2.2.1
  have hsp : s.sp < 65536 := hwf.2.2.2.2.2.2.2.2.2.2.2.1
  have hpc : s.pc < s.memory.length := lt_length_of_getElem_some hop
  have e : (s.pc + 1) % 65536 = s.pc + 1 := by omega
  have tsp : t.sp = s.sp := by rw [et]
  have tms : t.memSize = s.memSize := by rw [et]
  have tmem : t.memory = s.memory := by rw [et]
  have tpc : t.pc = s.pc + 1 := by rw [et]; exact e
  have tfl : t.flags = s.flags := by rw [et]
  have tlen : t.memory.length = t.memSize := by rw [tmem, tms]; exact hlen
  clear hr h1 hop et hpc e
  revert h2
  repeat' with_reducible refine ite_elim (fun hc h2 => ?_) (fun hc => ?_)
  all_goals
    first
    | intro h2
    | skip
  all_goals
    refine ⟨fun ha => ?_, fun ha => ?_, fun ha => ?_, fun ha => ?_, fun ha => ?_⟩
  all_goals
    first
    | (exfalso
       simp only [LD_dest_src, LD_dest_imm16, PUSH_src, PUSH_imm16, POP_dest, ADD_dest_src,
         ADD_dest_imm16, SUB_dest_src, SUB_dest_imm16, AND_dest_src, AND_dest_imm16,
         OR_dest_src, OR_dest_imm16, XOR_dest_src, XOR_dest_imm16, CMP_dest_src,
         CMP_dest_imm16, MUL_dest_src, MUL_dest_imm16, DIV_dest_src, DIV_dest_imm16, NOT_dest,
         INC_dest, DEC_dest, JMP_addr16, JZ_addr16, JNZ_addr16, JC_addr16, JNC_addr16,
         JLE_addr16, JGE_addr16, JL_addr16, JG_addr16, CALL_addr16, RET, RETI, INT, EI, DI,
         CHK_INT, PUSHF, POPF, SETZ_dest, SETNZ_dest, SETL_dest, SETLE_dest, SETG_dest,
         SETGE_dest, SETB_dest, SETBE_dest, SETA_dest, SETAE_dest, IN_dest, OUT_src, VMEXIT,
         VMRESTART, VMGETMEMSIZE, VMSTATE, VMMALLOC, VMFREE, LEA_dest_bpoff, LIV_addr16, NOP,
         HALT] at *
       omega)
    | skip
  · obtain ⟨DSb, t1, f1, g1⟩ := bind_inv h2
    obtain ⟨v, t2, f2, g2⟩ := bind_inv g1
    obtain ⟨u, t3, f3, -⟩ := bind_inv g2
    have a1 := Frame_fByte t DSb t1 f1
    have a2 := Frame_GetSource DSb t1 v t2 f2
    have a3 := push16_room t2 v u t3 (by omega) (by omega) f3
    omega
  · obtain ⟨v, t1, f1, g1⟩ := bind_inv h2
    obtain ⟨u, t2, f2, -⟩ := bind_inv g1
    have a1 := Frame_fWord t v t1 f1
    have a2 := push16_room t1 v u t2 (by omega) (by omega) f2
    omega
  · intro d hm hlt
    obtain ⟨DSb, t1, f1, g1⟩ := bind_inv h2
    obtain ⟨dest, t2, f2, g2⟩ := bind_inv g1
    obtain ⟨m1, -⟩ := fByte_inv f1
    rw [tmem, tpc, hm] at m1
    cases m1
    have a1 := Frame_fByte t d t1 f1
    rw [GetDestination_reg d t1 hlt] at f2
    cases f2
    obtain ⟨p, hp⟩ := regTable_lt7 _ hlt
    rw [hp] at g2
    obtain ⟨v, t3, f3, -⟩ := bind_inv g2
    have a3 := pop16_room t1 v t3 (by omega) (by omega) f3
    omega
  · obtain ⟨s0, t1, f1, g1⟩ := bind_inv h2
    cases f1
    obtain ⟨u, t2, f2, -⟩ := bind_inv g1
    have a2 := push16_room t _ u t2 tlen (by omega) f2
    omega
  · obtain ⟨a, t1, f1, -⟩ := bind_inv h2
    have a1 := pop16_room t a t1 tlen (by omega) f1
    omega
  · obtain ⟨a, t1, f1, -⟩ := bind_inv h2
    have a1 := pop16_room t a t1 tlen (by omega) f1
    omega
  · obtain ⟨s0, t1, f1, g1⟩ := bind_inv h2
    cases f1
    have hie : t.flags.ie = true := by
      rw [tfl]
      rcases ha with ha | ha | ha | ha
      · exact absurd (hc.symm.trans ha) (by decide)
      · exact absurd (hc.symm.trans ha) (by decide)
      · exact absurd (hc.symm.trans ha) (by decide)
      · exact ha.2
    rw [if_pos hie] at g1
    obtain ⟨u, t2, f2, -⟩ := bind_inv g1
    have a2 := push16_room t _ u t2 tlen (by omega) f2
    omega
  · obtain ⟨s0, t1, f1, g1⟩ := bind_inv h2
    cases f1
    obtain ⟨u, t2, f2, -⟩ := bind_inv g1
    have a2 := push8_room t _ u t2 tlen (by omega) f2
    omega
  · obtain ⟨a, t1, f1, -⟩ := bind_inv h2
    have a1 := pop8_room t a t1 tlen f1
    omega

/-! ## ALU results and flags -/

/-- C1: for all 16-bit values `d` (held by the destination `p`) and `src`, `alu` returns
normally and leaves in the destination: add `(d+s) mod 2^16`, subtract `(d-s) mod 2^16`,
and/or/xor the bitwise `d AND s`, `d OR s`, `d XOR s`, multiply `(d*s) mod 2^16`, divide
`floor(d/s)` when `s ≠ 0`, not `0xFFFF - d`, increment `(d+1) mod 2^16`, decrement
`(d-1) mod 2^16`; compare leaves the destination equal to `d`. -/
theorem alu_destination_value (s : VM) (p : Ref) (d src : Nat)
    (hd : load16 p s = Res.ok d s) (hd16 : d < 65536) (hs : src < 65536) :
    aluDest ALU_ADD p src s = some (((d : Int) + (src : Int)) % 65536) ∧
    aluDest ALU_SUB p src s = some (((d : Int) - (src : Int)) % 65536) ∧
    aluDest ALU_AND p src s = some ((d &&& src : Nat) : Int) ∧
    aluDest ALU_OR p src s = some ((d ||| src : Nat) : Int) ∧
    aluDest ALU_XOR p src s = some ((d ^^^ src : Nat) : Int) ∧
    aluDest ALU_MUL p src s = some (((d : Int) * (src : Int)) % 65536) ∧
    (src ≠ 0 → aluDest ALU_DIV p src s = some ((d / src : Nat) : Int)) ∧
    aluDest ALU_NOT p src s = some (0xFFFF - (d : Int)) ∧
    aluDest ALU_INC p src s = some (((d : Int) + 1) % 65536) ∧
    aluDest ALU_DEC p src s = some (((d : Int) - 1) % 65536) ∧
    aluDest ALU_CMP p src s = some (d : Int) := by
  have hand : (d &&& src) % 65536 = d &&& src :=
    Nat.mod_eq_of_lt (Nat.and_lt_two_pow d (show src < 2 ^ 16 by omega))
  have hor : (d ||| src) % 65536 = d ||| src :=
    Nat.mod_eq_of_lt (Nat.or_lt_two_pow (show d < 2 ^ 16 by omega) (show src < 2 ^ 16 by omega))
  have hxor : (d ^^^ src) % 65536 = d ^^^ src :=
    Nat.mod_eq_of_lt (Nat.xor_lt_two_pow (show d < 2 ^ 16 by omega) (show src < 2 ^ 16 by omega))
  have hdiv : (d / src) % 65536 = d / src :=
    Nat.mod_eq_of_lt (Nat.lt_of_le_of_lt (Nat.div_le_self d src) hd16)
  refine ⟨?_, ?_, ?_, ?_, ?_, ?_, ?_, ?_, ?_, ?_, ?_⟩
  · rw [(obs_rmw _ p src _ s d (alu_add_eq p src) hd).1]
    simp only [u16, Option.some.injEq]; omega
  · rw [(obs_rmw _ p src _ s d (alu_sub_eq p src) hd).1]
    simp only [u16, Option.some.injEq]; omega
  · rw [(obs_rmw _ p src _ s d (alu_and_eq p src) hd).1, hand]
  · rw [(obs_rmw _ p src _ s d (alu_or_eq p src) hd).1, hor]
  · rw [(obs_rmw _ p src _ s d (alu_xor_eq p src) hd).1, hxor]
  · rw [(obs_rmw _ p src _ s d (alu_mul_eq p src) hd).1]
    simp only [u16, Option.some.injEq]; omega
  · intro h0
    rw [(obs_rmw _ p src _ s d (alu_div_eq p src h0) hd).1, hdiv]
  · rw [(obs_rmw _ p src _ s d (alu_not_eq p src) hd).1]
    simp only [u16, Option.some.injEq]; omega
  · rw [(obs_rmw _ p src _ s d (alu_inc_eq p src) hd).1]
    simp only [u16, Option.some.injEq]; omega
  · rw [(obs_rmw _ p src _ s d (alu_dec_eq p src) hd).1]
    simp only [u16, Option.some.injEq]; omega
  · exact (obs_cmp p src s d hd).1

/-- Witness for C1: register `r0` holding 7, source operand 3. -/
theorem alu_destination_value_witness :
    load16 Ref.r0 { boot [] with r0 := 7 } = Res.ok 7 { boot [] with r0 := 7 } ∧
    7 < 65536 ∧ 3 < 65536 ∧
    aluDest ALU_ADD Ref.r0 3 { boot [] with r0 := 7 } = some 10 ∧
    aluDest ALU_SUB Ref.r0 3 { boot [] with r0 := 7 } = some 4 ∧
    aluDest ALU_MUL Ref.r0 3 { boot [] with r0 := 7 } = some 21 ∧
    aluDest ALU_DIV Ref.r0 3 { boot [] with r0 := 7 } = some 2 ∧
    aluDest ALU_NOT Ref.r0 3 { boot [] with r0 := 7 } = some 0xFFF8 ∧
    aluDest ALU_CMP Ref.r0 3 { boot [] with r0 := 7 } = some 7 :=
  have h := alu_destination_value { boot [] with r0 := 7 } Ref.r0 7 3 rfl (by decide) (by decide)
  ⟨rfl, by decide, by decide, h.1, h.2.1, h.2.2.2.2.2.1, h.2.2.2.2.2.2.1 (by decide),
    h.2.2.2.2.2.2.2.1, h.2.2.2.2.2.2.2.2.2.2⟩

/-- C2: for every ALU operation (divide with a non-zero source) and all 16-bit operands, after
`alu` returns the zero flag is set iff the result truncated to 16 bits is 0; for compare the
result is the truncated difference `dest - src`. -/
theorem alu_zero_flag (s : VM) (p : Ref) (d src : Nat)
    (hd : load16 p s = Res.ok d s) (hd16 : d < 65536) (hs : src < 65536) :
    aluFlag Flags.zero ALU_ADD p src s = some (decide (((d : Int) + (src : Int)) % 65536 = 0)) ∧
    aluFlag Flags.zero ALU_SUB p src s = some (decide (((d : Int) - (src : Int)) % 65536 = 0)) ∧
    aluFlag Flags.zero ALU_AND p src s = some (decide (d &&& src = 0)) ∧
    aluFlag Flags.zero ALU_OR p src s = some (decide (d ||| src = 0)) ∧
    aluFlag Flags.zero ALU_XOR p src s = some (decide (d ^^^ src = 0)) ∧
    aluFlag Flags.zero ALU_CMP p src s = some (decide (((d : Int) - (src : Int)) % 65536 = 0)) ∧
    aluFlag Flags.zero ALU_MUL p src s = some (decide (((d : Int) * (src : Int)) % 65536 = 0)) ∧
    (src ≠ 0 → aluFlag Flags.zero ALU_DIV p src s = some (decide (d / src = 0))) ∧
    aluFlag Flags.zero ALU_NOT p src s = some (decide (0xFFFF - (d : Int) = 0)) ∧
    aluFlag Flags.zero ALU_INC p src s = some (decide (((d : Int) + 1) % 65536 = 0)) ∧
    aluFlag Flags.zero ALU_DEC p src s = some (decide (((d : Int) - 1) % 65536 = 0)) := by
  have hand : (d &&& src) % 65536 = d &&& src :=
    Nat.mod_eq_of_lt (Nat.and_lt_two_pow d (show src < 2 ^ 16 by omega))
  have hor : (d ||| src) % 65536 = d ||| src :=
    Nat.mod_eq_of_lt (Nat.or_lt_two_pow (show d < 2 ^ 16 by omega) (show src < 2 ^ 16 by omega))
  have hxor : (d ^^^ src) % 65536 = d ^^^ src :=
    Nat.mod_eq_of_lt (Nat.xor_lt_two_pow (show d < 2 ^ 16 by omega) (show src < 2 ^ 16 by omega))
  have hdiv : (d / src) % 65536 = d / src :=
    Nat.mod_eq_of_lt (Nat.lt_of_le_of_lt (Nat.div_le_self d src) hd16)
  refine ⟨?_, ?_, ?_, ?_, ?_, ?_, ?_, ?_, ?_, ?_, ?_⟩
  · exact zero_rmw _ p src _ s d _ (alu_add_eq p src) hd (by simp only [u16]; omega)
  · exact zero_rmw _ p src _ s d _ (alu_sub_eq p src) hd (by simp only [u16]; omega)
  · exact zero_rmw _ p src _ s d _ (alu_and_eq p src) hd (by rw [hand])
  · exact zero_rmw _ p src _ s d _ (alu_or_eq p src) hd (by rw [hor])
  · exact zero_rmw _ p src _ s d _ (alu_xor_eq p src) hd (by rw [hxor])
  · rw [aluFlag_of (obs_cmp p src s d hd).2]
    simp only [flagsFor, u16, i16, Option.some.injEq, decide_eq_decide]; omega
  · exact zero_rmw _ p src _ s d _ (alu_mul_eq p src) hd (by simp only [u16]; omega)
  · intro h0
    exact zero_rmw _ p src _ s d _ (alu_div_eq p src h0) hd (by rw [hdiv])
  · exact zero_rmw _ p src _ s d _ (alu_not_eq p src) hd (by simp only [u16]; omega)
  · exact zero_rmw _ p src _ s d _ (alu_inc_eq p src) hd (by simp only [u16]; omega)
  · exact zero_rmw _ p src _ s d _ (alu_dec_eq p src) hd (by simp only [u16]; omega)

/-- Witness for C2: register `r0` holding 0xFFFF, source operand 1; the sum wraps to 0. -/
theorem alu_zero_flag_witness :
    load16 Ref.r0 { boot [] with r0 := 0xFFFF } = Res.ok 0xFFFF { boot [] with r0 := 0xFFFF } ∧
    0xFFFF < 65536 ∧ 1 < 65536 ∧
    aluFlag Flags.zero ALU_ADD Ref.r0 1 { boot [] with r0 := 0xFFFF } = some true ∧
    aluFlag Flags.zero ALU_SUB Ref.r0 1 { boot [] with r0 := 0xFFFF } = some false ∧
    aluFlag Flags.zero ALU_CMP Ref.r0 1 { boot [] with r0 := 0xFFFF } = some false ∧
    aluFlag Flags.zero ALU_NOT Ref.r0 1 { boot [] with r0 := 0xFFFF } = some true :=
  have h := alu_zero_flag { boot [] with r0 := 0xFFFF } Ref.r0 0xFFFF 1 rfl (by decide)
    (by decide)
  ⟨rfl, by decide, by decide, h.1, h.2.1, h.2.2.2.2.2.1, h.2.2.2.2.2.2.2.2.1⟩

/-- C3 (the code departs from the claim): after `alu` adds 0 to a register holding 0x8000 the
result is 0x8000, whose bit 15 is set, yet the sign flag is clear; the test
`(result & 0x8000) < 0` of `modifyFlags` never holds. -/
theorem alu_sign_flag_never_set :
    aluDest ALU_ADD Ref.r0 0 { boot [] with r0 := 0x8000 } = some 0x8000 ∧
    Nat.testBit 0x8000 15 = true ∧
    aluFlag Flags.sign ALU_ADD Ref.r0 0 { boot [] with r0 := 0x8000 } = some false := by
  decide

/-- C4 (the code departs from the claim): `modifyFlags` tests the range on the truncated
result. Subtracting 2 from 1 has the exact result -1, inside the signed 16-bit range, and sets
the overflow flag; adding 1 to 0xFFFF has the exact result 65536, outside the range, and
leaves the overflow flag clear. -/
theorem alu_overflow_flag_from_truncated :
    ((-32768 : Int) ≤ 1 - 2 ∧ (1 - 2 : Int) ≤ 32767) ∧
    aluFlag Flags.overflow ALU_SUB Ref.r0 2 { boot [] with r0 := 1 } = some true ∧
    (32767 : Int) < 0xFFFF + 1 ∧
    aluFlag Flags.overflow ALU_ADD Ref.r0 1 { boot [] with r0 := 0xFFFF } = some false := by
  decide

/-- C5: for add, subtract and multiply, on every destination that can be read and every source
operand, the carry flag is clear after `alu` returns. -/
theorem alu_carry_flag_clear (s : VM) (p : Ref) (d src : Nat)
    (hd : load16 p s = Res.ok d s) :
    aluFlag Flags.carry ALU_ADD p src s = some false ∧
    aluFlag Flags.carry ALU_SUB p src s = some false ∧
    aluFlag Flags.carry ALU_MUL p src s = some false := by
  refine ⟨?_, ?_, ?_⟩
  · rw [aluFlag_of (obs_rmw _ p src _ s d (alu_add_eq p src) hd).2]; rfl
  · rw [aluFlag_of (obs_rmw _ p src _ s d (alu_sub_eq p src) hd).2]; rfl
  · rw [aluFlag_of (obs_rmw _ p src _ s d (alu_mul_eq p src) hd).2]; rfl

/-- Witness for C5: 0xFFFF + 0xFFFF, 0xFFFF * 0xFFFF and 0xFFFF - 0xFFFF in register `r0`,
starting with the carry flag set. -/
theorem alu_carry_flag_clear_witness :
    load16 Ref.r0 { boot [] with r0 := 0xFFFF, flags := { clearFlags with carry := true } }
      = Res.ok 0xFFFF { boot [] with r0 := 0xFFFF, flags := { clearFlags with carry := true } } ∧
    aluFlag Flags.carry ALU_ADD Ref.r0 0xFFFF
      { boot [] with r0 := 0xFFFF, flags := { clearFlags with carry := true } } = some false ∧
    aluFlag Flags.carry ALU_SUB Ref.r0 0xFFFF
      { boot [] with r0 := 0xFFFF, flags := { clearFlags with carry := true } } = some false ∧
    aluFlag Flags.carry ALU_MUL Ref.r0 0xFFFF
      { boot [] with r0 := 0xFFFF, flags := { clearFlags with carry := true } } = some false :=
  ⟨rfl, alu_carry_flag_clear
    { boot [] with r0 := 0xFFFF, flags := { clearFlags with carry := true } }
    Ref.r0 0xFFFF 0xFFFF rfl⟩

/-- C6: for every state and every destination holding a 16-bit value `d`, `alu` with operation
divide and source 0 returns normally in the state it started from with exactly one diagnostic
appended, division by zero at WARNING severity; so the destination still holds `d` and all
flags are unchanged. -/
theorem alu_div_by_zero (s : VM) (p : Ref) (d : Nat) (hd : load16 p s = Res.ok d s) :
    alu ALU_DIV (some p) 0 s
      = Res.ok () { s with diag := s.diag ++ [(ERR_DBZ, EXC_WARNING)] } ∧
    aluDest ALU_DIV p 0 s = some (d : Int) ∧
    aluFlags ALU_DIV p 0 s = some s.flags := by
  have e : alu ALU_DIV (some p) 0 s
      = Res.ok () { s with diag := s.diag ++ [(ERR_DBZ, EXC_WARNING)] } := by
    simp [alu, bind_run, pure_run, vm_exception]
  have hl : load16 p { s with diag := s.diag ++ [(ERR_DBZ, EXC_WARNING)] }
      = Res.ok d { s with diag := s.diag ++ [(ERR_DBZ, EXC_WARNING)] } := by
    cases p with
    | mem a =>
      obtain ⟨lo, hi, h1, h2, rfl⟩ := load16_mem_inv hd
      simp [bind_run, load16, rd, pure_run, h1, h2]
    | _ => simpa [bind_run, load16, pure_run, getVM] using hd
  refine ⟨e, ?_, ?_⟩
  · simp [aluDest, e, hl]
  · simp [aluFlags, e]

/-- Witness for C6: register `r0` holding 7, divided by 0 in the state after start-up. -/
theorem alu_div_by_zero_witness :
    load16 Ref.r0 { boot [] with r0 := 7 } = Res.ok 7 { boot [] with r0 := 7 } ∧
    alu ALU_DIV (some Ref.r0) 0 { boot [] with r0 := 7 }
      = Res.ok () { boot [] with r0 := 7, diag := [(ERR_DBZ, EXC_WARNING)] } ∧
    aluDest ALU_DIV Ref.r0 0 { boot [] with r0 := 7 } = some 7 ∧
    aluFlags ALU_DIV Ref.r0 0 { boot [] with r0 := 7 } = some clearFlags :=
  ⟨rfl, alu_div_by_zero { boot [] with r0 := 7 } Ref.r0 7 rfl⟩

/-! ## Conditional jumps -/

/-- C7: for each of JZ, JNZ, JC, JNC, JLE, JL and JG, in every state whose memory holds the
opcode at `pc` and the operand bytes `lo`, `hi` at `pc+1`, `pc+2`, one step returns normally
and changes nothing but `pc`: `pc` becomes the little-endian operand `lo + 256 * hi` when the
predicate of the opcode holds (JZ: zero; JNZ: not zero; JC: carry; JNC: not carry; JLE:
overflow or sign ≠ zero; JL: sign ≠ overflow; JG: zero and sign = overflow), and `pc + 3`
otherwise. -/
theorem conditional_jump (h : Host) (s : VM) (op lo hi : Nat) (taken : Bool) (hwf : s.wf)
    (hop : s.memory[s.pc]? = some op) (hlo : s.memory[s.pc + 1]? = some lo)
    (hhi : s.memory[s.pc + 2]? = some hi)
    (hc : (op = JZ_addr16 ∧ taken = s.flags.zero) ∨
          (op = JNZ_addr16 ∧ taken = !s.flags.zero) ∨
          (op = JC_addr16 ∧ taken = s.flags.carry) ∨
          (op = JNC_addr16 ∧ taken = !s.flags.carry) ∨
          (op = JLE_addr16 ∧ taken = (s.flags.overflow || (s.flags.sign != s.flags.zero))) ∨
          (op = JL_addr16 ∧ taken = (s.flags.sign != s.flags.overflow)) ∨
          (op = JG_addr16 ∧ taken = (s.flags.zero && (s.flags.sign == s.flags.overflow)))) :
    execute h s
      = Res.ok none
          (if taken then { s with pc := lo + 256 * hi } else { s with pc := s.pc + 3 }) := by
  have hb1 := byte_lt hwf hlo
  have hb2 := byte_lt hwf hhi
  have hw := word_le hb1 hb2
  obtain ⟨hlen, -, hms, -, hpc, -⟩ := hwf
  have h2 := lt_length_of_getElem_some hhi
  have e1 : (s.pc + 1) % 65536 = s.pc + 1 := by omega
  have e2 : (s.pc + 1 + 1) % 65536 = s.pc + 2 := by omega
  have e3 : (s.pc + 1 + 2) % 65536 = s.pc + 3 := by omega
  rcases hc with ⟨rfl, rfl⟩ | ⟨rfl, rfl⟩ | ⟨rfl, rfl⟩ | ⟨rfl, rfl⟩ | ⟨rfl, rfl⟩ | ⟨rfl, rfl⟩
    | ⟨rfl, rfl⟩
  all_goals
    simp [execute, bind_run, pure_run, ite_run, fByte, fWord, getVM, modifyVM, rd, hop, e1, e2,
      e3, hlo, hhi, hw]
  all_goals
    cases hz : s.flags.zero <;> cases hcy : s.flags.carry <;> cases hsg : s.flags.sign <;>
    cases hov : s.flags.overflow <;> simp

/-- Witness for C7: `JZ 0x0010` at address 0 with the zero flag set is taken. -/
theorem conditional_jump_witness :
    VM.wf { boot [JZ_addr16, 0x10, 0x00] with flags := { clearFlags with zero := true } } ∧
    execute plainHost
        { boot [JZ_addr16, 0x10, 0x00] with flags := { clearFlags with zero := true } }
      = Res.ok none
        { boot [JZ_addr16, 0x10, 0x00] with
          flags := { clearFlags with zero := true }, pc := 0x10 } :=
  ⟨boot_wf [JZ_addr16, 0x10, 0x00] (by decide) (by decide),
   conditional_jump plainHost
    { boot [JZ_addr16, 0x10, 0x00] with flags := { clearFlags with zero := true } }
    JZ_addr16 0x10 0x00 true (boot_wf [JZ_addr16, 0x10, 0x00] (by decide) (by decide))
    (boot_mem _ 0 _ (by decide) rfl) (boot_mem _ 1 _ (by decide) rfl)
    (boot_mem _ 2 _ (by decide) rfl) (Or.inl ⟨rfl, rfl⟩)⟩

/-- C8 (the code departs from the claim): with the sign flag set and the overflow flag clear,
so that sign ≠ overflow, `JGE 0x0010` at address 0 still transfers control to 0x0010 instead of
advancing `pc` to 3; the condition the code tests is `overflow == overflow`. -/
theorem jge_taken_when_sign_differs :
    (({ clearFlags with sign := true } : Flags).sign
        ≠ ({ clearFlags with sign := true } : Flags).overflow) ∧
    pcAfter (execute plainHost
        { boot [JGE_addr16, 0x10, 0x00] with flags := { clearFlags with sign := true } })
      = some 0x10 := by
  constructor
  · decide
  · simp [execute, boot, pcAfter, bind_run, pure_run, fByte, fWord, getVM, modifyVM, rd]

/-! ## Stack round trips -/

/-- C9: for every 16-bit value `v` and every state with `2 ≤ sp ≤ memSize`, `push16 v`
followed at once by `pop16` returns exactly `v` and leaves `sp` at its original value; and when
memory holds `PUSH_imm16 v` at `pc`, that step returns normally, and if the instruction it
leaves at `pc` is `POP_dest r2` (descriptor 0x20), the next step returns normally with
`r2 = v` and `sp` restored. -/
theorem push_pop_roundtrip (h : Host) (s : VM) (v : Nat) (hwf : s.wf) (hv : v < 65536)
    (hsp : 2 ≤ s.sp) (hsp2 : s.sp ≤ s.memSize) :
    (∃ s1 s2, push16 v s = Res.ok () s1 ∧ pop16 s1 = Res.ok v s2 ∧ s2.sp = s.sp) ∧
    (s.memory[s.pc]? = some PUSH_imm16 → s.memory[s.pc + 1]? = some (v % 256) →
      s.memory[s.pc + 2]? = some (v / 256) →
      ∃ s1, execute h s = Res.ok none s1 ∧
        (s1.memory[s1.pc]? = some POP_dest → s1.memory[s1.pc + 1]? = some 0x20 →
          ∃ s2, execute h s1 = Res.ok none s2 ∧ s2.r2 = v ∧ s2.sp = s.sp)) := by
  obtain ⟨hlen, hbytes, hms, -, hpc, -⟩ := hwf
  have l1 : s.sp - 1 < s.memory.length := by omega
  have l2 : s.sp - 2 < s.memory.length := by omega
  have c1 : s.sp - 2 + 1 = s.sp - 1 := by omega
  have c2 : s.sp - 2 + 2 = s.sp := by omega
  have hne : s.sp - 1 ≠ s.sp - 2 := by omega
  have hval : v % 256 + 256 * (v / 256 % 256) = v := by omega
  have m1 : ((s.memory.set (s.sp - 1) (v % 256)).set (s.sp - 2) (v / 256 % 256))[s.sp - 2]?
      = some (v / 256 % 256) := by
    simp [List.getElem?_set, l2]
  have m2 : ((s.memory.set (s.sp - 1) (v % 256)).set (s.sp - 2) (v / 256 % 256))[s.sp - 1]?
      = some (v % 256) := by
    simp [List.getElem?_set, l1, hne.symm]
  constructor
  · have hq := pop16_run { s with
        sp := s.sp - 2,
        memory := (s.memory.set (s.sp - 1) (v % 256)).set (s.sp - 2) (v / 256 % 256) }
      (v / 256 % 256) (v % 256) m1 (by simpa [c1] using m2) (by omega) (by omega)
      (by simp; omega) (by simp; omega)
    rw [hval] at hq
    exact ⟨_, _, push16_run s v hlen hms hsp hsp2, hq, by simp [c2]⟩
  · intro hop hlo hhi
    have h2 := lt_length_of_getElem_some hhi
    have e1 : (s.pc + 1) % 65536 = s.pc + 1 := by omega
    have e2 : (s.pc + 1 + 1) % 65536 = s.pc + 2 := by omega
    have e3 : (s.pc + 2 + 1) % 65536 = s.pc + 3 := by omega
    have hv2 : (v % 256 ||| (v / 256) <<< 8) % 65536 = v := by
      rw [word_le (by omega) (by omega)]; omega
    refine ⟨{ s with
      pc := s.pc + 3, sp := s.sp - 2,
      memory := (s.memory.set (s.sp - 1) (v % 256)).set (s.sp - 2) (v / 256 % 256) }, ?_, ?_⟩
    · have hp := push16_run { s with pc := s.pc + 3 } v hlen hms hsp hsp2
      simp [execute, bind_run, pure_run, fByte, fWord, getVM, modifyVM, rd, hop, e1, e2, e3,
        hlo, hhi, hv2, hp]
    · intro hp1 hp2
      simp only [] at hp1 hp2
      have h4 := lt_length_of_getElem_some hp2
      simp only [List.length_set] at h4
      have e4 : (s.pc + 3 + 1) % 65536 = s.pc + 4 := by omega
      have e5 : (s.pc + 4 + 1) % 65536 = s.pc + 5 := by omega
      have hq := pop16_run { s with
          pc := s.pc + 5, sp := s.sp - 2,
          memory := (s.memory.set (s.sp - 1) (v % 256)).set (s.sp - 2) (v / 256 % 256) }
        (v / 256 % 256) (v % 256) m1 (by simpa [c1] using m2) (by omega) (by omega)
        (by simp; omega) (by simp; omega)
      simp [hval, c2] at hq
      have hg : ∀ t, GetDestination 0x20 t = Res.ok (some Ref.r2) t := fun t => by
        simpa [decodeDS_0x20, regTable] using GetDestination_reg 0x20 t (by decide)
      simp [execute, bind_run, pure_run, fByte, getVM, modifyVM, rd, hp1, hp2, e3, e4, e5,
        hg, store16, hq]
      omega

/-- Witness for C9: the program `PUSH 10` / `POP r2` in the state after start-up. -/
theorem push_pop_roundtrip_witness :
    (boot [PUSH_imm16, 10, 0, POP_dest, 0x20]).wf ∧ 10 < 65536 ∧
    2 ≤ (boot [PUSH_imm16, 10, 0, POP_dest, 0x20]).sp ∧
    (boot [PUSH_imm16, 10, 0, POP_dest, 0x20]).sp
      ≤ (boot [PUSH_imm16, 10, 0, POP_dest, 0x20]).memSize ∧
    (∃ s1 s2, push16 10 (boot [PUSH_imm16, 10, 0, POP_dest, 0x20]) = Res.ok () s1 ∧
      pop16 s1 = Res.ok 10 s2 ∧ s2.sp = 1024) ∧
    (∃ s1 s2, execute plainHost (boot [PUSH_imm16, 10, 0, POP_dest, 0x20]) = Res.ok none s1 ∧
      execute plainHost s1 = Res.ok none s2 ∧ s2.r2 = 10 ∧ s2.sp = 1024) := by
  have hwf := boot_wf [PUSH_imm16, 10, 0, POP_dest, 0x20] (by decide) (by decide)
  have hm : ∀ i b, [PUSH_imm16, 10, 0, POP_dest, 0x20][i]? = some b →
      (boot [PUSH_imm16, 10, 0, POP_dest, 0x20]).memory[i]? = some b :=
    fun i b hb => boot_mem _ i b (by decide) hb
  have h := push_pop_roundtrip plainHost (boot [PUSH_imm16, 10, 0, POP_dest, 0x20]) 10 hwf
    (by decide) (by decide) (by decide)
  refine ⟨hwf, by decide, by decide, by decide, h.1, ?_⟩
  obtain ⟨s1, h1, h2⟩ := h.2 (hm 0 _ rfl) (hm 1 _ rfl) (hm 2 _ rfl)
  have hp := push16_run { boot [PUSH_imm16, 10, 0, POP_dest, 0x20] with pc := 3 } 10
    hwf.1 (by decide) (by decide) (by decide)
  have e : execute plainHost (boot [PUSH_imm16, 10, 0, POP_dest, 0x20])
      = Res.ok none { boot [PUSH_imm16, 10, 0, POP_dest, 0x20] with
          pc := 3, sp := 1022,
          memory := ((boot [PUSH_imm16, 10, 0, POP_dest, 0x20]).memory.set 1023 10).set
            1022 0 } := by
    simp at hp
    have hb : (boot [PUSH_imm16, 10, 0, POP_dest, 0x20]).pc = 0 := rfl
    have hs : (boot [PUSH_imm16, 10, 0, POP_dest, 0x20]).sp = 1024 := rfl
    simp [execute, bind_run, pure_run, fByte, fWord, getVM, modifyVM, rd, hb, hs,
      hm 0 _ rfl, hm 1 _ rfl, hm 2 _ rfl] at hp ⊢
    simp [hp]
  rw [e] at h1
  injection h1 with _ h1
  subst h1
  obtain ⟨s2, h3, h4, h5⟩ := h2
    (by simp [List.getElem?_set, hm 3 _ rfl])
    (by simp [List.getElem?_set, hm 4 _ rfl])
  exact ⟨_, s2, e, h3, h4, h5⟩

/-- C10: for every state with a CALL opcode at `pc` whose operand bytes `lo`, `hi` give the
address `A = lo + 256 * hi`, a RET opcode at `A`, `2 ≤ sp ≤ memSize`, and the instruction bytes
not overlapping the two stack bytes at `sp-2`, `sp-1`: the CALL step returns normally with
`pc = A`, and the RET step that follows returns normally with `pc` at the address right after
the operand of the CALL and `sp` at its value before the call. -/
theorem call_ret_roundtrip (h : Host) (s : VM) (lo hi : Nat) (hwf : s.wf)
    (hop : s.memory[s.pc]? = some CALL_addr16) (hlo : s.memory[s.pc + 1]? = some lo)
    (hhi : s.memory[s.pc + 2]? = some hi) (hret : s.memory[lo + 256 * hi]? = some RET)
    (hsp : 2 ≤ s.sp) (hsp2 : s.sp ≤ s.memSize)
    (hdisj : ∀ i, i = s.sp - 2 ∨ i = s.sp - 1 →
      i ≠ s.pc ∧ i ≠ s.pc + 1 ∧ i ≠ s.pc + 2 ∧ i ≠ lo + 256 * hi) :
    ∃ s1 s2, execute h s = Res.ok none s1 ∧ s1.pc = lo + 256 * hi ∧
      execute h s1 = Res.ok none s2 ∧ s2.pc = s.pc + 3 ∧ s2.sp = s.sp := by
  have hb1 := byte_lt hwf hlo
  have hb2 := byte_lt hwf hhi
  have hw := word_le hb1 hb2
  obtain ⟨hlen, -, hms, -, hpc, -⟩ := hwf
  have h2 := lt_length_of_getElem_some hhi
  have hA := lt_length_of_getElem_some hret
  obtain ⟨-, d1, d2, d3⟩ := hdisj (s.sp - 2) (Or.inl rfl)
  obtain ⟨-, d4, d5, d6⟩ := hdisj (s.sp - 1) (Or.inr rfl)
  have l1 : s.sp - 1 < s.memory.length := by omega
  have l2 : s.sp - 2 < s.memory.length := by omega
  have c1 : s.sp - 2 + 1 = s.sp - 1 := by omega
  have c2 : s.sp - 2 + 2 = s.sp := by omega
  have hne : s.sp - 1 ≠ s.sp - 2 := by omega
  have e1 : (s.pc + 1) % 65536 = s.pc + 1 := by omega
  have e2 : (s.pc + 1 + 1) % 65536 = s.pc + 2 := by omega
  have e3 : (s.pc + 2 + 1) % 65536 = s.pc + 3 := by omega
  have eR : u16 ((s.pc : Int) + 1 + 2) = s.pc + 3 := by unfold u16; omega
  have hval : (s.pc + 3) % 256 + 256 * ((s.pc + 3) / 256 % 256) = s.pc + 3 := by omega
  have m1 : ((s.memory.set (s.sp - 1) ((s.pc + 3) % 256)).set (s.sp - 2)
      ((s.pc + 3) / 256 % 256))[s.sp - 2]? = some ((s.pc + 3) / 256 % 256) := by
    simp [List.getElem?_set, l2]
  have m2 : ((s.memory.set (s.sp - 1) ((s.pc + 3) % 256)).set (s.sp - 2)
      ((s.pc + 3) / 256 % 256))[s.sp - 1]? = some ((s.pc + 3) % 256) := by
    simp [List.getElem?_set, l1, hne.symm]
  have m3 : ((s.memory.set (s.sp - 1) ((s.pc + 3) % 256)).set (s.sp - 2)
      ((s.pc + 3) / 256 % 256))[s.pc + 1]? = some lo := by
    simp [List.getElem?_set, d1, d4, hlo]
  have m4 : ((s.memory.set (s.sp - 1) ((s.pc + 3) % 256)).set (s.sp - 2)
      ((s.pc + 3) / 256 % 256))[s.pc + 2]? = some hi := by
    simp [List.getElem?_set, d2, d5, hhi]
  have m5 : ((s.memory.set (s.sp - 1) ((s.pc + 3) % 256)).set (s.sp - 2)
      ((s.pc + 3) / 256 % 256))[lo + 256 * hi]? = some RET := by
    simp [List.getElem?_set, d3, d6, hret]
  refine ⟨{ s with
      pc := lo + 256 * hi, sp := s.sp - 2,
      memory := (s.memory.set (s.sp - 1) ((s.pc + 3) % 256)).set (s.sp - 2)
        ((s.pc + 3) / 256 % 256) },
    { s with
      pc := s.pc + 3, sp := s.sp,
      memory := (s.memory.set (s.sp - 1) ((s.pc + 3) % 256)).set (s.sp - 2)
        ((s.pc + 3) / 256 % 256) }, ?_, rfl, ?_, rfl, rfl⟩
  · have hp := push16_run { s with pc := s.pc + 1 } (s.pc + 3) hlen hms hsp hsp2
    simp at hp
    simp [execute, bind_run, pure_run, fByte, fWord, getVM, modifyVM, rd, hop, e1, e2, e3, eR,
      hp, m3, m4, hw]
  · have hq := pop16_run { s with
        pc := (lo + 256 * hi + 1) % 65536, sp := s.sp - 2,
        memory := (s.memory.set (s.sp - 1) ((s.pc + 3) % 256)).set (s.sp - 2)
          ((s.pc + 3) / 256 % 256) }
      ((s.pc + 3) / 256 % 256) ((s.pc + 3) % 256) m1 (by simpa [c1] using m2) (by omega)
      (by omega) (by simp; omega) (by simp; omega)
    simp [hval, c2] at hq
    simp [execute, bind_run, pure_run, fByte, getVM, modifyVM, rd, m5, hq]

/-- Witness for C10: `CALL 0x0005` at address 0 and `RET` at address 5, after start-up. -/
theorem call_ret_roundtrip_witness :
    (boot [CALL_addr16, 5, 0, NOP, NOP, RET]).wf ∧
    2 ≤ (boot [CALL_addr16, 5, 0, NOP, NOP, RET]).sp ∧
    (boot [CALL_addr16, 5, 0, NOP, NOP, RET]).sp
      ≤ (boot [CALL_addr16, 5, 0, NOP, NOP, RET]).memSize ∧
    (∃ s1 s2, execute plainHost (boot [CALL_addr16, 5, 0, NOP, NOP, RET]) = Res.ok none s1 ∧
      s1.pc = 5 ∧ execute plainHost s1 = Res.ok none s2 ∧ s2.pc = 3 ∧ s2.sp = 1024) :=
  have hwf := boot_wf [CALL_addr16, 5, 0, NOP, NOP, RET] (by decide) (by decide)
  ⟨hwf, by decide, by decide,
   call_ret_roundtrip plainHost (boot [CALL_addr16, 5, 0, NOP, NOP, RET]) 5 0 hwf
    (boot_mem _ 0 _ (by decide) rfl) (boot_mem _ 1 _ (by decide) rfl)
    (boot_mem _ 2 _ (by decide) rfl) (boot_mem _ 5 _ (by decide) rfl)
    (by decide) (by decide)
    (by intro i hi; rcases hi with rfl | rfl <;> decide)⟩

/-! ## Stack overflow guard -/

set_option maxRecDepth 20000 in
/-- C11 (the code departs from the claim): with `sp = 0`, `push8` ends the process with the
SEVERE stack-overflow diagnostic, leaving memory and `sp` as they were, but `push16` raises
nothing: its guard is `sp > memSize`, so it decrements `sp` to 0xFFFF and stores to
`memory[0xFFFF]`, outside the buffer. -/
theorem push16_at_sp_zero_not_guarded :
    push8 10 { boot [] with sp := 0 }
      = Res.exit ERR_STACK_OVERFLOW
          { boot [] with sp := 0, diag := [(ERR_STACK_OVERFLOW, EXC_SEVERE)] } ∧
    u16 ((0 : Int) - 1) = 0xFFFF ∧
    push16 10 { boot [] with sp := 0 } = Res.ub := by
  decide

/-! ## Pointer bounds as a step invariant -/

/-- C13: for every state of the C types with an INT opcode at `pc = p` and `2 ≤ sp ≤ memSize`,
the step returns normally and, if interrupt-enable is set, the state it leaves differs from the
one before only in `pc = iv`, `sp` lowered by 2, the two stack bytes now holding `p + 1`, and
interrupt-active set (and `pop16` on that state returns `p + 1`); if interrupt-enable is clear,
it differs only in `pc = p + 1`. Interrupt-active is not consulted. -/
theorem int_step (h : Host) (s : VM) (hwf : s.wf) (hop : s.memory[s.pc]? = some INT)
    (hsp : 2 ≤ s.sp) (hsp2 : s.sp ≤ s.memSize) :
    execute h s = Res.ok none
      (if s.flags.ie then
        { s with
          pc := s.iv, sp := s.sp - 2,
          memory := (s.memory.set (s.sp - 1) ((s.pc + 1) % 256)).set (s.sp - 2)
            ((s.pc + 1) / 256 % 256),
          flags := { s.flags with ia := true } }
      else { s with pc := s.pc + 1 }) ∧
    pop16 { s with
        pc := s.iv, sp := s.sp - 2,
        memory := (s.memory.set (s.sp - 1) ((s.pc + 1) % 256)).set (s.sp - 2)
          ((s.pc + 1) / 256 % 256),
        flags := { s.flags with ia := true } }
      = Res.ok (s.pc + 1) { s with
        pc := s.iv,
        memory := (s.memory.set (s.sp - 1) ((s.pc + 1) % 256)).set (s.sp - 2)
          ((s.pc + 1) / 256 % 256),
        flags := { s.flags with ia := true } } := by
  obtain ⟨hlen, -, hms, -, hpc, -⟩ := hwf
  have h0 := lt_length_of_getElem_some hop
  have e1 : (s.pc + 1) % 65536 = s.pc + 1 := by omega
  have l1 : s.sp - 1 < s.memory.length := by omega
  have l2 : s.sp - 2 < s.memory.length := by omega
  have c1 : s.sp - 2 + 1 = s.sp - 1 := by omega
  have c2 : s.sp - 2 + 2 = s.sp := by omega
  have hne : s.sp - 1 ≠ s.sp - 2 := by omega
  have hval : (s.pc + 1) % 256 + 256 * ((s.pc + 1) / 256 % 256) = s.pc + 1 := by omega
  have m1 : ((s.memory.set (s.sp - 1) ((s.pc + 1) % 256)).set (s.sp - 2)
      ((s.pc + 1) / 256 % 256))[s.sp - 2]? = some ((s.pc + 1) / 256 % 256) := by
    simp [List.getElem?_set, l2]
  have m2 : ((s.memory.set (s.sp - 1) ((s.pc + 1) % 256)).set (s.sp - 2)
      ((s.pc + 1) / 256 % 256))[s.sp - 1]? = some ((s.pc + 1) % 256) := by
    simp [List.getElem?_set, l1, hne.symm]
  constructor
  · have hp := push16_run { s with pc := s.pc + 1 } (s.pc + 1) hlen hms hsp hsp2
    simp at hp
    cases hie : s.flags.ie <;>
      simp [execute, bind_run, pure_run, ite_run, fByte, getVM, modifyVM, rd, hop, e1, hie, hp]
  · have hq := pop16_run { s with
        pc := s.iv, sp := s.sp - 2,
        memory := (s.memory.set (s.sp - 1) ((s.pc + 1) % 256)).set (s.sp - 2)
          ((s.pc + 1) / 256 % 256),
        flags := { s.flags with ia := true } }
      ((s.pc + 1) / 256 % 256) ((s.pc + 1) % 256) m1 (by simpa [c1] using m2) (by omega)
      (by omega) (by simp; omega) (by simp; omega)
    simp [hval, c2] at hq
    exact hq

set_option maxRecDepth 20000 in
/-- Witness for C13: `INT` at address 0 after start-up with interrupt-enable set. -/
theorem int_step_witness :
    VM.wf { boot [INT] with flags := { clearFlags with ie := true } } ∧
    (stateAfter (execute plainHost
        { boot [INT] with flags := { clearFlags with ie := true } })).map
      (fun t => (t.pc, t.sp, t.flags.ie, t.flags.ia, t.memory.get? 1022, t.memory.get? 1023))
      = some (0, 1022, true, true, some 0, some 1) := by
  refine ⟨boot_wf [INT] (by decide) (by decide), ?_⟩
  rw [(int_step plainHost { boot [INT] with flags := { clearFlags with ie := true } }
    (boot_wf [INT] (by decide) (by decide)) (boot_mem _ 0 _ (by decide) rfl)
    (by decide) (by decide)).1]
  rfl

/-! ## Interrupt query and flag byte -/

set_option maxRecDepth 20000 in
/-- C14 (the code departs from the claim): with the interrupt-active flag set `CHK_INT` clears
the zero flag, and with it clear `CHK_INT` sets the zero flag; the header documents the
opposite (`if executing zf = 1`). -/
theorem chk_int_inverted :
    (stateAfter (execute plainHost
        { boot [CHK_INT] with flags := { clearFlags with ia := true, zero := true } })).map
      (fun s => s.flags.zero) = some false ∧
    (stateAfter (execute plainHost (boot [CHK_INT]))).map (fun s => s.flags.zero)
      = some true := by
  decide

/-! ## Flag byte round trip -/

/-- C15: for every state of the C types with a PUSHF opcode at `pc` and `1 ≤ sp ≤ memSize`,
the byte PUSHF builds has bit `i` equal to flag `i` for `i = 0..6` (1 carry, 2 zero, 4 overflow,
8 sign, 16 halt, 32 interrupt-enable, 64 interrupt-active), the step returns normally having
stored that byte at `sp - 1` and lowered `sp` by one, and if the next opcode is POPF the step
after it returns normally with `sp` and flags 0..6 equal to their values before the PUSHF. -/
theorem pushf_popf_roundtrip (h : Host) (s : VM) (hwf : s.wf)
    (hop : s.memory[s.pc]? = some PUSHF) (hsp : 1 ≤ s.sp) (hsp2 : s.sp ≤ s.memSize) :
    packFlags s.flags
      = ofBool s.flags.carry + 2 * ofBool s.flags.zero + 4 * ofBool s.flags.overflow
        + 8 * ofBool s.flags.sign + 16 * ofBool s.flags.halt + 32 * ofBool s.flags.ie
        + 64 * ofBool s.flags.ia ∧
    ∃ s1, execute h s = Res.ok none s1 ∧
      s1 = { s with pc := s.pc + 1, sp := s.sp - 1,
                    memory := s.memory.set (s.sp - 1) (packFlags s.flags) } ∧
      (s1.memory[s1.pc]? = some POPF →
        ∃ s2, execute h s1 = Res.ok none s2 ∧ s2.sp = s.sp ∧
          s2.flags.carry = s.flags.carry ∧ s2.flags.zero = s.flags.zero ∧
          s2.flags.overflow = s.flags.overflow ∧ s2.flags.sign = s.flags.sign ∧
          s2.flags.halt = s.flags.halt ∧ s2.flags.ie = s.flags.ie ∧
          s2.flags.ia = s.flags.ia) := by
  refine ⟨packFlags_eq s.flags, _, ?_, rfl, ?_⟩
  · obtain ⟨hlen, -, hms, -, hpc, -⟩ := hwf
    have h0 := lt_length_of_getElem_some hop
    have e1 : (s.pc + 1) % 65536 = s.pc + 1 := by omega
    have hp := push8_run { s with pc := s.pc + 1 } (packFlags s.flags) hlen hms hsp hsp2
    simp [Nat.mod_eq_of_lt (packFlags_lt s.flags)] at hp
    simp [execute, bind_run, pure_run, fByte, getVM, modifyVM, rd, hop, e1, hp]
  · intro hp1
    simp only [] at hp1
    obtain ⟨hlen, -, hms, -, hpc, -⟩ := hwf
    have h1 := lt_length_of_getElem_some hp1
    simp only [List.length_set] at h1
    have e2 : (s.pc + 1 + 1) % 65536 = s.pc + 2 := by omega
    have l1 : s.sp - 1 < s.memory.length := by omega
    have c1 : s.sp - 1 + 1 = s.sp := by omega
    have m1 : (s.memory.set (s.sp - 1) (packFlags s.flags))[s.sp - 1]?
        = some (packFlags s.flags) := by
      simp [List.getElem?_set, l1]
    have hq := pop8_run { s with
        pc := s.pc + 2, sp := s.sp - 1,
        memory := s.memory.set (s.sp - 1) (packFlags s.flags) }
      (packFlags s.flags) m1 (by simp; omega) (by simp; omega)
    simp [c1] at hq
    simp [execute, bind_run, pure_run, fByte, getVM, modifyVM, rd, hp1, e2, hq, unpack_pack]

set_option maxRecDepth 20000 in
/-- Witness for C15: `PUSHF` / `POPF` after start-up with carry, sign and interrupt-enable set. -/
theorem pushf_popf_roundtrip_witness :
    VM.wf { boot [PUSHF, POPF] with
      flags := { clearFlags with carry := true, sign := true, ie := true } } ∧
    ∃ s1 s2,
      execute plainHost { boot [PUSHF, POPF] with
        flags := { clearFlags with carry := true, sign := true, ie := true } }
        = Res.ok none s1 ∧
      s1.memory.get? 1023 = some 0x29 ∧
      execute plainHost s1 = Res.ok none s2 ∧ s2.sp = 1024 ∧
      s2.flags = { clearFlags with carry := true, sign := true, ie := true } := by
  have hwf : VM.wf { boot [PUSHF, POPF] with
      flags := { clearFlags with carry := true, sign := true, ie := true } } :=
    boot_wf [PUSHF, POPF] (by decide) (by decide)
  obtain ⟨-, s1, h1, e1, h2⟩ := pushf_popf_roundtrip plainHost
    { boot [PUSHF, POPF] with
      flags := { clearFlags with carry := true, sign := true, ie := true } }
    hwf (boot_mem _ 0 _ (by decide) rfl) (by decide) (by decide)
  subst e1
  obtain ⟨s2, h3, h4, -⟩ := h2 (by decide)
  refine ⟨hwf, _, s2, h1, by decide, h3, h4, ?_⟩
  have e : execute plainHost { boot [PUSHF, POPF] with
        flags := { clearFlags with carry := true, sign := true, ie := true },
        pc := 1, sp := 1023,
        memory := (boot [PUSHF, POPF]).memory.set 1023 0x29 }
      = Res.ok none { boot [PUSHF, POPF] with
        flags := { clearFlags with carry := true, sign := true, ie := true },
        pc := 2, sp := 1024,
        memory := (boot [PUSHF, POPF]).memory.set 1023 0x29 } := by decide
  have e2 := h3.symm.trans e
  injection e2 with _ e3
  rw [e3]

/-! ## Reserved flag -/

set_option maxRecDepth 20000 in
/-- C16 (the code departs from the claim): from start-up, `PUSH 0x8000` / `POPF` sets flag 7;
the following `PUSHF` / `POPF` returns without a diagnostic and with `sp` restored, but flag 7
is now clear, because `PUSHF` packs flags 0..6 only while `POPF` reads flag 7 from bit 7. -/
theorem flag7_lost_by_pushf_popf :
    (stateAfter (steps plainHost 2 (boot [PUSH_imm16, 0x00, 0x80, POPF, PUSHF, POPF]))).map
      (fun s => (s.flags.f7, s.sp)) = some (true, 1023) ∧
    (stateAfter (steps plainHost 4 (boot [PUSH_imm16, 0x00, 0x80, POPF, PUSHF, POPF]))).map
      (fun s => (s.flags.f7, s.sp, s.diag)) = some (false, 1023, []) := by
  decide

/-! ## Immediate and register forms -/

/-- C17: for each of ADD, SUB, AND, OR, XOR, CMP, MUL, DIV the immediate opcode is the
register opcode plus one; and for every state of the C types, register-direct destination `p`
and source register `q` holding `v = lo + 256 * hi`: the step on the register form (`op`,
descriptor `DSa`) and the step on the immediate form (`op + 1`, a descriptor with the same
destination field, immediate bytes `lo`, `hi`, in a memory image `mB` that replaces the
program) both return normally, the register form with `pc` advanced by 2, and the state after
the immediate form equals the state after the register form (all registers and flags) except
for `pc`, which is 2 larger, and the memory image. -/
theorem alu_immediate_matches_register (h : Host) (s : VM) (mB : List Nat)
    (op DSa DSb lo hi : Nat) (p q : Ref)
    (hwfA : s.wf) (hwfB : VM.wf { s with memory := mB })
    (hop : op = ADD_dest_src ∨ op = SUB_dest_src ∨ op = AND_dest_src ∨ op = OR_dest_src ∨
      op = XOR_dest_src ∨ op = CMP_dest_src ∨ op = MUL_dest_src ∨ op = DIV_dest_src)
    (hA0 : s.memory[s.pc]? = some op) (hA1 : s.memory[s.pc + 1]? = some DSa)
    (hB0 : mB[s.pc]? = some (op + 1)) (hB1 : mB[s.pc + 1]? = some DSb)
    (hB2 : mB[s.pc + 2]? = some lo) (hB3 : mB[s.pc + 3]? = some hi)
    (hd : regTable (decodeDS DSa).destReg = some p)
    (hdB : (decodeDS DSb).destReg = (decodeDS DSa).destReg)
    (hr : regTable (decodeDS DSa).srcReg = some q)
    (hv : load16 q s = Res.ok (lo + 256 * hi) s) :
    (ADD_dest_imm16 = ADD_dest_src + 1 ∧ SUB_dest_imm16 = SUB_dest_src + 1 ∧
      AND_dest_imm16 = AND_dest_src + 1 ∧ OR_dest_imm16 = OR_dest_src + 1 ∧
      XOR_dest_imm16 = XOR_dest_src + 1 ∧ CMP_dest_imm16 = CMP_dest_src + 1 ∧
      MUL_dest_imm16 = MUL_dest_src + 1 ∧ DIV_dest_imm16 = DIV_dest_src + 1) ∧
    ∃ tA tB, execute h s = Res.ok none tA ∧
      execute h { s with memory := mB } = Res.ok none tB ∧
      tA.pc = s.pc + 2 ∧ tB = { tA with pc := tA.pc + 2, memory := mB } := by
  refine ⟨by decide, ?_⟩
  have hlo := hwfB.2.1 lo (List.getElem?_mem hB2)
  have hhi := hwfB.2.1 hi (List.getElem?_mem hB3)
  have hw := word_le hlo hhi
  have hB3l := lt_length_of_getElem_some hB3
  have hlenB : mB.length = s.memSize := hwfB.1
  have hms : s.memSize < 65536 := hwfA.2.2.1
  have e1 : (s.pc + 1) % 65536 = s.pc + 1 := by omega
  have e2 : (s.pc + 1 + 1) % 65536 = s.pc + 2 := by omega
  have e3 : (s.pc + 2 + 1) % 65536 = s.pc + 3 := by omega
  have e4 : (s.pc + 3 + 1) % 65536 = s.pc + 4 := by omega
  have hgA : ∀ t, GetDestination DSa t = Res.ok (some p) t := fun t => by
    rw [GetDestination_reg DSa t (regTable_lt hd), hd]
  have hgB : ∀ t, GetDestination DSb t = Res.ok (some p) t := fun t => by
    rw [GetDestination_reg DSb t (by rw [hdB]; exact regTable_lt hd), hdB, hd]
  have hsrc : ∀ t, GetSource DSa t = load16 q t := fun t => GetSource_reg DSa q t hr
  have hvA := load16_reg_reloc hr s (lo + 256 * hi) (s.pc + 2) s.memory hv
  obtain ⟨t1, ht1, hpc1, hrel⟩ := alu_reg_reloc op (decodeDS DSa).destReg (lo + 256 * hi) p hd
    { s with pc := s.pc + 2 }
  have hrelB := hrel (s.pc + 4) mB
  simp only [] at hvA ht1 hrelB hpc1
  have hfA : fByte s = Res.ok op { s with pc := s.pc + 1 } := by
    simp [fByte, bind_run, getVM, modifyVM, rd, hA0, e1]
  have hfB : fByte { s with memory := mB } = Res.ok (op + 1) { s with memory := mB, pc := s.pc + 1 } := by
    simp [fByte, bind_run, getVM, modifyVM, rd, hB0, e1]
  refine ⟨t1, { t1 with pc := s.pc + 4, memory := mB }, ?_, ?_, hpc1, ?_⟩
  · unfold execute
    rw [bind_run, hfA]
    rcases hop with rfl | rfl | rfl | rfl | rfl | rfl | rfl | rfl <;>
      simp [bind_run, pure_run, ite_run, fByte, getVM, modifyVM, rd, hA1, e2,
        hgA, hsrc, hvA, ht1]
  · unfold execute
    rw [bind_run, hfB]
    rcases hop with rfl | rfl | rfl | rfl | rfl | rfl | rfl | rfl <;>
      simp [bind_run, pure_run, ite_run, fByte, fWord, getVM, modifyVM, rd, hB1,
        hB2, hB3, e2, e3, e4, hgB, hw, hrelB, ADD_dest_src, SUB_dest_src, AND_dest_src,
        OR_dest_src, XOR_dest_src, CMP_dest_src, MUL_dest_src, DIV_dest_src]
  · rw [hpc1]

set_option maxRecDepth 20000 in
/-- Witness for C17: `ADD r0, r1` against `ADD r0, 5` with `r0 = 7` and `r1 = 5`. -/
theorem alu_immediate_matches_register_witness :
    VM.wf { boot [ADD_dest_src, 0x01] with r0 := 7, r1 := 5 } ∧
    ∃ tA tB,
      execute plainHost { boot [ADD_dest_src, 0x01] with r0 := 7, r1 := 5 } = Res.ok none tA ∧
      execute plainHost { boot [ADD_dest_src, 0x01] with
          r0 := 7, r1 := 5, memory := (boot [ADD_dest_imm16, 0x00, 0x05, 0x00]).memory }
        = Res.ok none tB ∧
      tA.pc = 2 ∧
      tB = { tA with pc := tA.pc + 2, memory := (boot [ADD_dest_imm16, 0x00, 0x05, 0x00]).memory } :=
  have hwfA : VM.wf { boot [ADD_dest_src, 0x01] with r0 := 7, r1 := 5 } :=
    have w := boot_wf [ADD_dest_src, 0x01] (by decide) (by decide)
    ⟨w.1, w.2.1, by decide⟩
  have hwfB : VM.wf { boot [ADD_dest_src, 0x01] with
      r0 := 7, r1 := 5, memory := (boot [ADD_dest_imm16, 0x00, 0x05, 0x00]).memory } :=
    have w := boot_wf [ADD_dest_imm16, 0x00, 0x05, 0x00] (by decide) (by decide)
    ⟨w.1, w.2.1, by decide⟩
  ⟨hwfA,
   (alu_immediate_matches_register plainHost
      { boot [ADD_dest_src, 0x01] with r0 := 7, r1 := 5 }
      (boot [ADD_dest_imm16, 0x00, 0x05, 0x00]).memory
      ADD_dest_src 0x01 0x00 0x05 0x00 Ref.r0 Ref.r1 hwfA hwfB (Or.inl rfl)
      (boot_mem _ 0 _ (by decide) rfl) (boot_mem _ 1 _ (by decide) rfl)
      (boot_mem _ 0 _ (by decide) rfl) (boot_mem _ 1 _ (by decide) rfl)
      (boot_mem _ 2 _ (by decide) rfl) (boot_mem _ 3 _ (by decide) rfl)
      (by decide) (by decide) (by decide) (by decide)).2⟩

/-! ## Offset operands -/

/-- C18: for every state of the C types and descriptor byte: 0xFF as a signed 8-bit value is
-1; with destination field 7 (resp. 8) and an offset byte `o` at `pc`, `GetDestination` returns
normally with `pc` advanced by exactly 1, and whenever `bp + (int8) o` (resp. `sp + (int8) o`)
is an address `a < memSize` the reference it returns is to `memory[a]`; with destination field
0..6 it returns the register of that index and leaves the state, `pc` included, unchanged; with
destination field 9 or 10 it returns normally with `pc` unchanged. -/
theorem GetDestination_offset_forms (s : VM) (DSb : Nat) (hwf : s.wf) :
    i8 0xFF = -1 ∧
    ((decodeDS DSb).destReg = 7 → ∀ o, s.memory[s.pc]? = some o →
      (∃ p s1, GetDestination DSb s = Res.ok p s1 ∧ s1.pc = s.pc + 1) ∧
      ∀ a : Nat, (a : Int) = (s.bp : Int) + i8 o → a < s.memSize →
        GetDestination DSb s = Res.ok (some (Ref.mem a)) { s with pc := s.pc + 1 }) ∧
    ((decodeDS DSb).destReg = 8 → ∀ o, s.memory[s.pc]? = some o →
      (∃ p s1, GetDestination DSb s = Res.ok p s1 ∧ s1.pc = s.pc + 1) ∧
      ∀ a : Nat, (a : Int) = (s.sp : Int) + i8 o → a < s.memSize →
        GetDestination DSb s = Res.ok (some (Ref.mem a)) { s with pc := s.pc + 1 }) ∧
    ((decodeDS DSb).destReg ≤ 6 →
      GetDestination DSb s = Res.ok (regTable (decodeDS DSb).destReg) s) ∧
    ((decodeDS DSb).destReg = 9 ∨ (decodeDS DSb).destReg = 10 →
      ∃ p s1, GetDestination DSb s = Res.ok p s1 ∧ s1.pc = s.pc) := by
  obtain ⟨hlen, -, hms, -, hpc, -⟩ := hwf
  refine ⟨by decide, ?_, ?_, ?_, ?_⟩
  · intro h7 o ho
    have h0 := lt_length_of_getElem_some ho
    have e1 : (s.pc + 1) % 65536 = s.pc + 1 := by omega
    constructor
    · by_cases hc : (s.bp : Int) + i8 o > (s.memSize : Int) ∨ (s.bp : Int) + i8 o < 0
      · simp [GetDestination, h7, bind_run, pure_run, ite_run, fByte, getVM, modifyVM, rd, ho, e1,
          RegOffset, hc, vm_exception]
        exact ⟨_, _, ⟨rfl, rfl⟩, rfl⟩
      · simp [GetDestination, h7, bind_run, pure_run, ite_run, fByte, getVM, modifyVM, rd, ho, e1,
          RegOffset, hc]
        exact ⟨_, _, ⟨rfl, rfl⟩, rfl⟩
    · intro a ha hlt
      have hc : ¬ ((s.bp : Int) + i8 o > (s.memSize : Int) ∨ (s.bp : Int) + i8 o < 0) := by
        omega
      have ht : ((s.bp : Int) + i8 o).toNat = a := by omega
      simp [GetDestination, h7, bind_run, pure_run, ite_run, fByte, getVM, modifyVM, rd, ho, e1,
        RegOffset, hc, ht]
  · intro h8 o ho
    have h0 := lt_length_of_getElem_some ho
    have e1 : (s.pc + 1) % 65536 = s.pc + 1 := by omega
    constructor
    · by_cases hc : (s.sp : Int) + i8 o > (s.memSize : Int) ∨ (s.sp : Int) + i8 o < 0
      · simp [GetDestination, h8, bind_run, pure_run, ite_run, fByte, getVM, modifyVM, rd, ho, e1,
          RegOffset, hc, vm_exception]
        exact ⟨_, _, ⟨rfl, rfl⟩, rfl⟩
      · simp [GetDestination, h8, bind_run, pure_run, ite_run, fByte, getVM, modifyVM, rd, ho, e1,
          RegOffset, hc]
        exact ⟨_, _, ⟨rfl, rfl⟩, rfl⟩
    · intro a ha hlt
      have hc : ¬ ((s.sp : Int) + i8 o > (s.memSize : Int) ∨ (s.sp : Int) + i8 o < 0) := by
        omega
      have ht : ((s.sp : Int) + i8 o).toNat = a := by omega
      simp [GetDestination, h8, bind_run, pure_run, ite_run, fByte, getVM, modifyVM, rd, ho, e1,
        RegOffset, hc, ht]
  · intro h6
    exact GetDestination_reg DSb s (by omega)
  · intro h9
    have n3 : ¬ ((s.r3 : Int) < 0) := by omega
    have n4 : ¬ ((s.r4 : Int) < 0) := by omega
    rcases h9 with h9 | h9
    · by_cases hc : s.memSize < s.r3
      · simp [GetDestination, h9, bind_run, pure_run, ite_run, getVM, hc, vm_exception]
        exact ⟨_, _, ⟨rfl, rfl⟩, rfl⟩
      · simp [GetDestination, h9, bind_run, pure_run, ite_run, getVM, hc, n3]
        exact ⟨_, _, ⟨rfl, rfl⟩, rfl⟩
    · by_cases hc : s.memSize < s.r4
      · simp [GetDestination, h9, bind_run, pure_run, ite_run, getVM, hc, vm_exception]
        exact ⟨_, _, ⟨rfl, rfl⟩, rfl⟩
      · simp [GetDestination, h9, bind_run, pure_run, ite_run, getVM, hc, n4]
        exact ⟨_, _, ⟨rfl, rfl⟩, rfl⟩

/-- Witness for C18: descriptor 0x80 (`sp + offset`) with offset byte 0xFF after start-up
resolves to `memory[1023]` and advances `pc` to 1. -/
theorem GetDestination_offset_forms_witness :
    (boot [0xFF]).wf ∧ (decodeDS 0x80).destReg = 8 ∧
    GetDestination 0x80 (boot [0xFF])
      = Res.ok (some (Ref.mem 1023)) { boot [0xFF] with pc := 1 } :=
  ⟨boot_wf [0xFF] (by decide) (by decide), by decide,
   ((GetDestination_offset_forms (boot [0xFF]) 0x80
      (boot_wf [0xFF] (by decide) (by decide))).2.2.1 (by decide) 0xFF
      (boot_mem _ 0 _ (by decide) rfl)).2 1023 (by decide) (by decide)⟩

/-! ## Operand resolution -/

set_option maxRecDepth 20000 in
/-- C19 (the code departs from the claim): the bounds tests are `> memSize`, so an address
equal to `memSize` is accepted. With `r3 = memSize = 1024` a destination field of 9, and with
`bp = 1024` and offset byte 0 a destination field of 7, yield a reference to `memory[1024]`,
one past the last byte, and no diagnostic is raised. -/
theorem GetDestination_accepts_memSize :
    (boot []).memSize = 1024 ∧
    GetDestination 0x90 { boot [] with r3 := 1024 }
      = Res.ok (some (Ref.mem 1024)) { boot [] with r3 := 1024 } ∧
    GetDestination 0x70 { boot [0x00] with bp := 1024 }
      = Res.ok (some (Ref.mem 1024)) { boot [0x00] with bp := 1024, pc := 1 } := by
  decide

set_option maxRecDepth 20000 in
/-- C20 (the code departs from the claim): from start-up the program `LD r3, 0x100` /
`LD r0, 0x1234` / `LD [r3], r0` / `LD r1, [r3]` runs without a diagnostic; after the third
step the two bytes at 0x100 hold 0x1234, and after the fourth `r1` is 0x34, the low byte only:
`GetSource` reads a memory operand as a single byte. -/
theorem memory_source_reads_one_byte :
    (stateAfter (steps plainHost 3 (boot [LD_dest_imm16, 0x30, 0x00, 0x01,
        LD_dest_imm16, 0x00, 0x34, 0x12, LD_dest_src, 0x90, LD_dest_src, 0x19]))).map
      (fun s => (s.memory.get? 0x100, s.memory.get? 0x101)) = some (some 0x34, some 0x12) ∧
    (stateAfter (steps plainHost 4 (boot [LD_dest_imm16, 0x30, 0x00, 0x01,
        LD_dest_imm16, 0x00, 0x34, 0x12, LD_dest_src, 0x90, LD_dest_src, 0x19]))).map
      (fun s => (s.r0, s.r1, s.r3, s.diag)) = some (0x1234, 0x34, 0x100, []) := by
  decide

/-! ## Unresolved operands -/

set_option maxRecDepth 20000 in
/-- C21 (the code departs from the claim): from start-up (`bp = 0`) with offset byte 0xFF the
address `bp - 1` is out of bounds; `RegOffset` raises the out-of-bounds WARNING and returns the
null pointer, and `GetSource` with source field 7 dereferences it (`*RegOffset(...)`), which is
undefined behaviour, so the step `LD r0, [bp-1]` does not complete. With source field 9 and
`r3 = 2000` the same function raises its WARNING and returns 0 to the caller. -/
theorem GetSource_offset_null_deref :
    RegOffset false (i8 0xFF) { boot [0xFF] with pc := 1 }
      = Res.ok none { boot [0xFF] with pc := 1, diag := [(ERR_OOB_OFF, EXC_WARNING)] } ∧
    GetSource 0x07 (boot [0xFF]) = Res.ub ∧
    execute plainHost (boot [LD_dest_src, 0x07, 0xFF]) = Res.ub ∧
    GetSource 0x09 { boot [] with r3 := 2000 }
      = Res.ok 0 { boot [] with r3 := 2000, diag := [(ERR_OOB_REG, EXC_WARNING)] } := by
  refine ⟨?_, ?_, ?_, ?_⟩ <;> decide

set_option maxRecDepth 20000 in
/-- C22 (the code departs from the claim): from start-up the five-byte instruction
`LD [bp-1], 0x1234` (02 70 FF 34 12) has an out-of-bounds destination; the step raises the two
WARNINGs and writes nothing, but it returns before the immediate is fetched, so `pc` is 3, at
the immediate, not 5; the next step decodes the byte 0x34 as an opcode (`SETL`) and stores
to `r0`. -/
theorem ld_imm16_null_dest_leaves_immediate :
    [LD_dest_imm16, 0x70, 0xFF, 0x34, 0x12].length = 5 ∧
    execute plainHost (boot [LD_dest_imm16, 0x70, 0xFF, 0x34, 0x12])
      = Res.ok none { boot [LD_dest_imm16, 0x70, 0xFF, 0x34, 0x12] with
          pc := 3, diag := [(ERR_OOB_OFF, EXC_WARNING), (ERR_NULL_PTR, EXC_WARNING)] } ∧
    (stateAfter (steps plainHost 2
        { boot [LD_dest_imm16, 0x70, 0xFF, 0x34, 0x12] with r0 := 7 })).map
      (fun s => (s.pc, s.r0)) = some (4, 0) := by
  refine ⟨?_, ?_, ?_⟩ <;> decide

/-! ## Memory management calls -/

/-- C23: for every state of the C types with a VMMALLOC opcode at `pc` and immediate
`n = lo + 256 * hi`: if `memSize + n > 0xFFFF` the step returns the input state changed only in
`pc` (advanced by 3), the zero flag (set) and one `ERR_MALLOC` WARNING, so `memSize`, `sp` and
memory are unchanged; otherwise, when the allocator grants the request, the step returns with
`memSize` equal to `memSize + n` exactly, every byte below the old `memSize` unchanged, `sp`
unchanged, no diagnostic, and the zero flag clear. -/
theorem vmmalloc_step (h : Host) (s : VM) (lo hi : Nat) (hwf : s.wf)
    (hop : s.memory[s.pc]? = some VMMALLOC) (hlo : s.memory[s.pc + 1]? = some lo)
    (hhi : s.memory[s.pc + 2]? = some hi) :
    (s.memSize + (lo + 256 * hi) > 0xFFFF →
      execute h s = Res.ok none { s with
        pc := s.pc + 3, flags := { s.flags with zero := true },
        diag := s.diag ++ [(ERR_MALLOC, EXC_WARNING)] }) ∧
    (s.memSize + (lo + 256 * hi) ≤ 0xFFFF →
      h.allocFails (s.memSize + (lo + 256 * hi)) = false →
      ∃ s1, execute h s = Res.ok none s1 ∧ s1.memSize = s.memSize + (lo + 256 * hi) ∧
        s1.memory.length = s1.memSize ∧
        (∀ i, i < s.memSize → s1.memory[i]? = s.memory[i]?) ∧
        s1.sp = s.sp ∧ s1.diag = s.diag ∧ s1.flags.zero = false) := by
  have hf := fByte_run s VMMALLOC hwf.1 hwf.2.2.1 hop
  have hw := fWord_run { s with pc := s.pc + 1 } lo hi hwf.1 hwf.2.2.1 (byte_lt hwf hlo)
    (byte_lt hwf hhi) hlo hhi
  simp only [] at hw
  constructor
  · intro hbig
    have hm := vm_malloc_reject h { s with pc := s.pc + 1 + 2 } (lo + 256 * hi) hbig
    unfold execute
    rw [bind_run, hf]
    simp [bind_run, pure_run, modifyVM, hw, hypervisorCall, hm, toBool]
  · intro hfit hal
    have hm := vm_malloc_grant h { s with pc := s.pc + 1 + 2 } (lo + 256 * hi) hfit hal
    refine ⟨{ s with
      pc := s.pc + 1 + 2,
      memory := reallocBuf h s.memory (s.memSize + (lo + 256 * hi)),
      memSize := s.memSize + (lo + 256 * hi),
      flags := { s.flags with zero := false } }, ?_, rfl, ?_, ?_, rfl, rfl, rfl⟩
    · unfold execute
      rw [bind_run, hf]
      simp [bind_run, pure_run, modifyVM, hw, hypervisorCall, hm, toBool]
    · exact length_reallocBuf h _ _
    · intro i hi
      exact reallocBuf_get h s.memory _ i (by omega) (by rw [hwf.1]; exact hi)

set_option maxRecDepth 20000 in
/-- Witness for C23: `VMMALLOC 256` at address 0 after start-up. -/
theorem vmmalloc_step_witness :
    (boot [VMMALLOC, 0x00, 0x01]).wf ∧
    ∃ s1, execute plainHost (boot [VMMALLOC, 0x00, 0x01]) = Res.ok none s1 ∧
      s1.memSize = 1280 ∧ s1.memory.length = s1.memSize ∧
      (∀ i, i < 1024 → s1.memory[i]? = (boot [VMMALLOC, 0x00, 0x01]).memory[i]?) ∧
      s1.sp = 1024 ∧ s1.diag = [] ∧ s1.flags.zero = false :=
  ⟨boot_wf [VMMALLOC, 0x00, 0x01] (by decide) (by decide),
   (vmmalloc_step plainHost (boot [VMMALLOC, 0x00, 0x01]) 0x00 0x01
      (boot_wf [VMMALLOC, 0x00, 0x01] (by decide) (by decide))
      (boot_mem _ 0 _ (by decide) rfl) (boot_mem _ 1 _ (by decide) rfl)
      (boot_mem _ 2 _ (by decide) rfl)).2 (by decide) rfl⟩

/-- C24: for every state of the C types with a VMFREE opcode at `pc` and immediate
`n = lo + 256 * hi`: if `n ≥ memSize` the step returns the input state changed only in `pc`
(advanced by 3), the zero flag (set) and one `ERR_FREE` WARNING, so `memSize`, `sp` and memory
are unchanged; otherwise, when the allocator grants the request, the step returns with
`memSize` equal to `memSize - n`, every byte below the new `memSize` unchanged, `sp` equal to
`min sp (memSize - n)`, no diagnostic, and the zero flag clear. -/
theorem vmfree_step (h : Host) (s : VM) (lo hi : Nat) (hwf : s.wf)
    (hop : s.memory[s.pc]? = some VMFREE) (hlo : s.memory[s.pc + 1]? = some lo)
    (hhi : s.memory[s.pc + 2]? = some hi) :
    (lo + 256 * hi ≥ s.memSize →
      execute h s = Res.ok none { s with
        pc := s.pc + 3, flags := { s.flags with zero := true },
        diag := s.diag ++ [(ERR_FREE, EXC_WARNING)] }) ∧
    (lo + 256 * hi < s.memSize →
      h.allocFails (s.memSize - (lo + 256 * hi)) = false →
      ∃ s1, execute h s = Res.ok none s1 ∧ s1.memSize = s.memSize - (lo + 256 * hi) ∧
        s1.memory.length = s1.memSize ∧
        (∀ i, i < s.memSize - (lo + 256 * hi) → s1.memory[i]? = s.memory[i]?) ∧
        s1.sp = min s.sp (s.memSize - (lo + 256 * hi)) ∧ s1.diag = s.diag ∧
        s1.flags.zero = false) := by
  have hf := fByte_run s VMFREE hwf.1 hwf.2.2.1 hop
  have hw := fWord_run { s with pc := s.pc + 1 } lo hi hwf.1 hwf.2.2.1 (byte_lt hwf hlo)
    (byte_lt hwf hhi) hlo hhi
  simp only [] at hw
  constructor
  · intro hbig
    have hm := vm_free_reject h { s with pc := s.pc + 1 + 2 } (lo + 256 * hi) hbig
    unfold execute
    rw [bind_run, hf]
    simp [bind_run, pure_run, modifyVM, hw, hypervisorCall, hm, toBool]
  · intro hlt hal
    have hm := vm_free_grant h { s with pc := s.pc + 1 + 2 } (lo + 256 * hi) hwf.2.2.1 hlt hal
    refine ⟨{ s with
      pc := s.pc + 1 + 2,
      memory := reallocBuf h s.memory (s.memSize - (lo + 256 * hi)),
      memSize := s.memSize - (lo + 256 * hi),
      sp := min s.sp (s.memSize - (lo + 256 * hi)),
      flags := { s.flags with zero := false } }, ?_, rfl, ?_, ?_, rfl, rfl, rfl⟩
    · unfold execute
      rw [bind_run, hf]
      simp [bind_run, pure_run, modifyVM, hw, hypervisorCall, hm, toBool]
    · exact length_reallocBuf h _ _
    · intro i hi
      exact reallocBuf_get h s.memory _ i hi (by rw [hwf.1]; omega)

set_option maxRecDepth 20000 in
/-- Witness for C24: `VMFREE 512` at address 0 after start-up lowers `sp` from 1024 to 512. -/
theorem vmfree_step_witness :
    (boot [VMFREE, 0x00, 0x02]).wf ∧
    ∃ s1, execute plainHost (boot [VMFREE, 0x00, 0x02]) = Res.ok none s1 ∧
      s1.memSize = 512 ∧ s1.memory.length = s1.memSize ∧
      (∀ i, i < 512 → s1.memory[i]? = (boot [VMFREE, 0x00, 0x02]).memory[i]?) ∧
      s1.sp = 512 ∧ s1.diag = [] ∧ s1.flags.zero = false :=
  ⟨boot_wf [VMFREE, 0x00, 0x02] (by decide) (by decide),
   (vmfree_step plainHost (boot [VMFREE, 0x00, 0x02]) 0x00 0x02
      (boot_wf [VMFREE, 0x00, 0x02] (by decide) (by decide))
      (boot_mem _ 0 _ (by decide) rfl) (boot_mem _ 1 _ (by decide) rfl)
      (boot_mem _ 2 _ (by decide) rfl)).2 (by decide) rfl⟩

/-- C25: for every state of the C types with `memSize > 0` (as `vm_init` and `vm_free` keep
it) and every `N` with `memSize + N ≤ 0xFFFF`, when the allocator grants the two requests,
`vm_malloc N` followed by `vm_free N` both return 0 (success), `memSize` is back at its original
value, and the memory, so every byte below the original `memSize`, is as it was. -/
theorem malloc_free_roundtrip (h : Host) (s : VM) (N : Nat) (hwf : s.wf) (hpos : 0 < s.memSize)
    (hfit : s.memSize + N ≤ 0xFFFF) (hal1 : h.allocFails (s.memSize + N) = false)
    (hal2 : h.allocFails s.memSize = false) :
    ∃ s1 s2, vm_malloc h N s = Res.ok 0 s1 ∧ vm_free h N s1 = Res.ok 0 s2 ∧
      s2.memSize = s.memSize ∧ s2.memory = s.memory ∧
      (∀ i, i < s.memSize → s2.memory[i]? = s.memory[i]?) := by
  have e : s.memSize + N - N = s.memSize := by omega
  have hm := vm_malloc_grant h s N hfit hal1
  have hf := vm_free_grant h { s with
      memory := reallocBuf h s.memory (s.memSize + N), memSize := s.memSize + N } N
    (by simp only []; omega) (by simp only []; omega) (by simp only [e]; exact hal2)
  simp only [e] at hf
  have hmem : reallocBuf h (reallocBuf h s.memory (s.memSize + N)) s.memSize = s.memory := by
    have hl := hwf.1
    simp [reallocBuf, hl, List.take_append_eq_append_take, List.take_take]
  refine ⟨_, _, hm, hf, rfl, hmem, ?_⟩
  intro i _
  simp only [hmem]

set_option maxRecDepth 20000 in
/-- Witness for C25: growing the start-up memory by 256 bytes and shrinking it again. -/
theorem malloc_free_roundtrip_witness :
    (boot [NOP]).wf ∧
    ∃ s1 s2, vm_malloc plainHost 256 (boot [NOP]) = Res.ok 0 s1 ∧
      vm_free plainHost 256 s1 = Res.ok 0 s2 ∧
      s2.memSize = 1024 ∧ s2.memory = (boot [NOP]).memory ∧
      (∀ i, i < 1024 → s2.memory[i]? = (boot [NOP]).memory[i]?) :=
  ⟨boot_wf [NOP] (by decide) (by decide),
   malloc_free_roundtrip plainHost (boot [NOP]) 256 (boot_wf [NOP] (by decide) (by decide))
    (by decide) (by decide) rfl rfl⟩

/-! ## Restart -/

set_option maxRecDepth 20000 in
/-- C26 (counterexample to the claim as stated): from start-up with the one-byte program
`VMRESTART` loaded, where `memSize` is the default 1024, `vm_restart` returns with the byte
0xd1 still at address 0: the memory is re-allocated (and so zeroed) only when `memSize` differs
from the default. The same holds for the `VMRESTART` step. -/
theorem vm_restart_keeps_default_memory :
    (stateAfter (vm_restart plainHost (boot [VMRESTART]))).map
      (fun s => (s.memSize, s.memory.get? 0)) = some (1024, some 0xd1) ∧
    (stateAfter (execute plainHost (boot [VMRESTART]))).map
      (fun s => (s.pc, s.memSize, s.memory.get? 0)) = some (0, 1024, some 0xd1) := by
  refine ⟨?_, ?_⟩ <;> decide

/-- C26 (amended): for every prior state, when the allocator grants the request made if
`memSize` is not the default, `vm_restart` returns 0 with all registers `r0..r4`, all flags,
`pc`, `bp` and `iv` zero and `sp = memSize = 1024`; the memory is 1024 zero bytes if the prior
`memSize` was not 1024, and is left as it was if the prior `memSize` was 1024. -/
theorem vm_restart_state (h : Host) (s : VM)
    (hal : s.memSize ≠ DEFAULT_MEMORY_SIZE → h.allocFails DEFAULT_MEMORY_SIZE = false) :
    vm_restart h s = Res.ok 0 { s with
      flags := clearFlags, r0 := 0, r1 := 0, r2 := 0, r3 := 0, r4 := 0,
      sp := 1024, bp := 0, pc := 0, iv := 0, memSize := 1024,
      memory := if s.memSize = 1024 then s.memory else List.replicate 1024 0 } := by
  by_cases hm : s.memSize = DEFAULT_MEMORY_SIZE
  · have hm1 : s.memSize = 1024 := hm
    simp only [vm_restart, bind_run, pure_run, ite_run, getVM, modifyVM, hm1, ne_eq,
      not_true_eq_false, if_false, if_true, clearFlags]
  · have hm1 : ¬ s.memSize = 1024 := hm
    simp only [vm_restart, bind_run, pure_run, ite_run, getVM, modifyVM, hm1, ne_eq,
      not_false_eq_true, if_false, if_true, hal hm, clearFlags, Bool.false_eq_true]

set_option maxRecDepth 20000 in
/-- Witness for C26: restart from a state whose memory had been grown to 1280 bytes holding
the program `VMRESTART`. -/
theorem vm_restart_state_witness :
    (stateAfter (vm_restart plainHost
        { boot [VMRESTART] with
            memSize := 1280, r0 := 9,
            memory := (boot [VMRESTART]).memory ++ List.replicate 256 7 })).map
      (fun s => (s.r0, s.sp, s.memSize, s.memory.length, s.memory.get? 0, s.flags))
      = some (0, 1024, 1024, 1024, some 0, clearFlags) := by
  rw [vm_restart_state plainHost
        { boot [VMRESTART] with
            memSize := 1280, r0 := 9,
            memory := (boot [VMRESTART]).memory ++ List.replicate 256 7 }
        (fun _ => rfl)]
  rfl

/-! ## Unassigned opcodes -/

/-- C27: for every state of the C types whose byte at `pc` is not a value of the `ISA`
enumeration and has no handler of the host standing under it (0xCF is such a byte), `execute`
returns -1 and the state it leaves is the input state with `pc` advanced by 1 and exactly one
diagnostic added, the invalid-opcode WARNING; `r0..r4`, `sp`, `bp`, `iv`, the flags and the
memory are unchanged. -/
theorem invalid_opcode_step (h : Host) (s : VM) (op : Nat) (hwf : s.wf)
    (hop : s.memory[s.pc]? = some op) (hno : op ∉ isaOpcodes) (hext : h.ext op = none) :
    execute h s = Res.ok (some (-1)) { s with
      pc := s.pc + 1, diag := s.diag ++ [(ERR_INVALID_OPCODE, EXC_WARNING)] } := by
  have hf := fByte_run s op hwf.1 hwf.2.2.1 hop
  simp [isaOpcodes] at hno
  unfold execute
  rw [bind_run, hf]
  simp [hno, hext, bind_run, pure_run, vm_exception]

/-- Witness for C27: the byte 0xCF at address 0 after start-up. -/
theorem invalid_opcode_step_witness :
    (boot [0xCF]).wf ∧ 0xCF ∉ isaOpcodes ∧
    execute plainHost (boot [0xCF]) = Res.ok (some (-1)) { boot [0xCF] with
      pc := 1, diag := [(ERR_INVALID_OPCODE, EXC_WARNING)] } :=
  ⟨boot_wf [0xCF] (by decide) (by decide), by decide,
   invalid_opcode_step plainHost (boot [0xCF]) 0xCF (boot_wf [0xCF] (by decide) (by decide))
    (boot_mem _ 0 _ (by decide) rfl) (by decide) rfl⟩

/-! ## End-to-end scenario -/

/-- C28: for all 16-bit `a` and `b` and every state of the C types with `pc = 0` whose memory
starts with the bytes 02 00 a_lo a_hi, 02 10 b_lo b_hi, 06 01, FE (the state after start-up
with that image among them), four `execute` steps return normally, raise no diagnostic, leave
memory and `sp` as they were, and end with `r0 = (a + b) mod 2^16`, `r1 = b`, the zero flag set
exactly when `(a + b) mod 2^16 = 0`, the halt flag set and `pc = 11`. -/
theorem sum_program_run (h : Host) (s : VM) (a b : Nat) (ha : a < 65536) (hb : b < 65536)
    (hwf : s.wf) (hpc : s.pc = 0)
    (hm : ∀ i x : Nat, (sumProgram a b)[i]? = some x → s.memory[i]? = some x) :
    ∃ s4, steps h 4 s = Res.ok none s4 ∧ s4.diag = s.diag ∧ s4.memory = s.memory ∧
      s4.sp = s.sp ∧ s4.r0 = (a + b) % 65536 ∧ s4.r1 = b ∧
      (s4.flags.zero = true ↔ (a + b) % 65536 = 0) ∧ s4.flags.halt = true ∧ s4.pc = 11 :=
  ⟨_, sum_run h s a b ha hb hwf hpc hm, rfl, rfl, rfl, rfl, rfl, by simp [flagsFor], rfl, rfl⟩

/-- Witness for C28: `a = 5`, `b = 3` from the state after start-up: `r0 = 8`, zero flag
clear, halt flag set. -/
theorem sum_program_run_witness :
    (boot (sumProgram 5 3)).wf ∧
    ∃ s4, steps plainHost 4 (boot (sumProgram 5 3)) = Res.ok none s4 ∧ s4.diag = [] ∧
      s4.r0 = 8 ∧ s4.r1 = 3 ∧ s4.flags.zero = false ∧ s4.flags.halt = true ∧ s4.pc = 11 := by
  have hwf : (boot (sumProgram 5 3)).wf := boot_wf (sumProgram 5 3) (by decide) (by decide)
  obtain ⟨s4, h1, h2, -, -, h5, h6, h7, h8, h9⟩ :=
    sum_program_run plainHost (boot (sumProgram 5 3)) 5 3 (by decide) (by decide) hwf rfl
      (fun i x hx => boot_mem _ i x (by decide) hx)
  refine ⟨hwf, s4, h1, h2, h5, h6, ?_, h8, h9⟩
  cases hz : s4.flags.zero
  · rfl
  · exact absurd (h7.mp hz) (by decide)

/-! ## Assembler -/

set_option maxRecDepth 20000 in
/-- C29 (the code departs from the claim): for `a = 5`, `b = 3` the two passes over
`LD r0, 5` / `LD r1, 3` / `ADD r0, r1` / `HLT` write 02 00 05 00, 02 10 03 00, 06 01 and stop
there: the text of the output file has no `fe`. For a line with one word `assemble_line` writes
the opcode only if it lies in `RET..POPF` or `VMRESTART..VMSTATE`, so for `HLT` (0xfe) nothing
is written, while `current_address` is advanced by the size 1 of the table, to 11. -/
theorem lasm_omits_hlt :
    String.mk ((sumProgram 5 3).flatMap fun b => fmt02x (b : Int)) = "02000500021003000601fe" ∧
    outputOf (lasm_main ["LD r0, 5\n".toList, "LD r1, 3\n".toList, "ADD r0, r1\n".toList,
      "HLT\n".toList]) = some "02000500021003000601" ∧
    assemble_line "HLT\n".toList 2 { labels := [], current_address := 10, output := [] }
      = Run.ok { labels := [], current_address := 11, output := [] } := by
  refine ⟨?_, ?_, ?_⟩ <;> decide

set_option maxRecDepth 20000 in
/-- C30 (the code departs from the claim): for the source `CALL f` / `HLT` / `f:` / `RET`,
pass 1 records the address 4 for `f`, but pass 2 writes only the three bytes 29 04 00 for the
two lines before the label (nothing for `HLT`), so in the output 29 04 00 2a the `RET` that
follows the label is at byte offset 3 while the call operand is 4. Likewise `JMP end` / `NOP` /
`end:` / `HLT` yields the three bytes 20 04 00 with the operand 4. -/
theorem label_address_counts_unwritten_bytes :
    labelsOf (lasm_main ["CALL f\n".toList, "HLT\n".toList, "f:\n".toList, "RET\n".toList])
      = some [("f", 4)] ∧
    outputOf (runPass 2 ["CALL f\n".toList, "HLT\n".toList]
      { labels := [{ name := "f".toList, address := 4 }], current_address := 0, output := [] })
      = some "290400" ∧
    outputOf (lasm_main ["CALL f\n".toList, "HLT\n".toList, "f:\n".toList, "RET\n".toList])
      = some "2904002a" ∧
    labelsOf (lasm_main ["JMP end\n".toList, "NOP\n".toList, "end:\n".toList, "HLT\n".toList])
      = some [("end", 4)] ∧
    outputOf (lasm_main ["JMP end\n".toList, "NOP\n".toList, "end:\n".toList, "HLT\n".toList])
      = some "200400" := by
  refine ⟨?_, ?_, ?_, ?_, ?_⟩ <;> decide

/-! ## Immediate forms in the assembler -/

/-- C31: for LD and every two-operand ALU mnemonic `M` (ADD, SUB, AND, OR, XOR, CMP, MUL,
DIV), every register name `d` (with index `i` among r0, r1, r2, r3, r4, bp, sp) and every
decimal literal `lit` (a non-empty run of digits, of value `n < 65536`), pass 2 on the line
`M d, lit` returns normally and appends to the output exactly four bytes, each as two hex
digits: the opcode of `M` in the table plus one, the descriptor `16 * i`, then `n mod 256` and
`n div 256`; `current_address` advances by 4. -/
theorem assemble_immediate_form (M d lit : List Char) (a : Asm)
    (hM : M ∈ immMnemonics) (hd : d ∈ regNames)
    (hl0 : lit ≠ []) (hld : ∀ c ∈ lit, isdigit c = true) (hll : lit.length < 16)
    (hval : digitsValue 0 lit < 65536) :
    ∃ i, i < 7 ∧ regNames[i]? = some d ∧
      assemble_line (M ++ ' ' :: (d ++ ',' :: ' ' :: (lit ++ ['\n']))) 2 a
        = Run.ok {
            labels := a.labels,
            current_address := (a.current_address + 4) % 65536,
            output := a.output
              ++ (fmt02x ((get_opcode M + 1 : Nat) : Int) ++ fmt02x ((16 * i : Nat) : Int))
              ++ (fmt02x ((digitsValue 0 lit % 256 : Nat) : Int)
                ++ fmt02x ((digitsValue 0 lit / 256 : Nat) : Int)) } := by
  obtain ⟨m1, m2, m3, m4, m5, m6⟩ := immMnemonic_props hM
  obtain ⟨i, hi, hreg, d1, d2, d3, d4⟩ := regName_props hd
  have e : digitsValue 0 lit / 256 % 256 = digitsValue 0 lit / 256 := by omega
  have h := assemble_line_imm M d lit (get_opcode M) i a m1 m2 m3 m4 rfl m5 m6 d1 d2 d3 (d4 0)
    (by omega) hl0 hld hll
  rw [e] at h
  exact ⟨i, hi, hreg, h⟩

set_option maxRecDepth 20000 in
/-- Witness for C31: the line `ADD r1, 300` in pass 2 writes 07 10 2c 01. -/
theorem assemble_immediate_form_witness :
    "ADD".toList ∈ immMnemonics ∧ "r1".toList ∈ regNames ∧ digitsValue 0 "300".toList = 300 ∧
    outputOf (assemble_line "ADD r1, 300\n".toList 2
      { labels := [], current_address := 0, output := [] }) = some "07102c01" := by
  obtain ⟨i, hi, hreg, h⟩ := assemble_immediate_form "ADD".toList "r1".toList "300".toList
    { labels := [], current_address := 0, output := [] } (by decide) (by decide) (by decide)
    (by decide) (by decide) (by decide)
  have h1 : assemble_line "ADD r1, 300\n".toList 2
      { labels := [], current_address := 0, output := [] } = _ := h
  refine ⟨by decide, by decide, by decide, ?_⟩
  rw [h1]
  have hi1 : i = 1 := by
    interval_cases i <;> first | rfl | exact absurd hreg (by decide)
  subst hi1
  decide

/-! ## Register descriptors -/

set_option maxRecDepth 20000 in
set_option maxHeartbeats 2000000 in
/-- C32: for every pair of register names `a`, `b` among r0, r1, r2, r3, r4, bp, sp and every
state: `encode_operand` gives codes `ca`, `cb` (leaving the offset 0), the descriptor byte
`(ca << 4) | cb` decodes with `decodeDS` to the fields `ca`, `cb`, `GetDestination` on it
returns the pointer to register `a`, and `GetSource` on it returns the current value of
register `b`, both leaving the state, `pc` included, unchanged. -/
theorem register_descriptor_roundtrip (a b : List Char) (ha : a ∈ regNames)
    (hb : b ∈ regNames) (s : VM) :
    ∃ ca cb pa pb, encode_operand (some a) 0 = some (ca, 0) ∧
      encode_operand (some b) 0 = some (cb, 0) ∧
      regNamed a = some pa ∧ regNamed b = some pb ∧
      decodeDS (((ca <<< 4) ||| cb) % 256) = { destReg := ca, srcReg := cb } ∧
      GetDestination (((ca <<< 4) ||| cb) % 256) s = Res.ok (some pa) s ∧
      GetSource (((ca <<< 4) ||| cb) % 256) s = Res.ok (regVal pb s) s := by
  simp only [regNames, List.mem_cons, List.mem_singleton, List.not_mem_nil, or_false] at ha hb
  rcases ha with rfl | rfl | rfl | rfl | rfl | rfl | rfl <;>
  rcases hb with rfl | rfl | rfl | rfl | rfl | rfl | rfl <;>
  (refine ⟨_, _, _, _, rfl, rfl, rfl, rfl, by decide, ?_, ?_⟩
   · rw [GetDestination_reg _ s (by decide)]
     rfl
   · exact GetSource_regVal _ _ s rfl)

/-- Witness for C32: destination `r1`, source `bp`, in the state after start-up. -/
theorem register_descriptor_roundtrip_witness :
    "r1".toList ∈ regNames ∧ "bp".toList ∈ regNames ∧
    ∃ ca cb pa pb, encode_operand (some "r1".toList) 0 = some (ca, 0) ∧
      encode_operand (some "bp".toList) 0 = some (cb, 0) ∧
      regNamed "r1".toList = some pa ∧ regNamed "bp".toList = some pb ∧
      decodeDS (((ca <<< 4) ||| cb) % 256) = { destReg := ca, srcReg := cb } ∧
      GetDestination (((ca <<< 4) ||| cb) % 256) (boot []) = Res.ok (some pa) (boot []) ∧
      GetSource (((ca <<< 4) ||| cb) % 256) (boot []) = Res.ok (regVal pb (boot [])) (boot []) :=
  ⟨by decide, by decide,
   register_descriptor_roundtrip "r1".toList "bp".toList (by decide) (by decide) (boot [])⟩

/-! ## Offset bytes -/

set_option maxRecDepth 20000 in
/-- C33 (the code departs from the claim): for `LD r0, [bp+0]` the assembler writes the two
bytes 01 07 and no offset byte, and for `LD [bp+1], [sp+2]`, with two offset operands, the
three bytes 01 78 02 with one offset byte; `genInsOffs` keeps a single `offset` and writes it
only when it is not 0. The engine fetches one offset byte for each field 7 or 8: its step on
01 07 00 ends with `pc = 3` and its step on 01 78 01 fe with `pc = 4`. -/
theorem lasm_offset_byte_missing :
    outputOf (lasm_main ["LD r0, [bp+0]\n".toList]) = some "0107" ∧
    outputOf (lasm_main ["LD [bp+1], [sp+2]\n".toList]) = some "017802" ∧
    pcAfter (execute plainHost (boot [LD_dest_src, 0x07, 0x00])) = some 3 ∧
    pcAfter (execute plainHost (boot [LD_dest_src, 0x78, 0x01, 0xFE])) = some 4 := by
  refine ⟨?_, ?_, ?_, ?_⟩ <;> decide

/-! ## Spelling of register names -/

set_option maxRecDepth 20000 in
/-- C34 (counterexample to the claim as stated): `encode_operand` compares its operand with
the lower-case names only, so `R1` yields code 0 where `r1` yields 1, and `BP` yields 0 where
`bp` yields 5; pass 2 on `ADD BP, r0` writes 06 00, the encoding of `ADD r0, r0`. -/
theorem encode_operand_upper_case :
    encode_operand (some "R1".toList) 0 = some (0, 0) ∧
    encode_operand (some "r1".toList) 0 = some (1, 0) ∧
    encode_operand (some "BP".toList) 0 = some (0, 0) ∧
    encode_operand (some "bp".toList) 0 = some (5, 0) ∧
    outputOf (lasm_main ["ADD BP, r0\n".toList]) = some "0600" := by
  refine ⟨?_, ?_, ?_, ?_, ?_⟩ <;> decide

/-- C34 (amended): operand register names are matched in lower case only: the names r0, r1,
r2, r3, r4, bp, sp yield the codes 0..6, and every operand that is none of these seven
spellings and does not start with `[` (so every spelling with an upper-case letter, such as
`R1` or `BP`) yields the code 0, that of `r0`; the offset is left as it was. -/
theorem encode_operand_names (op : List Char) (off : Int) :
    (∀ i, i < 7 → encode_operand (regNames[i]?) off = some (i, off)) ∧
    (op ∉ regNames → op.head? ≠ some '[' → encode_operand (some op) off = some (0, off)) := by
  constructor
  · intro i hi
    interval_cases i <;> rfl
  · intro hn hb
    simp only [regNames, List.mem_cons, List.mem_singleton, List.not_mem_nil, or_false,
      not_or] at hn
    obtain ⟨h0, h1, h2, h3, h4, h5, h6⟩ := hn
    unfold encode_operand
    simp only [if_neg h0, if_neg h1, if_neg h2, if_neg h3, if_neg h4, if_neg h5, if_neg h6,
      if_neg hb]

/-- Witness for C34: the spelling `R1`. -/
theorem encode_operand_names_witness :
    "R1".toList ∉ regNames ∧ "R1".toList.head? ≠ some '[' ∧
    encode_operand (some "R1".toList) 0 = some (0, 0) :=
  ⟨by decide, by decide, (encode_operand_names "R1".toList 0).2 (by decide) (by decide)⟩

/-! ## Emission address across the passes -/

/-- C35: for every source line and every pair of states with the same `current_address`: if
`assemble_line` returns normally in pass 2 then it returns normally in pass 1 as well
(provided, for a label definition, that the name fits `name[32]` and the table has room) and
leaves the same `current_address`; hence for every source program and every number `k` of
lines, whenever both passes get through the first `k` lines from the same `current_address`,
they arrive at the same `current_address`. -/
theorem address_same_in_both_passes :
    (∀ (line : List Char) (a1 a2 b2 : Asm),
      a1.current_address = a2.current_address →
      (line.get? (line.length - 2) = some ':' →
        line.length - 2 < 32 ∧ a1.labels.length < MAX_LABELS) →
      assemble_line line 2 a2 = Run.ok b2 →
      ∃ b1, assemble_line line 1 a1 = Run.ok b1 ∧
        b1.current_address = b2.current_address) ∧
    (∀ (lines : List (List Char)) (k : Nat) (a1 a2 c1 c2 : Asm),
      a1.current_address = a2.current_address →
      runPass 1 (lines.take k) a1 = Run.ok c1 → runPass 2 (lines.take k) a2 = Run.ok c2 →
      c1.current_address = c2.current_address) :=
  ⟨assemble_line_addr, fun lines k => runPass_addr (lines.take k)⟩

set_option maxRecDepth 20000 in
/-- Witness for C35: the line `LD [bp-3], 300` advances the address from 0 to 5 in both
passes, and after `CALL f` / `HLT` both passes stand at address 4. -/
theorem address_same_in_both_passes_witness :
    assemble_line "LD [bp-3], 300\n".toList 2 { labels := [], current_address := 0, output := [] }
      = Run.ok { labels := [], current_address := 5, output := "0270fd2c01".toList } ∧
    (∃ b1, assemble_line "LD [bp-3], 300\n".toList 1
        { labels := [], current_address := 0, output := [] } = Run.ok b1 ∧
      b1.current_address = 5) ∧
    ∀ c1 c2, runPass 1 (["CALL f\n".toList, "HLT\n".toList, "f:\n".toList].take 2)
        { labels := [], current_address := 0, output := [] } = Run.ok c1 →
      runPass 2 (["CALL f\n".toList, "HLT\n".toList, "f:\n".toList].take 2)
        { labels := [{ name := "f".toList, address := 4 }], current_address := 0,
          output := [] } = Run.ok c2 →
      c1.current_address = c2.current_address :=
  ⟨by decide,
   address_same_in_both_passes.1 "LD [bp-3], 300\n".toList
     { labels := [], current_address := 0, output := [] }
     { labels := [], current_address := 0, output := [] }
     { labels := [], current_address := 5, output := "0270fd2c01".toList }
     rfl (fun hc => absurd hc (by decide)) (by decide),
   fun c1 c2 => address_same_in_both_passes.2 _ 2 _ _ c1 c2 rfl⟩

/-! ## Set on condition -/

set_option maxRecDepth 20000 in
/-- C36 (the code departs from the claim): with the zero flag set, the step on `SETZ r1`
(32 10) stores 1 into `r0`, leaves `r1` at 0 and ends with `pc = 1`, at the descriptor byte:
`execute` passes `handleSET` its local `DSb`, still 0, without fetching the descriptor. -/
theorem setcc_ignores_descriptor :
    (stateAfter (execute plainHost
        { boot [SETZ_dest, 0x10] with flags := { clearFlags with zero := true } })).map
      (fun s => (s.r0, s.r1, s.pc, s.diag)) = some (1, 0, 1, []) := by
  decide

/-! ## Size table and decoder -/

set_option maxRecDepth 20000 in
/-- C37 (the code departs from the claim): the table of the assembler records 2 bytes for
`SETZ` and 4 for `LEA`, while one `execute` step on `SETZ r0` (32 00) advances `pc` by 1 and
one step on `LEA r0, 2` (fb 00 02) advances `pc` by 3. For `INC` (size 2) and `VMMALLOC`
(size 3) the two agree. -/
theorem size_table_disagrees_with_decoder :
    (get_opcode "SETZ".toList, get_opcode_size "SETZ".toList) = (SETZ_dest, 2) ∧
    pcAfter (execute plainHost (boot [SETZ_dest, 0x00])) = some 1 ∧
    (get_opcode "LEA".toList, get_opcode_size "LEA".toList) = (LEA_dest_bpoff, 4) ∧
    pcAfter (execute plainHost (boot [LEA_dest_bpoff, 0x00, 0x02, 0x00])) = some 3 ∧
    (get_opcode "INC".toList, get_opcode_size "INC".toList) = (INC_dest, 2) ∧
    pcAfter (execute plainHost (boot [INC_dest, 0x00])) = some 2 ∧
    (get_opcode "VMMALLOC".toList, get_opcode_size "VMMALLOC".toList) = (VMMALLOC, 3) ∧
    pcAfter (execute plainHost (boot [VMMALLOC, 0x01, 0x00])) = some 3 := by
  refine ⟨?_, ?_, ?_, ?_, ?_, ?_, ?_, ?_⟩ <;> decide

/-! ## Signed relational jumps -/

set_option maxRecDepth 20000 in
/-- C38 (the code departs from the claim): after `CMP r0, r1` at address 0 followed by a jump
to 0x0010 at address 2 (not taken means `pc = 5`): with `a = 1`, `b = 2` JGE is taken although
`a < b`; with `a = 2`, `b = 1` JG is not taken although `a > b`; with `a = b = 3` JG is taken;
with `a = 0x8000` (-32768), `b = 1` JL is not taken although `a < b`. After a compare the sign
flag is always clear and the overflow flag is bit 15 of the difference. -/
theorem signed_jumps_after_cmp :
    pcAfter (steps plainHost 2
      { boot [CMP_dest_src, 0x01, JGE_addr16, 0x10, 0x00] with r0 := 1, r1 := 2 }) = some 0x10 ∧
    pcAfter (steps plainHost 2
      { boot [CMP_dest_src, 0x01, JG_addr16, 0x10, 0x00] with r0 := 2, r1 := 1 }) = some 5 ∧
    pcAfter (steps plainHost 2
      { boot [CMP_dest_src, 0x01, JG_addr16, 0x10, 0x00] with r0 := 3, r1 := 3 }) = some 0x10 ∧
    pcAfter (steps plainHost 2
      { boot [CMP_dest_src, 0x01, JL_addr16, 0x10, 0x00] with r0 := 0x8000, r1 := 1 })
      = some 5 ∧
    (i16 1 < i16 2 ∧ i16 2 > i16 1 ∧ i16 0x8000 = -32768 ∧ i16 0x8000 < i16 1) := by
  refine ⟨?_, ?_, ?_, ?_, ?_⟩ <;> decide

/-! ## Stack bounds -/

set_option maxRecDepth 20000 in
/-- C39 (the code departs from the claim): after start-up (`sp = memSize = 1024`, the stack
empty) the guard `sp > memSize` of `pop16` is false, so no diagnostic is raised and the first
byte is read from `memory[1024]`, outside the buffer; with `sp = 1023` the second read is from
`memory[1024]`. With `sp = 1` the guard of `push16` is false too, the first byte goes to
`memory[0]` and `sp` then wraps to 0xFFFF for the second store. -/
theorem stack_access_out_of_bounds :
    (¬ ((boot []).sp > (boot []).memSize) ∧ (boot []).memory[(boot []).sp]? = none ∧
      pop16 (boot []) = Res.ub) ∧
    pop16 { boot [] with sp := 1023 } = Res.ub ∧
    (u16 ((1 : Int) - 1) = 0 ∧ u16 ((0 : Int) - 1) = 0xFFFF ∧
      push16 0x1234 { boot [] with sp := 1 } = Res.ub) := by
  refine ⟨⟨?_, ?_, ?_⟩, ?_, ?_, ?_, ?_⟩ <;> decide

/-! ## Sizes through the memory-management calls -/

/-- C40: for every state with `1 ≤ memSize ≤ 0xFFFF` and `sp ≤ memSize` and every operand,
whenever `vm_malloc`, `vm_free` or `vm_restart` returns (granting or rejecting the request)
the state it leaves satisfies the same bounds, so `memSize` is not 0; and with an allocator
that grants every request each of the three calls does return. -/
theorem memory_calls_keep_sizes (h : Host) (s : VM) (n : Nat) (hs : sizeOk s) :
    (∀ c s1, vm_malloc h n s = Res.ok c s1 → sizeOk s1) ∧
    (∀ c s1, vm_free h n s = Res.ok c s1 → sizeOk s1) ∧
    (∀ c s1, vm_restart h s = Res.ok c s1 → sizeOk s1) ∧
    ((∀ k, h.allocFails k = false) →
      (∃ c s1, vm_malloc h n s = Res.ok c s1) ∧ (∃ c s1, vm_free h n s = Res.ok c s1) ∧
      (∃ c s1, vm_restart h s = Res.ok c s1)) := by
  obtain ⟨h1, h2, h3⟩ := hs
  have hms : s.memSize < 65536 := by omega
  refine ⟨?_, ?_, ?_, ?_⟩
  · intro c s1 hr
    by_cases hbig : s.memSize + n > 0xFFFF
    · rw [vm_malloc_reject h s n hbig] at hr
      cases hr
      exact ⟨h1, h2, h3⟩
    · cases hal : h.allocFails (s.memSize + n)
      · rw [vm_malloc_grant h s n (by omega) hal] at hr
        cases hr
        exact ⟨by simp only []; omega, by simp only []; omega, by simp only []; omega⟩
      · have e : (s.memSize + n) % 65536 = s.memSize + n := by omega
        have hb : ¬ (65535 < s.memSize + n) := by omega
        simp [vm_malloc, bind_run, pure_run, ite_run, getVM, hb, e, hal, vm_exception,
          vm_exit] at hr
  · intro c s1 hr
    by_cases hbig : n ≥ s.memSize
    · rw [vm_free_reject h s n hbig] at hr
      cases hr
      exact ⟨h1, h2, h3⟩
    · cases hal : h.allocFails (s.memSize - n)
      · rw [vm_free_grant h s n hms (by omega) hal] at hr
        cases hr
        exact ⟨by simp only []; omega, by simp only []; omega, by simp only []; omega⟩
      · have e : u16 ((s.memSize : Int) - (n : Int)) = s.memSize - n := by unfold u16; omega
        simp [vm_free, bind_run, pure_run, ite_run, getVM, hbig, e, hal, vm_exception,
          vm_exit] at hr
  · intro c s1 hr
    by_cases hm : s.memSize = DEFAULT_MEMORY_SIZE
    · simp [vm_restart, bind_run, pure_run, ite_run, getVM, modifyVM, hm] at hr
      obtain ⟨-, rfl⟩ := hr
      exact ⟨by simp [hm], by simp [DEFAULT_MEMORY_SIZE], by simp [hm]⟩
    · by_cases hf : h.allocFails DEFAULT_MEMORY_SIZE = true
      · simp [vm_restart, bind_run, pure_run, ite_run, getVM, modifyVM, hm, hf, vm_exit] at hr
      · simp [vm_restart, bind_run, pure_run, ite_run, getVM, modifyVM, hm, hf] at hr
        obtain ⟨-, rfl⟩ := hr
        exact ⟨by simp, by simp [DEFAULT_MEMORY_SIZE], by simp⟩
  · intro hal
    refine ⟨?_, ?_, ?_⟩
    · by_cases hbig : s.memSize + n > 0xFFFF
      · exact ⟨_, _, vm_malloc_reject h s n hbig⟩
      · exact ⟨_, _, vm_malloc_grant h s n (by omega) (hal _)⟩
    · by_cases hbig : n ≥ s.memSize
      · exact ⟨_, _, vm_free_reject h s n hbig⟩
      · exact ⟨_, _, vm_free_grant h s n hms (by omega) (hal _)⟩
    · by_cases hm : s.memSize = DEFAULT_MEMORY_SIZE
      · simp [vm_restart, bind_run, pure_run, ite_run, getVM, modifyVM, hm]
      · simp [vm_restart, bind_run, pure_run, ite_run, getVM, modifyVM, hm, hal]

set_option maxRecDepth 20000 in
/-- Witness for C40: from start-up, `vm_free 1023` leaves `memSize = 1` and `sp = 1`, and a
further `vm_free 1` is rejected. -/
theorem memory_calls_keep_sizes_witness :
    sizeOk (boot []) ∧
    (stateAfter (vm_free plainHost 1023 (boot []))).map (fun s => (s.memSize, s.sp))
      = some (1, 1) ∧
    ∀ c s1, vm_free plainHost 1023 (boot []) = Res.ok c s1 → sizeOk s1 :=
  ⟨by decide, by decide,
   (memory_calls_keep_sizes plainHost (boot []) 1023 (by decide)).2.1⟩

end LanVM
